import Mathlib

/-!
Verification development for the ai-builder-server repository.

The embedding models the HTML reference rewriter (`updateHtmlResources`,
src/index.js:1039-1269), the generation-plan builder (`createGenerationPlan`,
src/index.js:833-1036), the stream endpoint control flow
(src/index.js:1339-1748), the save endpoint (src/index.js:1751-1994) and the
preview resolver (src/index.js:2158-2439).

Strings are modelled as lists of characters (the inputs of interest are
ASCII).  JavaScript regular-expression replacement with the `g` flag is
modelled as a left-to-right scan that, at each position, either fires the
hand-translated matcher for the concrete pattern (consuming the match and
emitting the replacement that the source callback computes, including the
declined case that re-emits the matched text verbatim) or emits one
character and advances.  The `i` flag is modelled by ASCII case folding.
-/

set_option linter.unusedVariables false

namespace AiBuilder

/-- JavaScript strings as character lists (ASCII fragment). -/
abbrev Str := List Char

/-- String literal to character list. -/
def strToL (s : String) : Str := s.toList

/-- ASCII lower casing: the effect of `String.prototype.toLowerCase` and of
the regex `i` flag on the ASCII inputs this server handles. -/
def lowerChar (c : Char) : Char :=
  match c with
  | 'A' => 'a' | 'B' => 'b' | 'C' => 'c' | 'D' => 'd' | 'E' => 'e'
  | 'F' => 'f' | 'G' => 'g' | 'H' => 'h' | 'I' => 'i' | 'J' => 'j'
  | 'K' => 'k' | 'L' => 'l' | 'M' => 'm' | 'N' => 'n' | 'O' => 'o'
  | 'P' => 'p' | 'Q' => 'q' | 'R' => 'r' | 'S' => 's' | 'T' => 't'
  | 'U' => 'u' | 'V' => 'v' | 'W' => 'w' | 'X' => 'x' | 'Y' => 'y'
  | 'Z' => 'z'
  | c => c

/-- Case-folded string. -/
def lowerStr (s : Str) : Str := s.map lowerChar

/-- Case-insensitive character comparison (regex `i` flag). -/
def ciEqChar (p c : Char) : Bool := lowerChar p == lowerChar c

/-- The regex character class `["']`. -/
def isQuote (c : Char) : Bool := c == '"' || c == '\''

/-- The characters matched by the regex class `\s` (ASCII fragment). -/
def jsWS : List Char := [' ', '\t', '\n', '\r', '\x0b', '\x0c']

/-- Case-insensitively strip `pat` from the front of `s`, returning the rest. -/
def ciPrefixRest (pat s : Str) : Option Str :=
  match pat, s with
  | [], s => some s
  | _ :: _, [] => none
  | p :: ps, c :: cs => if ciEqChar p c then ciPrefixRest ps cs else none

/-- Case-insensitive `startsWith` (used for regex look-aheads under `i`). -/
def ciStarts (pat s : Str) : Bool := (ciPrefixRest pat s).isSome

/-- Case-sensitive `String.prototype.startsWith`. -/
def csStarts (pat s : Str) : Bool := pat.isPrefixOf s

/-- Case-sensitive `String.prototype.endsWith`. -/
def csEnds (pat s : Str) : Bool := pat.isSuffixOf s

/-- Case-sensitive `String.prototype.includes`. -/
def containsSub (sub : Str) : Str → Bool
  | [] => sub.isEmpty
  | c :: cs => sub.isPrefixOf (c :: cs) || containsSub sub cs

/-- JavaScript `s.replace(sub, "")` for a plain-string pattern: remove the
first occurrence of `sub`, if any. -/
def removeFirst (sub : Str) : Str → Str
  | [] => []
  | c :: cs =>
    if sub.isPrefixOf (c :: cs) then (c :: cs).drop sub.length
    else c :: removeFirst sub cs

/-- Greedy run of characters outside `bad` (the class `[^…]+`/`[^…]*`),
returning the run and the rest. -/
def takeRunNot (bad : List Char) : Str → Str × Str
  | [] => ([], [])
  | c :: cs =>
    if c ∈ bad then ([], c :: cs)
    else
      let rt := takeRunNot bad cs
      (c :: rt.1, rt.2)

/-- Greedy run of characters inside `good` (the class `\s*`). -/
def takeRunIn (good : List Char) : Str → Str × Str
  | [] => ([], [])
  | c :: cs =>
    if c ∈ good then
      let rt := takeRunIn good cs
      (c :: rt.1, rt.2)
    else ([], c :: cs)

/-- Split a string on a character, JavaScript `String.prototype.split`. -/
def splitOnChar (sep : Char) : Str → List Str
  | [] => [[]]
  | c :: cs =>
    let r := splitOnChar sep cs
    if c = sep then [] :: r
    else
      match r with
      | h :: t => (c :: h) :: t
      | [] => [[c]]

/-! ## The compiled first rewrite rule

`new RegExp("href=[\"']/preview/" + projectId + "/index[\"']", "gi")`
interpolates `projectId` into regex source text, so a `|` inside it splits
the whole pattern into alternatives.  The compiled pattern is modelled for
project ids whose only regex metacharacter is `|`; every other character is
matched literally (case-insensitively). -/

/-- One item of the compiled rule-1 pattern. -/
inductive PatItem where
  | lit (c : Char)
  | quoteCls
deriving DecidableEq

/-- Literal pattern items for a string. -/
def litItems (s : Str) : List PatItem := s.map PatItem.lit

/-- Items preceding the project id in the rule-1 pattern source. -/
def r1Pre : List PatItem :=
  litItems (strToL "href=") ++ [PatItem.quoteCls] ++ litItems (strToL "/preview/")

/-- Items following the project id in the rule-1 pattern source. -/
def r1Suf : List PatItem := litItems (strToL "/index") ++ [PatItem.quoteCls]

/-- Alternatives arising from the tail pieces of a `|`-split project id. -/
def r1AltsGo : List Str → List (List PatItem)
  | [] => []
  | [q] => [litItems q ++ r1Suf]
  | q :: qs => litItems q :: r1AltsGo qs

/-- The compiled alternatives of the rule-1 regex for a given project id. -/
def r1Alts (pid : Str) : List (List PatItem) :=
  match splitOnChar '|' pid with
  | [] => [r1Pre ++ r1Suf]
  | [p] => [r1Pre ++ litItems p ++ r1Suf]
  | p :: ps => (r1Pre ++ litItems p) :: r1AltsGo ps

/-- Match a pattern-item sequence at the head of the input, returning the
number of characters consumed. -/
def matchItems : List PatItem → Str → Option Nat
  | [], _ => some 0
  | _ :: _, [] => none
  | PatItem.lit p :: ps, c :: cs =>
    if ciEqChar p c then (matchItems ps cs).map (· + 1) else none
  | PatItem.quoteCls :: ps, c :: cs =>
    if isQuote c then (matchItems ps cs).map (· + 1) else none

/-- First alternative that matches, in pattern order. -/
def tryAlts (alts : List (List PatItem)) (s : Str) : Option Nat :=
  match alts with
  | [] => none
  | a :: rest =>
    match matchItems a s with
    | some n => some n
    | none => tryAlts rest s

/-! ## Replacement text builders (the template literals of the callbacks) -/

/-- `href="/preview/PID"`. -/
def rootHref (pid : Str) : Str := strToL "href=\"/preview/" ++ pid ++ ['"']

/-- `href="/preview/PID/NAME"`. -/
def pageHref (pid name : Str) : Str :=
  strToL "href=\"/preview/" ++ pid ++ '/' :: name ++ ['"']

/-- `onclick="location.href='/preview/PID'"`. -/
def onclickRoot (pid : Str) : Str :=
  strToL "onclick=\"location.href='/preview/" ++ pid ++ strToL "'\""

/-- `onclick="location.href='/preview/PID/NAME'"`. -/
def onclickPage (pid name : Str) : Str :=
  strToL "onclick=\"location.href='/preview/" ++ pid ++ '/' :: name ++ strToL "'\""

/-- `window.location.href = '/preview/PID'`. -/
def windowRoot (pid : Str) : Str :=
  strToL "window.location.href = '/preview/" ++ pid ++ ['\'']

/-- `window.location.href = '/preview/PID/NAME'`. -/
def windowPage (pid name : Str) : Str :=
  strToL "window.location.href = '/preview/" ++ pid ++ '/' :: name ++ ['\'']

/-! ## Rewrite context -/

/-- The per-call data of `updateHtmlResources`: the project id, the
lower-cased page-name list `allPageNames`, and the raw names from which the
`pageNameMap` (lower case to declared case, later entries winning) is read. -/
structure RewCtx where
  pid : Str
  allPageNames : List Str
  rawNames : List Str
deriving Repr

/-- `pageNameMap[low]`: the declared-case name for a lower-cased key; the
`forEach` building the map lets later entries overwrite earlier ones. -/
def pageNameMapGet (ctx : RewCtx) (low : Str) : Option Str :=
  (ctx.rawNames.filter (fun n => decide (n ≠ []) && (lowerStr n == low))).getLast?

/-- Declared-case name used in a replacement: map hit or the capture itself
(`pageNameMap[pageNameLower] || pageName`). -/
def declaredName (ctx : RewCtx) (capture : Str) : Str :=
  (pageNameMapGet ctx (lowerStr capture)).getD capture

/-! ## The matchers

Each matcher is the hand translation of one concrete pattern at the current
position.  It returns `none` when the pattern does not match there, and
`some (n, r)` when the pattern matches `n` characters which the `replace`
callback turns into `r` — with `r` the matched text itself when the callback
declines (returns `match`). -/

/-- Rule 1, `new RegExp("href=[\"']/preview/PID/index[\"']", "gi")`
(src/index.js:1084): collapse the malformed canonical index link.  The
projectId is interpolated into the pattern unescaped, so this translation —
literal characters except for `'|'`, which splits the pattern into the
alternatives of `r1Alts` — is the regex the source compiles exactly when
every character of the id is regex-literal or `'|'` (see `regexSafePid`).
An id with another metacharacter makes `new RegExp` throw a SyntaxError
(caught at src/index.js:1265-1268) or match non-literally; neither behaviour
is modelled here. -/
def matchR1 (pid : Str) (s : Str) : Option (Nat × Str) :=
  (tryAlts (r1Alts pid) s).map (fun n => (n, rootHref pid))

/-- Characters that are metacharacters in a `new RegExp` pattern source.
(`'|'` is handled separately: `r1Alts` models its alternation.) -/
def regexMetaChars : List Char :=
  ['\\', '^', '$', '.', '*', '+', '?', '(', ')', '[', ']', '\x7b', '\x7d']

/-- Project ids whose characters are all regex-literal or `'|'`: for these
the interpolated rule-1 pattern compiles and `matchR1` is its faithful
model; outside this class the source's `new RegExp` throws (and the catch
returns the html unchanged) or the pattern matches non-literally. -/
def regexSafePid (pid : Str) : Bool :=
  pid.all (fun c => !(regexMetaChars.contains c))

/-- Rule 2, `/href=["'](?!\/preview\/)([^"'#/]+)\.html["']/gi`
(src/index.js:1093): links with a `.html` suffix. -/
def matchR2 (ctx : RewCtx) (s : Str) : Option (Nat × Str) :=
  match ciPrefixRest (strToL "href=") s with
  | none => none
  | some s1 =>
    match s1 with
    | [] => none
    | q :: s2 =>
      if isQuote q then
        if ciStarts (strToL "/preview/") s2 then none
        else
          let rt := takeRunNot ['"', '\'', '#', '/'] s2
          let r := rt.1
          match rt.2 with
          | [] => none
          | qc :: _ =>
            if isQuote qc ∧ 6 ≤ r.length ∧
                lowerStr (r.drop (r.length - 5)) = strToL ".html" then
              let capture := r.take (r.length - 5)
              let n := 5 + 1 + r.length + 1
              let low := lowerStr capture
              if low ∈ ctx.allPageNames then
                if low = strToL "index" then some (n, rootHref ctx.pid)
                else some (n, pageHref ctx.pid (declaredName ctx capture))
              else some (n, s.take n)
            else none
      else none

/-- Rule 3, `/href=["'](?!\/preview\/)(\.\/|index)["']/gi`
(src/index.js:1115): home links. -/
def matchR3 (ctx : RewCtx) (s : Str) : Option (Nat × Str) :=
  match ciPrefixRest (strToL "href=") s with
  | none => none
  | some s1 =>
    match s1 with
    | [] => none
    | q :: s2 =>
      if isQuote q then
        if ciStarts (strToL "/preview/") s2 then none
        else
          match s2 with
          | a :: b :: qc :: _ =>
            if a = '.' ∧ b = '/' then
              (if isQuote qc then some (5 + 1 + 2 + 1, rootHref ctx.pid) else none)
            else
              match ciPrefixRest (strToL "index") s2 with
              | some (qc2 :: _) =>
                if isQuote qc2 then some (5 + 1 + 5 + 1, rootHref ctx.pid) else none
              | _ => none
          | _ =>
            match ciPrefixRest (strToL "index") s2 with
            | some (qc2 :: _) =>
              if isQuote qc2 then some (5 + 1 + 5 + 1, rootHref ctx.pid) else none
            | _ => none
      else none

/-- Rule 4, `/href=["'](?!\/preview\/|https?:\/\/|\/|#)([^"'#/]+)["']/gi`
(src/index.js:1121): extensionless page-name links, with the callback's
extra validation. -/
def matchR4 (ctx : RewCtx) (s : Str) : Option (Nat × Str) :=
  match ciPrefixRest (strToL "href=") s with
  | none => none
  | some s1 =>
    match s1 with
    | [] => none
    | q :: s2 =>
      if isQuote q then
        if ciStarts (strToL "/preview/") s2 ∨ ciStarts (strToL "http://") s2 ∨
            ciStarts (strToL "https://") s2 ∨ csStarts (strToL "/") s2 ∨
            csStarts (strToL "#") s2 then none
        else
          let rt := takeRunNot ['"', '\'', '#', '/'] s2
          let r := rt.1
          match rt.2 with
          | [] => none
          | qc :: _ =>
            if isQuote qc ∧ r ≠ [] then
              let n := 5 + 1 + r.length + 1
              let low := lowerStr r
              if ('.' ∉ r) ∧ ('/' ∉ r) ∧ (':' ∉ r) ∧ low ∈ ctx.allPageNames then
                if low = strToL "index" then some (n, rootHref ctx.pid)
                else some (n, pageHref ctx.pid (declaredName ctx r))
              else some (n, s.take n)
            else none
      else none

/-- The quote tail `['"]?["']` of the onclick pattern: number of quote
characters consumed after the capture-closing quote (greedy optional, then
one required quote). -/
def onclickTail : Str → Option Nat
  | [] => none
  | [a] => if isQuote a then some 1 else none
  | a :: b :: _ =>
    if isQuote a then (if isQuote b then some 2 else some 1) else none

/-- The onclick rule,
`/onclick=["']location\.href=["']([^"']+)["']['"]?["']/gi`
(src/index.js:1160), with its callback. -/
def matchOnclick (ctx : RewCtx) (s : Str) : Option (Nat × Str) :=
  match ciPrefixRest (strToL "onclick=") s with
  | none => none
  | some s1 =>
    match s1 with
    | [] => none
    | q1 :: s2 =>
      if isQuote q1 then
        match ciPrefixRest (strToL "location.href=") s2 with
        | none => none
        | some s3 =>
          match s3 with
          | [] => none
          | q2 :: s4 =>
            if isQuote q2 then
              let ct := takeRunNot ['"', '\''] s4
              let cap := ct.1
              if cap = [] then none
              else
                match ct.2 with
                | [] => none
                | q3 :: t2 =>
                  if isQuote q3 then
                    match onclickTail t2 with
                    | none => none
                    | some extra =>
                      let n := 8 + 1 + 14 + 1 + cap.length + 1 + extra
                      if csEnds (strToL ".html") cap then
                        let pageName := removeFirst (strToL ".html") cap
                        let low := lowerStr pageName
                        if low ∈ ctx.allPageNames then
                          if low = strToL "index" then some (n, onclickRoot ctx.pid)
                          else some (n, onclickPage ctx.pid (declaredName ctx pageName))
                        else some (n, s.take n)
                      else
                        if (¬ csStarts (strToL "http") cap) ∧ ('.' ∉ cap) ∧
                            ('/' ∉ cap) then
                          let low := lowerStr cap
                          if low ∈ ctx.allPageNames then
                            if low = strToL "index" then some (n, onclickRoot ctx.pid)
                            else some (n, onclickPage ctx.pid (declaredName ctx cap))
                          else some (n, s.take n)
                        else some (n, s.take n)
                  else none
            else none
      else none

/-- The navigation-script rule,
`/window\.location\.href\s*=\s*["']([^"']+)["']/gi` (src/index.js:1194),
with its callback (which only rewrites `.html`-suffixed targets). -/
def matchWindow (ctx : RewCtx) (s : Str) : Option (Nat × Str) :=
  match ciPrefixRest (strToL "window.location.href") s with
  | none => none
  | some s1 =>
    let w1t := takeRunIn jsWS s1
    match w1t.2 with
    | [] => none
    | e :: s2 =>
      if e = '=' then
        let w2t := takeRunIn jsWS s2
        match w2t.2 with
        | [] => none
        | q :: s3 =>
          if isQuote q then
            let ct := takeRunNot ['"', '\''] s3
            let cap := ct.1
            if cap = [] then none
            else
              match ct.2 with
              | [] => none
              | qc :: _ =>
                if isQuote qc then
                  let n := 20 + w1t.1.length + 1 + w2t.1.length + 1 + cap.length + 1
                  if csEnds (strToL ".html") cap then
                    let pageName := removeFirst (strToL ".html") cap
                    let low := lowerStr pageName
                    if low ∈ ctx.allPageNames then
                      if low = strToL "index" then some (n, windowRoot ctx.pid)
                      else some (n, windowPage ctx.pid (declaredName ctx pageName))
                    else some (n, s.take n)
                  else some (n, s.take n)
                else none
          else none
      else none

/-- Image rule A, `/src=["'](\/images\/[^"']+)["']/gi` (src/index.js:1215),
with the keyword-based placeholder selection. -/
def matchSrcA (s : Str) : Option (Nat × Str) :=
  match ciPrefixRest (strToL "src=") s with
  | none => none
  | some s1 =>
    match s1 with
    | [] => none
    | q :: s2 =>
      if isQuote q then
        match ciPrefixRest (strToL "/images/") s2 with
        | none => none
        | some s3 =>
          let rt := takeRunNot ['"', '\''] s3
          if rt.1 = [] then none
          else
            match rt.2 with
            | [] => none
            | qc :: _ =>
              if isQuote qc then
                let imagePath := s2.take (8 + rt.1.length)
                let n := 4 + 1 + 8 + rt.1.length + 1
                if containsSub (strToL "logo") imagePath then
                  some (n, strToL "src=\"https://picsum.photos/200/60\"")
                else if containsSub (strToL "hero") imagePath ∨
                    containsSub (strToL "banner") imagePath then
                  some (n, strToL "src=\"https://picsum.photos/1200/600\"")
                else if containsSub (strToL "user") imagePath ∨
                    containsSub (strToL "avatar") imagePath ∨
                    containsSub (strToL "profile") imagePath then
                  some (n, strToL
                    "src=\"https://ui-avatars.com/api/?name=User&size=100&background=random\"")
                else
                  some (n, strToL "src=\"https://picsum.photos/400/300\"")
              else none
      else none

/-- Image rule B, `/src=["'](?!https?:\/\/|data:|\/)(images\/[^"']+)["']/gi`
(src/index.js:1229). -/
def matchSrcB (s : Str) : Option (Nat × Str) :=
  match ciPrefixRest (strToL "src=") s with
  | none => none
  | some s1 =>
    match s1 with
    | [] => none
    | q :: s2 =>
      if isQuote q then
        if ciStarts (strToL "http://") s2 ∨ ciStarts (strToL "https://") s2 ∨
            ciStarts (strToL "data:") s2 ∨ csStarts (strToL "/") s2 then none
        else
          match ciPrefixRest (strToL "images/") s2 with
          | none => none
          | some s3 =>
            let rt := takeRunNot ['"', '\''] s3
            if rt.1 = [] then none
            else
              match rt.2 with
              | [] => none
              | qc :: _ =>
                if isQuote qc then
                  let n := 4 + 1 + 7 + rt.1.length + 1
                  some (n, strToL "src=\"https://picsum.photos/400/300\"")
                else none
      else none

/-! ## The global-replace scan -/

/-- Fuel-driven body of the global-replace scan; every step consumes at
least one character, so fuel equal to the input length is always enough. -/
def replaceScanF (m : Str → Option (Nat × Str)) : Nat → Str → Str
  | 0, s => s
  | _ + 1, [] => []
  | fuel + 1, c :: rest =>
    match m (c :: rest) with
    | some (n, r) =>
      if 0 < n ∧ n ≤ rest.length + 1 then
        r ++ replaceScanF m fuel ((c :: rest).drop n)
      else c :: replaceScanF m fuel rest
    | none => c :: replaceScanF m fuel rest

/-- JavaScript `String.prototype.replace` with a `g`-flagged regex: scan left
to right; at each position either the matcher fires (consume, emit the
callback result, continue after the match — replacements are never
rescanned) or emit one character and move on. -/
def replaceScan (m : Str → Option (Nat × Str)) (s : Str) : Str :=
  replaceScanF m s.length s

/-! ## The full rewriter -/

/-- A descriptor in `project.pages` (or the legacy shape with `name`). -/
structure PageEntry where
  pageName : Option Str := none
  name : Option Str := none
  pageId : Option Nat := none
  isMainPage : Bool := false
deriving Repr, DecidableEq

/-- JavaScript `p.pageName || p.name` (empty strings are falsy). -/
def effectiveName (p : PageEntry) : Str :=
  match p.pageName with
  | some n => if n = [] then (p.name.getD []) else n
  | none => p.name.getD []

/-- The rewrite context built at the top of `updateHtmlResources`
(src/index.js:1048-1055): `plannedPages || pages.map(...)`, lower-cased
name list, and the raw names backing the case map. -/
def buildCtx (pid : Str) (pages : List PageEntry) (planned : Option (List Str)) :
    RewCtx :=
  let raw := planned.getD (pages.map effectiveName)
  ⟨pid, raw.map lowerStr, raw⟩

/-- `updateHtmlResources` (src/index.js:1039-1269) on character lists: the
eight replacement passes in source order.  The early return for a falsy
`html` argument is the empty-string case here and the logging is dropped.
The surrounding `catch` (src/index.js:1265-1268), which returns the html
unchanged, is reachable in the source: the unescaped projectId interpolated
into the rule-1 pattern (1084) can make `new RegExp` throw a SyntaxError.
That path is not modelled — this definition always runs the eight passes —
so it is the source function only for projectIds satisfying `regexSafePid`,
the ids whose interpolated pattern compiles to the literal-save-alternation
regex that `matchR1` embeds.  Theorems whose conclusion asserts a rewrite
therefore carry a `regexSafePid` hypothesis; an identity conclusion also
holds of the source on the thrown path, since the catch returns the input. -/
def updateHtmlResourcesL (html pid currentPageName : Str) (pages : List PageEntry)
    (planned : Option (List Str)) : Str :=
  if html = [] then []
  else
    let ctx := buildCtx pid pages planned
    let h1 := replaceScan (matchR1 pid) html
    let h2 := replaceScan (matchR2 ctx) h1
    let h3 := replaceScan (matchR3 ctx) h2
    let h4 := replaceScan (matchR4 ctx) h3
    let h5 := replaceScan (matchOnclick ctx) h4
    let h6 := replaceScan (matchWindow ctx) h5
    let h7 := replaceScan matchSrcA h6
    let h8 := replaceScan matchSrcB h7
    h8

/-- `updateHtmlResources` on Lean strings. -/
def updateHtmlResources (html pid currentPageName : String)
    (pages : List PageEntry) (planned : Option (List String)) : String :=
  ⟨updateHtmlResourcesL html.toList pid.toList currentPageName.toList pages
    (planned.map (List.map String.toList))⟩

/-! ## JSON values and `JSON.parse`

`createGenerationPlan` (src/index.js:833-1036) extracts the greedy brace
match `/\{[\s\S]*\}/` from the planning response and feeds it to
`JSON.parse`; parse failure (or no match) is caught and answered with the
default single-unit plan.  JSON numbers are kept as their lexemes — no claim
depends on numeric values. -/

/-- A parsed JSON value.  Objects keep their fields in order; property reads
take the last binding, as JavaScript object literals built by `JSON.parse`
would after duplicate keys overwrite. -/
inductive Json where
  | null
  | bool (b : Bool)
  | num (lexeme : Str)
  | str (s : Str)
  | arr (items : List Json)
  | obj (fields : List (Str × Json))

/-- Last binding of a key in a field list (duplicate keys from `JSON.parse`
behave as if later ones overwrote earlier ones). -/
def lookupLastF (k : Str) : List (Str × Json) → Option Json
  | [] => none
  | (k2, v) :: rest =>
    match lookupLastF k rest with
    | some r => some r
    | none => if k2 = k then some v else none

/-- Update a field list: drop old bindings of the key and bind it at the
end.  Property reads are position-independent, so moving the key is
observationally the in-place update JavaScript performs. -/
def setFieldF (k : Str) (v : Json) : List (Str × Json) → List (Str × Json)
  | [] => [(k, v)]
  | (k2, w) :: rest =>
    if k2 = k then setFieldF k v rest else (k2, w) :: setFieldF k v rest

/-- Property read on an object (last binding wins); anything else has no
own properties in the fragment we model. -/
def getField (j : Json) (k : Str) : Option Json :=
  match j with
  | Json.obj fields => lookupLastF k fields
  | _ => none

/-- Property write on an object (any later read sees the new value); writes
on primitives are silently discarded, as in sloppy-mode JavaScript. -/
def setField (j : Json) (k : Str) (v : Json) : Json :=
  match j with
  | Json.obj fields => Json.obj (setFieldF k v fields)
  | other => other

/-- JSON whitespace. -/
def jsonWS : List Char := [' ', '\t', '\n', '\r']

/-- Skip JSON whitespace. -/
def skipWS (s : Str) : Str := s.dropWhile (fun c => c ∈ jsonWS)

/-- Decimal digit test. -/
def isDigitCh (c : Char) : Bool := '0' ≤ c ∧ c ≤ '9'

/-- Hexadecimal digit test (for `\u` escapes). -/
def isHexCh (c : Char) : Bool :=
  isDigitCh c ∨ ('a' ≤ c ∧ c ≤ 'f') ∨ ('A' ≤ c ∧ c ≤ 'F')

/-- Parse the body of a JSON string after the opening quote; returns the
decoded characters and the rest after the closing quote.  `\uXXXX` escapes
are validated and decoded positionally irrelevantly (kept as `'u'`). -/
def parseStringBody : Nat → Str → Option (Str × Str)
  | 0, _ => none
  | _ + 1, [] => none
  | fuel + 1, c :: cs =>
    if c = '"' then some ([], cs)
    else if c = '\\' then
      match cs with
      | [] => none
      | e :: cs2 =>
        if e = 'u' then
          match cs2 with
          | h1 :: h2 :: h3 :: h4 :: cs3 =>
            if isHexCh h1 ∧ isHexCh h2 ∧ isHexCh h3 ∧ isHexCh h4 then
              (parseStringBody fuel cs3).map (fun pr => ('u' :: pr.1, pr.2))
            else none
          | _ => none
        else if e ∈ ['"', '\\', '/', 'b', 'f', 'n', 'r', 't'] then
          (parseStringBody fuel cs2).map (fun pr => (e :: pr.1, pr.2))
        else none
    else if c.toNat < 32 then none
    else (parseStringBody fuel cs).map (fun pr => (c :: pr.1, pr.2))

/-- Parse a JSON number lexeme
(`-?(0|[1-9][0-9]*)(\.[0-9]+)?([eE][+-]?[0-9]+)?`). -/
def parseNumber (s : Str) : Option (Str × Str) :=
  let signLen : Nat := if s.head? = some '-' then 1 else 0
  let s1 := s.drop signLen
  match s1 with
  | [] => none
  | d :: _ =>
    if ¬ isDigitCh d then none
    else
      let intPart := if d = '0' then [d] else s1.takeWhile isDigitCh
      let s2 := s1.drop intPart.length
      let fracPart :=
        match s2 with
        | '.' :: f :: _ =>
          if isDigitCh f then '.' :: (s2.drop 1).takeWhile isDigitCh else []
        | _ => []
      let s3 := s2.drop fracPart.length
      let expPart :=
        match s3 with
        | e :: rest =>
          if e = 'e' ∨ e = 'E' then
            let sgn := if rest.head? = some '+' ∨ rest.head? = some '-' then
              rest.take 1 else []
            let digs := (rest.drop sgn.length).takeWhile isDigitCh
            if digs = [] then [] else e :: sgn ++ digs
          else []
        | [] => []
      let s4 := s3.drop expPart.length
      some (s.take signLen ++ intPart ++ fracPart ++ expPart, s4)

mutual

/-- Parse one JSON value (after leading whitespace is consumed by the
caller); returns the value and the unconsumed rest. -/
def parseValue : Nat → Str → Option (Json × Str)
  | 0, _ => none
  | _ + 1, [] => none
  | fuel + 1, c :: cs =>
    if c = '"' then (parseStringBody fuel cs).map (fun pr => (Json.str pr.1, pr.2))
    else if c = '{' then parseObjFields fuel true (skipWS cs)
    else if c = '[' then parseArrItems fuel true (skipWS cs)
    else if csStarts (strToL "true") (c :: cs) then
      some (Json.bool true, (c :: cs).drop 4)
    else if csStarts (strToL "false") (c :: cs) then
      some (Json.bool false, (c :: cs).drop 5)
    else if csStarts (strToL "null") (c :: cs) then
      some (Json.null, (c :: cs).drop 4)
    else (parseNumber (c :: cs)).map (fun pr => (Json.num pr.1, pr.2))

/-- Parse object fields from just after `{` (whitespace already skipped);
`first` marks that no field has been consumed yet. -/
def parseObjFields : Nat → Bool → Str → Option (Json × Str)
  | 0, _, _ => none
  | _ + 1, _, [] => none
  | fuel + 1, first, c :: cs =>
    if c = '}' then
      if first then some (Json.obj [], cs) else none
    else none <|>
      (do
        let khead ← if c = '"' then some () else none
        let _ := khead
        let (k, r1) ← parseStringBody fuel cs
        let r2 := skipWS r1
        match r2 with
        | ':' :: r3 =>
          let (v, r4) ← parseValue fuel (skipWS r3)
          let r5 := skipWS r4
          match r5 with
          | ',' :: r6 =>
            let (rest, r7) ← parseObjFields fuel false (skipWS r6)
            match rest with
            | Json.obj fs => some (Json.obj ((k, v) :: fs), r7)
            | _ => none
          | '}' :: r6 => some (Json.obj [(k, v)], r6)
          | _ => none
        | _ => none)

/-- Parse array items from just after `[` (whitespace already skipped). -/
def parseArrItems : Nat → Bool → Str → Option (Json × Str)
  | 0, _, _ => none
  | _ + 1, _, [] => none
  | fuel + 1, first, c :: cs =>
    if c = ']' then
      if first then some (Json.arr [], cs) else none
    else
      (do
        let (v, r1) ← parseValue fuel (c :: cs)
        let r2 := skipWS r1
        match r2 with
        | ',' :: r3 =>
          let (rest, r4) ← parseArrItems fuel false (skipWS r3)
          match rest with
          | Json.arr items => some (Json.arr (v :: items), r4)
          | _ => none
        | ']' :: r3 => some (Json.arr [v], r3)
        | _ => none)

end

/-- `JSON.parse`: one value, whole input, surrounding whitespace allowed. -/
def jsonParse (s : Str) : Option Json :=
  match parseValue (s.length + 1) (skipWS s) with
  | some (v, rest) => if skipWS rest = [] then some v else none
  | none => none

/-! ## Greedy brace extraction and the plan fallback -/

/-- Index of the first occurrence of a character. -/
def idxOfFirst (c : Char) : Str → Option Nat
  | [] => none
  | a :: as => if a = c then some 0 else (idxOfFirst c as).map (· + 1)

/-- Index of the last occurrence of a character. -/
def idxOfLast (c : Char) (s : Str) : Option Nat :=
  (idxOfFirst c s.reverse).map (fun i => s.length - 1 - i)

/-- The slice of `s` from index `i` (inclusive) to `j` (exclusive). -/
def slice (s : Str) (i j : Nat) : Str := (s.take j).drop i

/-- `planText.match(/\{[\s\S]*\}/)` (src/index.js:908): the leftmost `{`
that still has a `}` after it, matched greedily to the last `}` of the
whole text. -/
def braceSlice (s : Str) : Option Str :=
  match idxOfLast '}' s with
  | none => none
  | some j =>
    match idxOfFirst '{' (s.take j) with
    | none => none
    | some i => some (slice s i (j + 1))

/-- The fallback plan built in the `catch` of `createGenerationPlan`
(src/index.js:1025-1034). -/
def defaultPlan (prompt : Str) : Json :=
  Json.obj
    [ (strToL "type", Json.str (strToL "single"))
    , (strToL "projectName", Json.str (strToL "Website"))
    , (strToL "description", Json.str prompt)
    , (strToL "reason",
        Json.str (strToL "Default single page due to plan generation failure"))
    , (strToL "estimatedTokens", Json.num (strToL "2000"))
    , (strToL "plan", Json.obj [(strToL "prompt", Json.str prompt)]) ]

/-- JavaScript template-literal stringification of the values that can show
up while assembling prompts. -/
def jsShow (v : Option Json) : Str :=
  match v with
  | none => strToL "undefined"
  | some Json.null => strToL "null"
  | some (Json.bool true) => strToL "true"
  | some (Json.bool false) => strToL "false"
  | some (Json.num l) => l
  | some (Json.str s) => s
  | some (Json.arr _) => strToL ""
  | some (Json.obj _) => strToL "[object Object]"

/-- ASCII upper casing of one character (`toUpperCase` on `charAt(0)`). -/
def upperChar (c : Char) : Char :=
  match c with
  | 'a' => 'A' | 'b' => 'B' | 'c' => 'C' | 'd' => 'D' | 'e' => 'E'
  | 'f' => 'F' | 'g' => 'G' | 'h' => 'H' | 'i' => 'I' | 'j' => 'J'
  | 'k' => 'K' | 'l' => 'L' | 'm' => 'M' | 'n' => 'N' | 'o' => 'O'
  | 'p' => 'P' | 'q' => 'Q' | 'r' => 'R' | 's' => 'S' | 't' => 'T'
  | 'u' => 'U' | 'v' => 'V' | 'w' => 'W' | 'x' => 'X' | 'y' => 'Y'
  | 'z' => 'Z'
  | c => c

/-- `name.charAt(0).toUpperCase() + name.slice(1)`. -/
def capitalize (s : Str) : Str :=
  match s with
  | [] => []
  | c :: cs => upperChar c :: cs

/-- `join(sep)`. -/
def joinSep (sep : Str) : List Str → Str
  | [] => []
  | [x] => x
  | x :: xs => x ++ sep ++ joinSep sep xs

/-- The constant part of the design guidelines preceding the interpolated
example navigation links (src/index.js:918-951). -/
def guidelinesPre : Str := strToL
  ("\n\nCRITICAL DESIGN REQUIREMENTS - YOU MUST FOLLOW THESE EXACTLY:\n\n" ++
   "1. COLOR SCHEME (MUST BE IDENTICAL ON ALL PAGES):\n" ++
   "   - Header background: #2c3e50 (dark blue-gray)\n" ++
   "   - Header text: #ffffff (white)\n" ++
   "   - Navigation links: #ffffff (white)\n" ++
   "   - Active/hover navigation: #34495e (darker shade)\n" ++
   "   - Body background: #f4f4f4 (light gray)\n" ++
   "   - Main content background: #ffffff (white)\n" ++
   "   - Text color: #333333 (dark gray)\n" ++
   "   - Footer background: #2c3e50 (same as header)\n" ++
   "   - Footer text: #ffffff (white)\n\n" ++
   "2. LAYOUT STRUCTURE (MUST BE IDENTICAL ON ALL PAGES):\n" ++
   "   - Header: Fixed height with padding: 20px\n" ++
   "   - Navigation: Centered horizontally, links with padding: 10px 20px\n" ++
   "   - Main content: max-width: 1200px, margin: 0 auto, padding: 40px 20px\n" ++
   "   - Footer: padding: 20px, text-align: center\n\n" ++
   "3. TYPOGRAPHY (MUST BE IDENTICAL ON ALL PAGES):\n" ++
   "   - Font family: Arial, sans-serif\n" ++
   "   - H1: font-size: 36px, margin-bottom: 30px\n" ++
   "   - H2: font-size: 28px, margin-bottom: 20px\n" ++
   "   - Paragraph: line-height: 1.6\n\n" ++
   "4. NAVIGATION STRUCTURE:\n" ++
   "   The navigation must include these exact links on EVERY page:\n" ++
   "   - For the home/index page: Use the project root URL (without /index)\n" ++
   "   - For other pages: Use page names without .html extension\n" ++
   "   \n" ++
   "   Example navigation links:\n" ++
   "   ")

/-- The constant part of the design guidelines following the interpolated
example navigation links (src/index.js:958-992). -/
def guidelinesPost : Str := strToL
  ("\n\n5. ACTIVE PAGE INDICATOR:\n" ++
   "   - Add class=\"active\" to the current page's navigation link\n" ++
   "   - Active link should have different background color (#34495e)\n\n" ++
   "6. HTML STRUCTURE (MUST BE CONSISTENT):\n" ++
   "   <!DOCTYPE html>\n" ++
   "   <html lang=\"en\">\n" ++
   "   <head>\n" ++
   "     <meta charset=\"UTF-8\">\n" ++
   "     <meta name=\"viewport\" content=\"width=device-width, initial-scale=1.0\">\n" ++
   "     <title>[Page Title]</title>\n" ++
   "     <style>[EXACT SAME STYLES]</style>\n" ++
   "   </head>\n" ++
   "   <body>\n" ++
   "     <header>\n" ++
   "       <nav>\n" ++
   "         <ul>\n" ++
   "           [NAVIGATION LINKS]\n" ++
   "         </ul>\n" ++
   "       </nav>\n" ++
   "     </header>\n" ++
   "     <main>\n" ++
   "       [PAGE CONTENT]\n" ++
   "     </main>\n" ++
   "     <footer>\n" ++
   "       <p>&copy; 2023 [Project Name]. All rights reserved.</p>\n" ++
   "     </footer>\n" ++
   "   </body>\n" ++
   "   </html>\n\n" ++
   "IMPORTANT: \n" ++
   "- Do NOT use .html extension in navigation links\n" ++
   "- For home/index page link, use \"./\" or just the project path\n" ++
   "- Copy the EXACT CSS from the first page and use it on ALL other pages")

/-- Role note appended to the first page prompt (src/index.js:1009-1011). -/
def firstPageNote : Str := strToL
  ("IMPORTANT: You are creating the FIRST page. " ++
   "The design you create here will be the template for ALL other pages.")

/-- Role note appended to every later page prompt. -/
def otherPageNote : Str := strToL
  ("IMPORTANT: You MUST copy the EXACT design, colors, layout, and CSS " ++
   "from the index page. Only the main content should be different.")

/-- Outcome of the guard `plan.type === 'multi' && plan.plan?.pages?.length > 0`
(src/index.js:912): normalize these pages, or pass the plan through.
Non-array `pages` values carrying a truthy `length` would crash the source
into its fallback; they are not modelled (no claim reaches them). -/
def multiGate (plan : Json) : Option (List Json) :=
  match getField plan (strToL "type") with
  | some (Json.str t) =>
    if t = strToL "multi" then
      match getField plan (strToL "plan") with
      | some pl =>
        match getField pl (strToL "pages") with
        | some (Json.arr items) => if items.length > 0 then some items else none
        | _ => none
      | none => none
    else none
  | _ => none

/-- Is this JSON value a string? -/
def isStrJson : Option Json → Bool
  | some (Json.str _) => true
  | _ => false

/-- The string under a JSON value known to be a string. -/
def strOfJson : Option Json → Str
  | some (Json.str s) => s
  | _ => []

/-- The first-page pin (src/index.js:913-914). -/
def pinFirst (first : Json) : Json :=
  setField (setField first (strToL "pageName") (Json.str (strToL "index")))
    (strToL "isMainPage") (Json.bool true)

/-- `allPageNames = plan.plan.pages.map(p => p.pageName)` after the pin. -/
def pageNamesOfPages (pages1 : List Json) : List (Option Json) :=
  pages1.map (fun p => getField p (strToL "pageName"))

/-- The interpolated example navigation links (src/index.js:951-957). -/
def navExampleOf (nameStrs : List Str) : Str :=
  joinSep (strToL "\n   ")
    (nameStrs.map (fun name =>
      if name = strToL "index" then strToL "<a href=\"./\">Home</a>"
      else strToL "<a href=\"" ++ name ++ strToL "\">" ++ capitalize name ++
        strToL "</a>"))

/-- The per-page navigation instruction string (src/index.js:995-998). -/
def navInstructionsOf (nameStrs : List Str) : Str :=
  joinSep (strToL ", ")
    (nameStrs.map (fun name =>
      if name = strToL "index" then strToL "Home link: \"./\""
      else capitalize name ++ strToL " link: \"" ++ name ++ ['"']))

/-- The prompt augmentation map over the pinned pages
(src/index.js:994-1013). -/
def augmentPages (pages1 : List Json) : List Json :=
  let nameStrs := (pageNamesOfPages pages1).map strOfJson
  let guidelines := guidelinesPre ++ navExampleOf nameStrs ++ guidelinesPost
  let navInstructions := navInstructionsOf nameStrs
  pages1.enum.map (fun ip =>
    setField ip.2 (strToL "prompt") (Json.str
      (jsShow (getField ip.2 (strToL "prompt")) ++
       strToL "\n\nNAVIGATION LINKS: " ++ navInstructions ++
       strToL "\nCurrent page: " ++ jsShow (getField ip.2 (strToL "pageName")) ++
       strToL " (mark as active)\n\n" ++ guidelines ++ strToL "\n\n" ++
       (if ip.1 = 0 then firstPageNote else otherPageNote))))

/-- The mutated plan object: augmented pages written back under
`plan.plan.pages` and the name list recorded as `plan.plannedPages`
(src/index.js:994-1015). -/
def normalizedPlan (plan : Json) (pages1 : List Json) : Json :=
  let planField := (getField plan (strToL "plan")).getD Json.null
  let plan1 := setField plan (strToL "plan")
    (setField planField (strToL "pages") (Json.arr (augmentPages pages1)))
  setField plan1 (strToL "plannedPages")
    (Json.arr ((pageNamesOfPages pages1).map (fun n => n.getD Json.null)))

/-- The multi-page normalization of `createGenerationPlan`
(src/index.js:913-1016): pin the first page to `pageName "index"` /
`isMainPage true`, build the navigation example and instruction strings,
augment every page prompt, and record `plannedPages`.  Returns `none` when
the source would throw a `TypeError` (a page name that is not a string
reaches `name.charAt` while the guideline text is interpolated), which the
enclosing `catch` converts into the default plan. -/
def normalizeMulti (plan : Json) (pages : List Json) : Option Json :=
  match pages with
  | [] => none
  | first :: rest =>
    let pages1 := pinFirst first :: rest
    if (pageNamesOfPages pages1).all isStrJson then
      some (normalizedPlan plan pages1)
    else none

/-- The response-processing core of `createGenerationPlan`
(src/index.js:905-1035), parameterized by the planning-response text: greedy
brace extraction, `JSON.parse`, multi-page normalization, and the `catch`
that converts any failure (no match, parse error, normalization
`TypeError`) into the default single-unit plan. -/
def createGenerationPlanCore (planText prompt : Str) : Json :=
  match braceSlice planText with
  | none => defaultPlan prompt
  | some sub =>
    match jsonParse sub with
    | none => defaultPlan prompt
    | some plan =>
      match multiGate plan with
      | none => plan
      | some pages =>
        match normalizeMulti plan pages with
        | some p2 => p2
        | none => defaultPlan prompt

/-! ## The stream endpoint

The `/api/stream` handler (src/index.js:1339-1748) is modelled as a trace of
the frames and timer actions it performs, parameterized over the outcomes of
its awaited calls.  `timerStart`/`timerStop` are the `setInterval` /
`clearInterval` pair around the 10 s keep-alive ping; `done` is the
`[DONE]` sentinel frame.  Writes to a destroyed socket are swallowed by the
`try` inside `sendEvent`/`sendMessage`, so a frame is traced whenever the
handler emits it, connected or not. -/

/-- The keep-alive interval of the stream endpoint (src/index.js:1417). -/
def pingIntervalMs : Nat := 10000

/-- Observable actions of one stream-endpoint execution. -/
inductive StreamEv where
  | timerStart
  | timerStop
  | status
  | delta
  | completion
  | errEv
  | done
deriving DecidableEq, Repr

/-- Result of the retry loop around `anthropic.messages.create`
(src/index.js:1662-1690). -/
inductive RetryResult where
  | ok (retries : Nat) (backoffs : List Nat)
  | err (backoffs : List Nat)
deriving DecidableEq, Repr

/-- One step of `while (retryCount < maxRetries && !stream)` with
`maxRetries = 3`: attempt, and on failure either back off
`3000 * retryCount` ms and go round again or rethrow.  `outcome k` tells
whether attempt number `k` (zero-based) succeeds. -/
def retryFrom (outcome : Nat → Bool) : Nat → Nat → List Nat → RetryResult
  | 0, _, acc => RetryResult.err acc.reverse
  | fuel + 1, retryCount, acc =>
    if retryCount < 3 then
      if outcome retryCount then RetryResult.ok retryCount acc.reverse
      else
        let rc := retryCount + 1
        if rc < 3 then retryFrom outcome fuel rc ((3000 * rc) :: acc)
        else RetryResult.err acc.reverse
    else RetryResult.err acc.reverse

/-- The whole retry loop (three attempts are at most three loop entries). -/
def retryLoop (outcome : Nat → Bool) : RetryResult := retryFrom outcome 4 0 []

/-- What one request to the stream endpoint encounters: the two-stage plan
branch with its result, or the direct generation branch with the retry
outcomes, a number of streamed chunks, and whether the client disconnects
before the chunk loop. -/
inductive StreamScenario where
  | twoStage (result : Except Str Str)
  | direct (outcome : Nat → Bool) (chunks : Nat) (disconnect : Bool)

/-- The frame/timer trace of one stream-endpoint execution
(src/index.js:1390-1747).  Success paths send `[DONE]` and then run
`cleanup`; the error paths of the two-stage branch send the error frame,
`[DONE]`, then `cleanup`; the outer catch sends the error frame, runs
`cleanup`, then sends `[DONE]`.  A disconnect fires the `close` handler
(`cleanup`), the chunk loop breaks, and the completion path still runs. -/
def streamTrace : StreamScenario → List StreamEv
  | StreamScenario.twoStage (Except.ok html) =>
    StreamEv.timerStart :: List.replicate ((html.length + 99) / 100) StreamEv.delta ++
      [StreamEv.completion, StreamEv.done, StreamEv.timerStop]
  | StreamScenario.twoStage (Except.error _) =>
    [StreamEv.timerStart, StreamEv.errEv, StreamEv.done, StreamEv.timerStop]
  | StreamScenario.direct outcome chunks disconnect =>
    StreamEv.timerStart ::
      match retryLoop outcome with
      | RetryResult.err _ => [StreamEv.errEv, StreamEv.timerStop, StreamEv.done]
      | RetryResult.ok _ _ =>
        (if disconnect then [StreamEv.timerStop] else []) ++
          StreamEv.status ::
            List.replicate (if disconnect then 0 else chunks) StreamEv.delta ++
          [StreamEv.completion, StreamEv.done, StreamEv.timerStop]

/-! ## The document store and the save endpoint -/

/-- A persisted `Project` aggregate. -/
structure Project where
  id : Nat
  name : Str := []
  description : Str := []
  generationType : Str := strToL "single"
  pages : List PageEntry := []
  plannedPages : List Str := []
deriving Repr, DecidableEq

/-- A persisted `Page` document (the fields the claims touch). -/
structure PageDoc where
  id : Nat
  prompt : Str := []
  html : Str := []
  originalHtml : Str := []
  isModification : Bool := false
  originalPrompt : Str := []
  projectId : Option Nat := none
  pageName : Str := strToL "index"
  pageType : Str := strToL "main"
  modificationHistory : List Str := []
deriving Repr, DecidableEq

/-- The document store. -/
structure Store where
  projects : List Project := []
  pages : List PageDoc := []
  nextId : Nat := 1
deriving Repr, DecidableEq

/-- Find a project by id. -/
def findProject (st : Store) (pid : Nat) : Option Project :=
  st.projects.find? (fun p => p.id = pid)

/-- Find a page document by id. -/
def findPageDoc (st : Store) (pgid : Nat) : Option PageDoc :=
  st.pages.find? (fun p => p.id = pgid)

/-- JavaScript `a || b` for optional strings (empty strings are falsy). -/
def jsOrStr (a : Option Str) (b : Str) : Str :=
  match a with
  | some s => if s = [] then b else s
  | none => b

/-- JavaScript `String.prototype.trim` (ASCII whitespace). -/
def jsTrim (s : Str) : Str :=
  ((s.dropWhile (fun c => c ∈ jsWS)).reverse.dropWhile (fun c => c ∈ jsWS)).reverse

/-- Decimal rendering of a model id (`toString` of the id). -/
def natStr (n : Nat) : Str := strToL (toString n)

/-- Template-literal rendering of `currentProjectId`, which is `null` when
no project is in play (``/preview/${null}`` renders as `/preview/null`). -/
def pidS (cpid : Option Nat) : Str :=
  match cpid with
  | some n => natStr n
  | none => strToL "null"

/-- The built-in error template `createDefaultHTML`
(src/index.js:1835-1854), parameterized by the page name and closing over
`projectName`. -/
def defaultHTML (pageName : Str) (projectName : Option Str) : Str :=
  strToL "<!DOCTYPE html>\n<html lang=\"en\">\n<head>\n    <meta charset=\"UTF-8\">\n    <meta name=\"viewport\" content=\"width=device-width, initial-scale=1.0\">\n    <title>" ++
  pageName ++ strToL " - " ++ jsOrStr projectName (strToL "Website") ++
  strToL "</title>\n    <style>\n        body \x7b font-family: Arial, sans-serif; margin: 0; padding: 0; \x7d\n        .error \x7b padding: 50px; text-align: center; color: #dc3545; \x7d\n    </style>\n</head>\n<body>\n    <div class=\"error\">\n        <h1>페이지 생성 오류</h1>\n        <p>이 페이지는 생성 중 오류가 발생했습니다.</p>\n    </div>\n</body>\n</html>"

/-- The body of a `/api/save` request, with the destructuring defaults of
src/index.js:1753-1767. -/
structure SaveReq where
  prompt : Str := []
  html : Str
  isModification : Bool := false
  originalPrompt : Option Str := none
  projectId : Option Nat := none
  pageId : Option Nat := none
  pageName : Str := strToL "index"
  pageType : Str := strToL "main"
  projectName : Option Str := none
  projectDescription : Option Str := none
  generationType : Str := strToL "single"
  plannedPages : List Str := []
deriving Repr

/-- The responses of the save endpoint. -/
inductive SaveResp where
  | badRequest
  | projNotFound
  | okResp (id : Nat) (projectId : Option Nat) (pageName : Str)
      (generationType : Str) (isModification : Bool)
deriving Repr, DecidableEq

/-- Replace the `pageId` of the first descriptor carrying this page name
(the `findIndex` update of src/index.js:1964-1966). -/
def updFirstEntry (pageName : Str) (pgid : Nat) : List PageEntry → List PageEntry
  | [] => []
  | e :: es =>
    if e.pageName = some pageName then { e with pageId := some pgid } :: es
    else e :: updFirstEntry pageName pgid es

/-- The descriptor-list update the save endpoint applies to the resolved
project (src/index.js:1963-1973): re-point an existing descriptor, or push
a new one. -/
def savePagesUpdate (pageName : Str) (isMain : Bool) (savedId : Nat)
    (pages : List PageEntry) : List PageEntry :=
  if (pages.find? (fun e => e.pageName = some pageName)).isSome then
    updFirstEntry pageName savedId pages
  else
    pages ++ [{ pageName := some pageName
              , pageId := some savedId
              , isMainPage := isMain : PageEntry }]

/-- The project created by a non-modification save that carries a project
name but no project id (src/index.js:1790-1806). -/
def newProjectOf (req : SaveReq) (st : Store) : Project :=
  { id := st.nextId
  , name := req.projectName.getD []
  , description := jsOrStr req.projectDescription req.prompt
  , generationType := req.generationType
  , pages := []
  , plannedPages := req.plannedPages }

/-- The `/api/save` handler (src/index.js:1751-1994) as a store transformer.
Mongoose id-format validation cannot fail for model ids, so the 400 branch
for malformed ids is unreachable here. -/
def saveHandler (req : SaveReq) (st : Store) : Store × SaveResp :=
  if req.html = [] then (st, SaveResp.badRequest)
  else
    let resolved : Option (Store × Option Nat × Option Project) :=
      match req.projectId with
      | some pid =>
        match findProject st pid with
        | none => none
        | some p => some (st, some pid, some p)
      | none =>
        if (jsOrStr req.projectName []) ≠ [] then
          some
            ({ st with
                projects := st.projects ++ [newProjectOf req st]
                nextId := st.nextId + 1 },
              some st.nextId, some (newProjectOf req st))
        else some (st, none, none)
    match resolved with
    | none => (st, SaveResp.projNotFound)
    | some (st1, cpid, proj) =>
      let short := (jsTrim req.html).length < 50
      let tmpl := defaultHTML req.pageName req.projectName
      let finalHtml1 := if short then tmpl else req.html
      let originalHtml1 := if short then tmpl else req.html
      let finalHtml2 :=
        match cpid, proj with
        | some pid, some p =>
          if req.generationType = strToL "multi" then
            let allPages :=
              if (p.pages.find? (fun e => e.pageName = some req.pageName)).isSome then
                p.pages
              else
                p.pages ++ [{ pageName := some req.pageName
                            , isMainPage := req.pageType = strToL "main" : PageEntry }]
            updateHtmlResourcesL req.html (natStr pid) req.pageName allPages
              (some p.plannedPages)
          else finalHtml1
        | _, _ => finalHtml1
      let existing :=
        if req.isModification then req.pageId.bind (findPageDoc st1) else none
      let projPages := match proj with | some p => p.pages | none => []
      let projPlanned := match proj with | some p => p.plannedPages | none => []
      let finalHtml3 := updateHtmlResourcesL finalHtml2 (pidS cpid) req.pageName
        projPages (some projPlanned)
      let saved : Store × Nat :=
        match existing with
        | some ep =>
          let ep2 := { ep with
            html := finalHtml3
            , prompt := req.prompt
            , isModification := true
            , modificationHistory := ep.modificationHistory ++ [req.prompt] }
          ({ st1 with pages := st1.pages.map (fun q => if q.id = ep.id then ep2 else q) },
            ep.id)
        | none =>
          let pg : PageDoc :=
            { id := st1.nextId
            , prompt := req.prompt
            , html := finalHtml3
            , originalHtml := originalHtml1
            , isModification := req.isModification
            , originalPrompt := jsOrStr req.originalPrompt req.prompt
            , projectId := cpid
            , pageName := req.pageName
            , pageType := req.pageType }
          ({ st1 with pages := st1.pages ++ [pg], nextId := st1.nextId + 1 }, st1.nextId)
      let st2 := saved.1
      let savedId := saved.2
      let st3 :=
        match proj with
        | some p =>
          { st2 with projects := st2.projects.map (fun q =>
              if q.id = p.id then
                { q with pages := (savePagesUpdate req.pageName
                    (req.pageType = strToL "main") savedId p.pages) }
              else q) }
        | none => st2
      (st3, SaveResp.okResp savedId cpid req.pageName req.generationType
        req.isModification)

/-! ## The preview resolver -/

/-- Responses of the `/preview/:projectId/:pageName` endpoint, with the
structured 404 carried as its page list (display name, canonical URL). -/
inductive PreviewResp where
  | projNotFound
  | pageInfoMissing (available : List (Option Str × Str))
  | pageDataMissing
  | served (html : Str)
deriving Repr, DecidableEq

/-- Template-literal rendering of a possibly missing descriptor name. -/
def jsShowStr (o : Option Str) : Str :=
  match o with
  | some s => s
  | none => strToL "undefined"

/-- The `.html`-suffix strip applied to the requested page name
(src/index.js:2163-2165). -/
def stripHtmlSuffix (rawName : Str) : Str :=
  if csEnds (strToL ".html") rawName then rawName.take (rawName.length - 5)
  else rawName

/-- The available-pages list of the structured 404
(src/index.js:2213-2216): each descriptor of `project.pages` with its
canonical URL. -/
def availablePagesList (pid : Nat) (project : Project) : List (Option Str × Str) :=
  project.pages.map (fun p =>
    (p.pageName,
      if p.pageName = some (strToL "index") then strToL "/preview/" ++ natStr pid
      else strToL "/preview/" ++ natStr pid ++ '/' :: jsShowStr p.pageName))

/-- Descriptor resolution: exact match on `pageName` or the legacy `name`
field (src/index.js:2201). -/
def findPageInfo (project : Project) (pageName : Str) : Option PageEntry :=
  project.pages.find? (fun p =>
    p.pageName = some pageName ∨ p.name = some pageName)

/-- The `<head>` metadata block injected before serving a sub-page
(src/index.js:2384-2394). -/
def metaInject (pid : Nat) (projectName pageName html : Str) : Str :=
  let block := strToL "<head>\n        <meta charset=\"UTF-8\">\n        <meta name=\"viewport\" content=\"width=device-width, initial-scale=1.0\">\n        <meta name=\"generator\" content=\"AI Web Builder\">\n        <meta name=\"projectId\" content=\"" ++
    natStr pid ++ strToL "\">\n        <meta name=\"projectName\" content=\"" ++
    projectName ++ strToL "\">\n        <meta name=\"pageName\" content=\"" ++
    pageName ++ strToL "\">\n      "
  match html with
  | [] => []
  | c :: cs =>
    if (strToL "<head>").isPrefixOf (c :: cs) then block ++ (c :: cs).drop 6
    else c :: metaInject pid projectName pageName cs

/-- The `/preview/:projectId/:pageName` handler (src/index.js:2158-2439):
strip a `.html` suffix, resolve the project, resolve the descriptor by
`pageName`/legacy `name`, fall back to a lookup by (projectId, pageName)
when the descriptor has no page reference, 404 with the page list when the
descriptor is missing, and otherwise rewrite defensively and serve. -/
def previewPage (st : Store) (pid : Nat) (rawName : Str) : PreviewResp :=
  let pageName := stripHtmlSuffix rawName
  match findProject st pid with
  | none => PreviewResp.projNotFound
  | some project =>
    match findPageInfo project pageName with
    | none => PreviewResp.pageInfoMissing (availablePagesList pid project)
    | some pageInfo =>
      match pageInfo.pageId with
      | none =>
        match st.pages.find? (fun pg =>
            pg.projectId = some pid ∧ pg.pageName = pageName) with
        | some page =>
          PreviewResp.served (metaInject pid project.name pageName
            (updateHtmlResourcesL page.html (natStr pid) pageName project.pages
              (some (project.pages.map effectiveName))))
        | none => PreviewResp.pageDataMissing
      | some pgid =>
        match findPageDoc st pgid with
        | none => PreviewResp.pageDataMissing
        | some page =>
          PreviewResp.served (metaInject pid project.name pageName
            (updateHtmlResourcesL page.html (natStr pid) pageName project.pages
              (some (project.pages.map (fun p => p.pageName.getD [])))))

/-! ## Observers used by the claim statements -/

/-- The list under an optional JSON array value. -/
def pagesArrOf : Option Json → List Json
  | some (Json.arr l) => l
  | _ => []

/-- The pages array under `plan.plan.pages` of a plan value. -/
def planPagesOf (j : Json) : List Json :=
  pagesArrOf ((getField j (strToL "plan")).bind
    (fun pl => getField pl (strToL "pages")))

/-- The `pageName` of the first planned page, when there is one. -/
def firstPageNameOf (j : Json) : Option Json :=
  (planPagesOf j).head?.bind (fun p => getField p (strToL "pageName"))

/-- The `isMainPage` flag of the first planned page, when there is one. -/
def firstPageMainOf (j : Json) : Option Json :=
  (planPagesOf j).head?.bind (fun p => getField p (strToL "isMainPage"))

/-- The invariant of C8: every page name recorded in `project.pages` is one
of the project's planned pages. -/
def projInvariant (p : Project) : Prop :=
  ∀ e ∈ p.pages, ∀ n, e.pageName = some n → n ∈ p.plannedPages

/-- The page names recorded in a project's descriptor list. -/
def projNames (p : Project) : List (Option Str) := p.pages.map PageEntry.pageName

/-! ## Notions used by the rewriter theorems -/

/-- A string fragment free of quote characters; the compositional rewriter
theorems embed one link attribute in such context. -/
def NoQ (s : Str) : Prop := ∀ c ∈ s, isQuote c = false

/-- An html string holding one quoted `href` attribute with value `t`,
between arbitrary context fragments `u` and `v`. -/
def attrW (u : Str) (q1 : Char) (t : Str) (q2 : Char) (v : Str) : Str :=
  u ++ (strToL "href=" ++ (q1 :: (t ++ (q2 :: v))))

/-- A hygienic page-name-like fragment: non-empty and free of the quote,
hash, slash, dot and colon characters that the rewriter's character
classes and callback checks inspect. -/
def CleanName (t : Str) : Prop :=
  t ≠ [] ∧ ∀ c ∈ t, c ≠ '"' ∧ c ≠ '\'' ∧ c ≠ '#' ∧ c ≠ '/' ∧ c ≠ '.' ∧ c ≠ ':'

/-- Hygiene for the project id embedded in replacements: no quotes and no
`|` regex metacharacter. -/
def CleanPid (pid : Str) : Prop :=
  ('|' ∉ pid) ∧ ∀ c ∈ pid, c ≠ '"' ∧ c ≠ '\''

/-- The context hypotheses shared by the compositional theorems: no quotes
around the attribute, and the prefix does not end in (a case variant of)
`window.location.`, which would let the navigation-script pattern bridge
into the attribute's own `href`. -/
def CleanCtx (u v : Str) : Prop :=
  NoQ u ∧ NoQ v ∧ ¬ (strToL "window.location.").IsSuffix (lowerStr u)

/-! # Theorems -/

/-- C1.  The reference rewriter is not idempotent as claimed: the claim
quantifies over every projectId, but `updateHtmlResources` splices the
project id into regex source text unescaped (src/index.js:1084), so a `|`
in it splits rule 1 into alternatives.  With projectId `a|b` the input
`b/index"` matches the second alternative and is replaced by the canonical
root link, whose prefix `href="/preview/a` then matches the first
alternative on the next application: rewriting twice differs from rewriting
once.  The spec's unconditional idempotence is the evident intent and the
unescaped interpolation the slip, so this is recorded against the code. -/
theorem c1_rewrite_not_idempotent_on_pipe_projectId :
    updateHtmlResources "b/index\"" "a|b" "index" [] (some []) =
        "href=\"/preview/a|b\"" ∧
      updateHtmlResources
          (updateHtmlResources "b/index\"" "a|b" "index" [] (some []))
          "a|b" "index" [] (some []) ≠
        updateHtmlResources "b/index\"" "a|b" "index" [] (some []) := by
  constructor
  · decide
  · decide

/-- C2, counterexample.  A `window.location.href` assignment whose target
`about` matches a known page name case-insensitively and has no path
separator is left completely unchanged: the navigation-script rule
(src/index.js:1194-1210) only rewrites `.html`-suffixed targets, so the
claimed coverage fails. -/
theorem c2_counterexample_bare_window_target :
    updateHtmlResources "window.location.href = 'about'" "p1" "index" []
        (some ["index", "about"]) =
      "window.location.href = 'about'" := by
  decide

/-- C3, counterexample.  An absolute (http-scheme) URL inside an onclick
navigation assignment is rewritten — not byte-identical — when a known page
name happens to equal its `.html`-stripped text: the onclick callback
(src/index.js:1160-1175) strips `.html` and consults the page-name list
before it ever looks at the scheme. -/
theorem c3_counterexample_absolute_url_rewritten :
    updateHtmlResources "onclick=\"location.href='http://x.com/about.html'\""
        "p1" "index" [] (some ["http://x.com/about"]) =
      "onclick=\"location.href='/preview/p1/http://x.com/about'\"" := by
  decide

/-- C4.  Every stream-endpoint execution — two-stage success, two-stage
error, direct success, retry exhaustion, and client disconnect — emits the
`[DONE]` sentinel exactly once and clears its keep-alive interval before
the trace ends. -/
theorem c4_stream_terminates_once (sc : StreamScenario) :
    (streamTrace sc).count StreamEv.done = 1 ∧
      StreamEv.timerStop ∈ streamTrace sc := by
  cases sc with
  | twoStage r =>
    cases r with
    | ok html =>
      refine ⟨?_, ?_⟩ <;>
        simp [streamTrace, List.count_cons, List.count_append,
          List.count_replicate, List.mem_append, List.mem_replicate]
    | error e =>
      refine ⟨?_, ?_⟩ <;> simp [streamTrace, List.count_cons]
  | direct outcome chunks d =>
    cases hr : retryLoop outcome with
    | err b =>
      refine ⟨?_, ?_⟩ <;> simp [streamTrace, hr, List.count_cons]
    | ok k b =>
      cases d <;> refine ⟨?_, ?_⟩ <;>
        simp [streamTrace, hr, List.count_cons, List.count_append,
          List.count_replicate, List.mem_append, List.mem_replicate]

/-- C7.  In the stream endpoint's retry loop, failing exactly twice and then
succeeding yields a successful result with exactly 2 recorded retries, each
preceded by a backoff of 3000 ms times the attempt count, and no error
frame; failing three times exhausts the budget and surfaces a terminal
error frame on the stream, which still emits the sentinel exactly once. -/
theorem c7_retry_bound (outcome : Nat → Bool) (chunks : Nat) (d : Bool) :
    (outcome 0 = false → outcome 1 = false → outcome 2 = true →
      retryLoop outcome = RetryResult.ok 2 [3000, 6000] ∧
        StreamEv.errEv ∉
          streamTrace (StreamScenario.direct outcome chunks d)) ∧
    (outcome 0 = false → outcome 1 = false → outcome 2 = false →
      retryLoop outcome = RetryResult.err [3000, 6000] ∧
        StreamEv.errEv ∈ streamTrace (StreamScenario.direct outcome chunks d) ∧
        (streamTrace (StreamScenario.direct outcome chunks d)).count
            StreamEv.done = 1) := by
  constructor
  · intro h0 h1 h2
    have hloop : retryLoop outcome = RetryResult.ok 2 [3000, 6000] := by
      simp [retryLoop, retryFrom, h0, h1, h2]
    refine ⟨hloop, ?_⟩
    cases d <;>
      simp [streamTrace, hloop, List.mem_append, List.mem_replicate]
  · intro h0 h1 h2
    have hloop : retryLoop outcome = RetryResult.err [3000, 6000] := by
      simp [retryLoop, retryFrom, h0, h1, h2]
    refine ⟨hloop, ?_, ?_⟩ <;> simp [streamTrace, hloop, List.count_cons]

/-- C7, witness: both branches of the retry theorem at concrete outcome
functions. -/
theorem c7_retry_bound_witness :
    retryLoop (fun n => decide (n = 2)) = RetryResult.ok 2 [3000, 6000] ∧
      retryLoop (fun _ => false) = RetryResult.err [3000, 6000] := by
  constructor
  · exact ((c7_retry_bound (fun n => decide (n = 2)) 0 false).1
      (by decide) (by decide) (by decide)).1
  · exact ((c7_retry_bound (fun _ => false) 0 false).2 rfl rfl rfl).1

/-! ## C5: plan fallback -/

theorem idxOfFirst_lt {c : Char} :
    ∀ {s : Str} {i : Nat}, idxOfFirst c s = some i → i < s.length := by
  intro s
  induction s with
  | nil => intro i h; simp [idxOfFirst] at h
  | cons a as ih =>
    intro i h
    simp only [idxOfFirst] at h
    split at h
    · cases h; simp
    · cases hf : idxOfFirst c as with
      | none => rw [hf] at h; simp at h
      | some k =>
        rw [hf] at h
        injection h with h2
        have h3 : k + 1 = i := h2
        have := ih hf
        simp only [List.length_cons]
        omega

theorem idxOfLast_le {c : Char} {s : Str} {j : Nat}
    (h : idxOfLast c s = some j) : j ≤ s.length := by
  unfold idxOfLast at h
  cases hf : idxOfFirst c s.reverse with
  | none => rw [hf] at h; exact Option.noConfusion h
  | some k =>
    rw [hf] at h
    injection h with h2
    have h3 : s.length - 1 - k = j := h2
    omega

/-- A successful greedy brace match is a slice of the text with bounded
end points. -/
theorem braceSlice_is_slice {s sub : Str} (h : braceSlice s = some sub) :
    ∃ i j, i ≤ s.length ∧ j ≤ s.length ∧ sub = slice s i (j + 1) := by
  unfold braceSlice at h
  split at h
  · exact Option.noConfusion h
  · rename_i j hl
    split at h
    · exact Option.noConfusion h
    · rename_i i hf
      simp only [Option.some.injEq] at h
      refine ⟨i, j, ?_, idxOfLast_le hl, h.symm⟩
      have h1 := idxOfFirst_lt hf
      have h2 : (s.take j).length ≤ s.length := by
        simp [List.length_take]
      omega

/-- C5.  When no JSON value can be parsed from any slice of the planning
response, `createGenerationPlan` returns the default single-unit plan with
the original prompt — the `catch` converts the extraction failure into the
fallback, so no exception escapes (the model function is total). -/
theorem c5_plan_fallback (s prompt : Str)
    (h : ∀ i, i ≤ s.length → ∀ j, j ≤ s.length →
      (jsonParse (slice s i (j + 1))).isNone = true) :
    createGenerationPlanCore s prompt = defaultPlan prompt := by
  cases hb : braceSlice s with
  | none => simp only [createGenerationPlanCore, hb]
  | some sub =>
    obtain ⟨i, j, hi, hj, hsub⟩ := braceSlice_is_slice hb
    have hnone : jsonParse sub = none := by
      have hx := h i hi j hj
      rw [← hsub] at hx
      exact Option.isNone_iff_eq_none.mp hx
    simp only [createGenerationPlanCore, hb, hnone]

/-- C5, witness: a concrete response with no JSON anywhere falls back to
the default plan. -/
theorem c5_plan_fallback_witness :
    createGenerationPlanCore (strToL "no json") (strToL "make a site") =
      defaultPlan (strToL "make a site") :=
  c5_plan_fallback (strToL "no json") (strToL "make a site") (by decide)

/-! ## C6: multi-page pinning -/

theorem lookupLastF_setFieldF_same (k : Str) (v : Json) :
    ∀ fs, lookupLastF k (setFieldF k v fs) = some v := by
  intro fs
  induction fs with
  | nil => simp [setFieldF, lookupLastF]
  | cons f fs ih =>
    obtain ⟨k2, w⟩ := f
    by_cases hk : k2 = k
    · simpa [setFieldF, hk] using ih
    · simp only [setFieldF, hk, if_false, lookupLastF, ih]

theorem lookupLastF_setFieldF_ne (k k2 : Str) (v : Json) (h : k2 ≠ k) :
    ∀ fs, lookupLastF k2 (setFieldF k v fs) = lookupLastF k2 fs := by
  have h2 : ¬ (k = k2) := fun hc => h hc.symm
  intro fs
  induction fs with
  | nil =>
    simp [setFieldF, lookupLastF, h2]
  | cons f fs ih =>
    obtain ⟨k3, w⟩ := f
    by_cases hk : k3 = k
    · subst hk
      have hset : setFieldF k3 v ((k3, w) :: fs) = setFieldF k3 v fs := by
        simp [setFieldF]
      rw [hset, ih]
      show lookupLastF k2 fs = lookupLastF k2 ((k3, w) :: fs)
      simp only [lookupLastF]
      cases hl : lookupLastF k2 fs with
      | some r => rfl
      | none => rw [if_neg h2]
    · simp only [setFieldF, hk, if_false, lookupLastF, ih]

theorem getField_setField_same (fs : List (Str × Json)) (k : Str) (v : Json) :
    getField (setField (Json.obj fs) k v) k = some v :=
  lookupLastF_setFieldF_same k v fs

theorem getField_setField_ne (j : Json) (k k2 : Str) (v : Json) (h : k2 ≠ k) :
    getField (setField j k v) k2 = getField j k2 := by
  cases j with
  | obj fs => exact lookupLastF_setFieldF_ne k k2 v h fs
  | null => rfl
  | bool b => rfl
  | num l => rfl
  | str s => rfl
  | arr l => rfl

theorem getField_some_obj {j : Json} {k : Str} {v : Json}
    (h : getField j k = some v) : ∃ fs, j = Json.obj fs := by
  cases j with
  | obj fs => exact ⟨fs, rfl⟩
  | null => exact Option.noConfusion h
  | bool b => exact Option.noConfusion h
  | num l => exact Option.noConfusion h
  | str s => exact Option.noConfusion h
  | arr l => exact Option.noConfusion h

/-- Structure forced by a successful multi gate. -/
theorem multiGate_decomp {plan : Json} {pages : List Json}
    (h : multiGate plan = some pages) :
    (∃ fs, plan = Json.obj fs) ∧
      (∃ pfs, getField plan (strToL "plan") = some (Json.obj pfs) ∧
        getField (Json.obj pfs) (strToL "pages") = some (Json.arr pages)) ∧
      pages ≠ [] := by
  unfold multiGate at h
  split at h
  · rename_i t ht
    split at h
    · rename_i htm
      split at h
      · rename_i pl hpl
        split at h
        · rename_i items hpages
          split at h
          · rename_i hlen
            simp only [Option.some.injEq] at h
            subst h
            obtain ⟨pfs, hpfs⟩ := getField_some_obj hpages
            subst hpfs
            refine ⟨getField_some_obj ht, ⟨pfs, hpl, hpages⟩, ?_⟩
            intro hnil
            rw [hnil] at hlen
            simp at hlen
          · exact Option.noConfusion h
        · exact Option.noConfusion h
      · exact Option.noConfusion h
    · exact Option.noConfusion h
  · exact Option.noConfusion h

/-- C6, counterexample.  A parsed plan of type `multi` with a non-empty
pages list whose second page proposes the numeric pageName `7` does not
come out pinned: interpolating the guideline text calls `charAt` on that
number, the `TypeError` lands in the `catch`, and the caller receives the
default single-unit plan, which has no pages at all. -/
theorem c6_counterexample_numeric_page_name :
    createGenerationPlanCore
        (strToL "\x7b\"type\":\"multi\",\"plan\":\x7b\"pages\":[\x7b\"pageName\":\"home\"\x7d,\x7b\"pageName\":7\x7d]\x7d\x7d")
        (strToL "p") =
      defaultPlan (strToL "p") ∧
    firstPageNameOf (createGenerationPlanCore
        (strToL "\x7b\"type\":\"multi\",\"plan\":\x7b\"pages\":[\x7b\"pageName\":\"home\"\x7d,\x7b\"pageName\":7\x7d]\x7d\x7d")
        (strToL "p")) = none := by
  exact ⟨rfl, rfl⟩

/-- Reading the pinned name of a pinned first page. -/
theorem pinFirst_pageName (f : List (Str × Json)) :
    getField (pinFirst (Json.obj f)) (strToL "pageName") =
      some (Json.str (strToL "index")) := by
  unfold pinFirst
  rw [getField_setField_ne _ _ _ _ (by decide)]
  exact getField_setField_same f _ _

/-- Reading the pinned main flag of a pinned first page. -/
theorem pinFirst_isMain (f : List (Str × Json)) :
    getField (pinFirst (Json.obj f)) (strToL "isMainPage") =
      some (Json.bool true) := by
  unfold pinFirst
  exact getField_setField_same
    (setFieldF (strToL "pageName") (Json.str (strToL "index")) f) _ _

/-- The condition guarding the crash point of the normalization: after the
pin, every mapped page name is a string. -/
theorem normalizeMulti_all_str (f : List (Str × Json)) (rest : List Json)
    (hnames : ∀ p ∈ rest, isStrJson (getField p (strToL "pageName")) = true) :
    (pageNamesOfPages (pinFirst (Json.obj f) :: rest)).all isStrJson = true := by
  unfold pageNamesOfPages
  simp only [List.map_cons, List.all_cons, Bool.and_eq_true]
  constructor
  · rw [pinFirst_pageName]
    rfl
  · rw [List.all_eq_true]
    intro x hx
    simp only [List.mem_map] at hx
    obtain ⟨p, hp, hpx⟩ := hx
    rw [← hpx]
    exact hnames p hp

/-- The head of the augmented page list keeps the pinned fields (the prompt
write touches neither `pageName` nor `isMainPage`). -/
theorem augmentPages_head (first : Json) (rest : List Json) (k : Str)
    (hk1 : k ≠ strToL "prompt") :
    (augmentPages (first :: rest)).head?.bind (fun p => getField p k) =
      getField first k := by
  unfold augmentPages
  simp only [List.enum_cons, List.map_cons, List.head?_cons, Option.some_bind]
  exact getField_setField_ne _ _ _ _ hk1

/-- The planned pages of the normalized plan are the augmented pages. -/
theorem planPagesOf_normalizedPlan (fs pfs : List (Str × Json))
    (pages1 : List Json)
    (hplanfield : getField (Json.obj fs) (strToL "plan") = some (Json.obj pfs)) :
    planPagesOf (normalizedPlan (Json.obj fs) pages1) = augmentPages pages1 := by
  unfold normalizedPlan planPagesOf
  rw [hplanfield]
  simp only [Option.getD_some]
  rw [getField_setField_ne _ _ _ _ (by decide), getField_setField_same]
  simp only [Option.some_bind]
  rw [getField_setField_same]
  rfl

/-- The normalization succeeds and pins the first page when every later
page proposes a string page name. -/
theorem normalizeMulti_pin (fs pfs : List (Str × Json)) (f : List (Str × Json))
    (rest : List Json) (plan2 : Json)
    (hplanfield : getField (Json.obj fs) (strToL "plan") = some (Json.obj pfs))
    (hnames : ∀ p ∈ rest, isStrJson (getField p (strToL "pageName")) = true)
    (hnorm : normalizeMulti (Json.obj fs) (Json.obj f :: rest) = some plan2) :
    firstPageNameOf plan2 = some (Json.str (strToL "index")) ∧
      firstPageMainOf plan2 = some (Json.bool true) := by
  have hall := normalizeMulti_all_str f rest hnames
  simp only [normalizeMulti] at hnorm
  rw [if_pos hall] at hnorm
  injection hnorm with h2
  rw [← h2]
  unfold firstPageNameOf firstPageMainOf
  rw [planPagesOf_normalizedPlan fs pfs _ hplanfield]
  rw [augmentPages_head _ _ _ (by decide), augmentPages_head _ _ _ (by decide)]
  exact ⟨pinFirst_pageName f, pinFirst_isMain f⟩

/-- With the crash guard satisfied, the normalization does return a plan. -/
theorem normalizeMulti_isSome (fs : List (Str × Json)) (f : List (Str × Json))
    (rest : List Json)
    (hnames : ∀ p ∈ rest, isStrJson (getField p (strToL "pageName")) = true) :
    (normalizeMulti (Json.obj fs) (Json.obj f :: rest)).isSome = true := by
  simp only [normalizeMulti]
  rw [if_pos (normalizeMulti_all_str f rest hnames)]
  rfl

/-- C6, amended.  For every planning response whose extracted JSON parses to
a plan of type `multi` with a non-empty pages array whose first entry is an
object and whose later entries all propose string page names, the plan
returned by `createGenerationPlan` has its first page pinned to
`pageName "index"` and `isMainPage true`, regardless of the first page's
proposed `pageName`/`isMainPage` values. -/
theorem c6_multi_first_page_pinned (planText prompt sub : Str) (plan : Json)
    (pages : List Json) (f : List (Str × Json)) (rest : List Json)
    (hb : braceSlice planText = some sub)
    (hp : jsonParse sub = some plan)
    (hg : multiGate plan = some pages)
    (hpages : pages = Json.obj f :: rest)
    (hnames : ∀ p ∈ rest, isStrJson (getField p (strToL "pageName")) = true) :
    firstPageNameOf (createGenerationPlanCore planText prompt) =
        some (Json.str (strToL "index")) ∧
      firstPageMainOf (createGenerationPlanCore planText prompt) =
        some (Json.bool true) := by
  obtain ⟨⟨fs, rfl⟩, ⟨pfs, hpl, hpgs⟩, hne⟩ := multiGate_decomp hg
  subst hpages
  obtain ⟨plan2, hnorm⟩ :=
    Option.isSome_iff_exists.mp (normalizeMulti_isSome fs f rest hnames)
  have hcore : createGenerationPlanCore planText prompt = plan2 := by
    simp only [createGenerationPlanCore, hb, hp, hg, hnorm]
  rw [hcore]
  exact normalizeMulti_pin fs pfs f rest plan2 hpl hnames hnorm

/-! ## C9: the structured 404 of the preview resolver -/

/-- C9, counterexample.  The 404 page list is built from `project.pages`,
not from the configured `plannedPages`: with plannedPages
`["index", "about"]` but only `index` saved so far, requesting the unknown
page `zzz` (absent from plannedPages) produces a 404 that omits `about`,
so the list does not enumerate the plannedPages. -/
theorem c9_counterexample_lists_project_pages :
    previewPage
        { projects := [{ id := 7
                       , name := strToL "P"
                       , pages := [{ pageName := some (strToL "index")
                                   , pageId := some 1 }]
                       , plannedPages := [strToL "index", strToL "about"] }]
        , pages := []
        , nextId := 9 } 7 (strToL "zzz") =
      PreviewResp.pageInfoMissing
        [(some (strToL "index"), strToL "/preview/7")] ∧
    strToL "about" ∈ [strToL "index", strToL "about"] ∧
    (∀ entry ∈ [(some (strToL "index"), strToL "/preview/7")],
      entry.1 ≠ some (strToL "about")) := by
  refine ⟨by decide, by decide, by decide⟩

/-- C9, amended.  Requesting a pageName that (after `.html` stripping)
matches no descriptor in `project.pages` — by `pageName` or legacy `name` —
returns the structured 404 whose list enumerates exactly `project.pages`,
each entry paired with its canonical URL (`/preview/pid` for `index`,
`/preview/pid/name` otherwise).  `plannedPages` plays no part in the
resolution. -/
theorem c9_structured_404 (st : Store) (pid : Nat) (rawName : Str)
    (project : Project)
    (hp : findProject st pid = some project)
    (hmiss : findPageInfo project (stripHtmlSuffix rawName) = none) :
    previewPage st pid rawName =
      PreviewResp.pageInfoMissing (availablePagesList pid project) := by
  simp only [previewPage, hp, hmiss]

/-- C9, witness: the amended 404 shape at a concrete store. -/
theorem c9_structured_404_witness :
    previewPage
        { projects := [{ id := 7
                       , name := strToL "P"
                       , pages := [{ pageName := some (strToL "index")
                                   , pageId := some 1 }]
                       , plannedPages := [strToL "index", strToL "about"] }]
        , pages := []
        , nextId := 9 } 7 (strToL "about.html") =
      PreviewResp.pageInfoMissing
        [(some (strToL "index"), strToL "/preview/7")] := by
  have h := c9_structured_404
    { projects := [{ id := 7
                   , name := strToL "P"
                   , pages := [{ pageName := some (strToL "index")
                               , pageId := some 1 }]
                   , plannedPages := [strToL "index", strToL "about"] }]
    , pages := []
    , nextId := 9 } 7 (strToL "about.html")
    { id := 7
    , name := strToL "P"
    , pages := [{ pageName := some (strToL "index"), pageId := some 1 }]
    , plannedPages := [strToL "index", strToL "about"] }
    (by decide) (by decide)
  exact h.trans (by decide)

/-! ## C10: the short-markup fallback of the save endpoint -/

set_option maxRecDepth 8192

/-- C10, counterexample.  For a multi-page save into an existing project,
the submitted short markup is still persisted (link-rewritten) as the
page's `html` — the multi branch (src/index.js:1860-1875) feeds the raw
`html` request field to `updateHtmlLinks`, overwriting the default
template that the short-markup guard had selected; only `originalHtml`
keeps the template. -/
theorem c10_counterexample_multi_save_keeps_markup :
    ((saveHandler
        { html := strToL "<a href=\"about\">x</a>"
        , prompt := strToL "p"
        , projectId := some 3
        , pageName := strToL "about"
        , pageType := strToL "sub"
        , generationType := strToL "multi" }
        { projects := [{ id := 3
                       , name := strToL "P"
                       , generationType := strToL "multi"
                       , pages := [{ pageName := some (strToL "index")
                                   , pageId := some 1 }]
                       , plannedPages := [strToL "index", strToL "about"] }]
        , pages := []
        , nextId := 10 }).1.pages.map PageDoc.html) =
      [strToL "<a href=\"/preview/3/about\">x</a>"] ∧
    ((saveHandler
        { html := strToL "<a href=\"about\">x</a>"
        , prompt := strToL "p"
        , projectId := some 3
        , pageName := strToL "about"
        , pageType := strToL "sub"
        , generationType := strToL "multi" }
        { projects := [{ id := 3
                       , name := strToL "P"
                       , generationType := strToL "multi"
                       , pages := [{ pageName := some (strToL "index")
                                   , pageId := some 1 }]
                       , plannedPages := [strToL "index", strToL "about"] }]
        , pages := []
        , nextId := 10 }).1.pages.map PageDoc.originalHtml) =
      [defaultHTML (strToL "about") none] ∧
    (jsTrim (strToL "<a href=\"about\">x</a>")).length < 50 ∧
    strToL "<a href=\"/preview/3/about\">x</a>" ≠
      defaultHTML (strToL "about") none := by
  refine ⟨by decide, by decide, by decide, by decide⟩

/-- C10, amended.  For a non-modification save without a project (and hence
outside the multi branch) whose html trims below 50 characters, the
endpoint persists the default error template as `originalHtml`, persists
the template (passed once more through the rewriter, with the literal
`null` project id) as `html`, and still answers success. -/
theorem c10_short_html_default_template (req : SaveReq) (st : Store)
    (hne : req.html ≠ [])
    (hshort : (jsTrim req.html).length < 50)
    (hmod : req.isModification = false)
    (hpid : req.projectId = none)
    (hpn : jsOrStr req.projectName [] = []) :
    (saveHandler req st).2 =
        SaveResp.okResp st.nextId none req.pageName req.generationType false ∧
      (saveHandler req st).1.pages = st.pages ++
        [{ id := st.nextId
         , prompt := req.prompt
         , html := updateHtmlResourcesL (defaultHTML req.pageName req.projectName)
             (strToL "null") req.pageName [] (some [])
         , originalHtml := defaultHTML req.pageName req.projectName
         , isModification := false
         , originalPrompt := jsOrStr req.originalPrompt req.prompt
         , projectId := none
         , pageName := req.pageName
         , pageType := req.pageType }] := by
  refine ⟨?_, ?_⟩ <;>
  · simp only [saveHandler, hne, hpid, hpn, hmod, hshort, ite_true, ite_false,
      if_true, if_false, reduceIte]
    simp [pidS]

/-- C10, witness: the amended statement at a concrete short-html save. -/
theorem c10_short_html_default_template_witness :
    (saveHandler { html := strToL "<p>x</p>", prompt := strToL "q" }
        { projects := [], pages := [], nextId := 4 }).2 =
        SaveResp.okResp 4 none (strToL "index") (strToL "single") false ∧
      (saveHandler { html := strToL "<p>x</p>", prompt := strToL "q" }
        { projects := [], pages := [], nextId := 4 }).1.pages =
        [] ++
        [{ id := 4
         , prompt := strToL "q"
         , html := updateHtmlResourcesL (defaultHTML (strToL "index") none)
             (strToL "null") (strToL "index") [] (some [])
         , originalHtml := defaultHTML (strToL "index") none
         , isModification := false
         , originalPrompt := jsOrStr none (strToL "q")
         , projectId := none
         , pageName := strToL "index"
         , pageType := strToL "main" }] :=
  c10_short_html_default_template
    { html := strToL "<p>x</p>", prompt := strToL "q" }
    { projects := [], pages := [], nextId := 4 }
    (by decide) (by decide) rfl rfl rfl

/-! ## C8: the save endpoint and the project invariant -/

theorem updFirstEntry_names (n : Str) (pgid : Nat) :
    ∀ l : List PageEntry,
      (updFirstEntry n pgid l).map PageEntry.pageName =
        l.map PageEntry.pageName := by
  intro l
  induction l with
  | nil => rfl
  | cons e es ih =>
    by_cases he : e.pageName = some n
    · simp [updFirstEntry, he]
    · simp [updFirstEntry, he, ih]

theorem savePagesUpdate_names_sub (n : Str) (b : Bool) (pgid : Nat)
    (l : List PageEntry) :
    ∀ x ∈ l.map PageEntry.pageName,
      x ∈ (savePagesUpdate n b pgid l).map PageEntry.pageName := by
  intro x hx
  unfold savePagesUpdate
  split
  · rw [updFirstEntry_names]
    exact hx
  · simp only [List.map_append]
    exact List.mem_append_left _ hx

theorem savePagesUpdate_names_super (n : Str) (b : Bool) (pgid : Nat)
    (l : List PageEntry) :
    ∀ x ∈ (savePagesUpdate n b pgid l).map PageEntry.pageName,
      x ∈ l.map PageEntry.pageName ∨ x = some n := by
  intro x hx
  unfold savePagesUpdate at hx
  split at hx
  · rw [updFirstEntry_names] at hx
    exact Or.inl hx
  · simp only [List.map_append, List.mem_append] at hx
    cases hx with
    | inl h => exact Or.inl h
    | inr h =>
      simp only [List.map_cons, List.map_nil, List.mem_singleton] at h
      exact Or.inr h

theorem newProjectOf_id (req : SaveReq) (st : Store) :
    (newProjectOf req st).id = st.nextId := rfl

theorem findProject_spec {st : Store} {pid : Nat} {p : Project}
    (h : findProject st pid = some p) : p ∈ st.projects ∧ p.id = pid := by
  unfold findProject at h
  refine ⟨List.mem_of_find?_eq_some h, ?_⟩
  have hp := List.find?_some h
  simp at hp
  exact hp

/-- The three shapes the projects list can take after a save: untouched, an
id-keyed descriptor update of an existing project, or the same update on a
freshly appended project. -/
theorem saveHandler_projects_char (req : SaveReq) (st : Store) :
    (saveHandler req st).1.projects = st.projects ∨
    (∃ p sid, p ∈ st.projects ∧ req.projectId = some p.id ∧
      (saveHandler req st).1.projects = st.projects.map (fun q =>
        if q.id = p.id then
          { q with pages := (savePagesUpdate req.pageName
              (req.pageType = strToL "main") sid p.pages) }
        else q)) ∨
    (∃ sid, req.projectId = none ∧
      (saveHandler req st).1.projects =
        (st.projects ++ [newProjectOf req st]).map (fun q =>
          if q.id = st.nextId then
            { q with pages := (savePagesUpdate req.pageName
                (req.pageType = strToL "main") sid (newProjectOf req st).pages) }
          else q)) := by
  by_cases hh : req.html = []
  · left
    simp [saveHandler, hh]
  · cases hpid : req.projectId with
    | some pid =>
      cases hfp : findProject st pid with
      | none =>
        left
        simp [saveHandler, hh, hpid, hfp]
      | some p =>
        obtain ⟨hmem, hid⟩ := findProject_spec hfp
        right; left
        cases hex : (if req.isModification then req.pageId.bind (findPageDoc st)
            else none) with
        | some ep =>
          refine ⟨p, ep.id, hmem, by rw [hid], ?_⟩
          simp [saveHandler, hh, hpid, hfp, hex]
        | none =>
          refine ⟨p, st.nextId, hmem, by rw [hid], ?_⟩
          simp [saveHandler, hh, hpid, hfp, hex]
    | none =>
      by_cases hpn : jsOrStr req.projectName [] = []
      · left
        cases hex : (if req.isModification then req.pageId.bind (findPageDoc st)
            else none) with
        | some ep => simp [saveHandler, hh, hpid, hpn, hex]
        | none => simp [saveHandler, hh, hpid, hpn, hex]
      · right; right
        cases hex : (if req.isModification then
            req.pageId.bind (findPageDoc { st with
              projects := st.projects ++ [newProjectOf req st]
              nextId := st.nextId + 1 }) else none) with
        | some ep =>
          refine ⟨ep.id, rfl, ?_⟩
          simp [saveHandler, hh, hpid, hpn, hex, newProjectOf_id]
        | none =>
          refine ⟨st.nextId + 1, rfl, ?_⟩
          simp [saveHandler, hh, hpid, hpn, hex, newProjectOf_id]

/-- C8, counterexample.  A save whose pageName is outside the project's
plannedPages still pushes that name into `project.pages`: the endpoint
performs no containment check, so the invariant is not preserved.  The
pre-state project (no pages yet, plannedPages `["index"]`) satisfies the
invariant; after saving pageName `rogue` every project in the store
violates it. -/
theorem c8_counterexample_rogue_page_name :
    (saveHandler
          { html := strToL "this markup is long enough to avoid the default template path ok"
          , prompt := strToL "p"
          , projectId := some 5
          , pageName := strToL "rogue"
          , pageType := strToL "sub" }
          { projects := [{ id := 5
                         , name := strToL "P"
                         , pages := []
                         , plannedPages := [strToL "index"] }]
          , pages := []
          , nextId := 20 }).1.projects.map (fun p =>
        (p.pages.map PageEntry.pageName, p.plannedPages)) =
      [([some (strToL "rogue")], [strToL "index"])] ∧
    strToL "rogue" ∉ [strToL "index"] := by
  exact ⟨by decide, by decide⟩

/-- C8, amended.  With distinct, fresh project ids, every save (a) only
grows the recorded page-name set of every project, never removing an
entry, and (b) preserves the containment of recorded page names in
`plannedPages` provided the saved pageName is itself planned — in the
target project when a project id is supplied, or in the request's
plannedPages when the save creates the project.  Without that proviso the
endpoint does not enforce containment (see the counterexample). -/
theorem c8_save_monotone_guarded (req : SaveReq) (st : Store)
    (hfresh : ∀ p ∈ st.projects, p.id < st.nextId)
    (hnodup : (st.projects.map Project.id).Nodup) :
    (∀ p1 ∈ st.projects, ∃ p2 ∈ (saveHandler req st).1.projects,
        p2.id = p1.id ∧ p2.plannedPages = p1.plannedPages ∧
        ∀ x ∈ projNames p1, x ∈ projNames p2) ∧
    ((∀ p ∈ st.projects, projInvariant p) →
      (∀ p ∈ st.projects, req.projectId = some p.id →
        req.pageName ∈ p.plannedPages) →
      (req.projectId = none → req.pageName ∈ req.plannedPages) →
      ∀ p2 ∈ (saveHandler req st).1.projects, projInvariant p2) := by
  rcases saveHandler_projects_char req st with hchar |
    ⟨p, sid, hmem, hpid, hchar⟩ | ⟨sid, hpidn, hchar⟩
  · constructor
    · intro p1 h1
      exact ⟨p1, by rw [hchar]; exact h1, rfl, rfl, fun x hx => hx⟩
    · intro hinv _ _ p2 h2
      rw [hchar] at h2
      exact hinv p2 h2
  · constructor
    · intro p1 h1
      refine ⟨_, by rw [hchar]; exact List.mem_map_of_mem _ h1, ?_, ?_, ?_⟩
      · by_cases hq : p1.id = p.id <;> simp [hq]
      · by_cases hq : p1.id = p.id <;> simp [hq]
      · intro x hx
        by_cases hq : p1.id = p.id
        · have hp1 : p1 = p :=
            List.inj_on_of_nodup_map hnodup h1 hmem hq
          subst hp1
          simp only [hq, if_pos rfl, projNames]
          exact savePagesUpdate_names_sub _ _ _ _ x hx
        · simp only [hq, if_false, reduceIte]
          exact hx
    · intro hinv h2 _ p2 hp2
      rw [hchar] at hp2
      obtain ⟨q, hq, hfq⟩ := List.mem_map.mp hp2
      by_cases hqi : q.id = p.id
      · have hqp : q = p := List.inj_on_of_nodup_map hnodup hq hmem hqi
        subst hqp
        rw [if_pos hqi] at hfq
        intro e he n hen
        have hx : e.pageName ∈ (savePagesUpdate req.pageName
            (req.pageType = strToL "main") sid q.pages).map PageEntry.pageName := by
          rw [← hfq] at he
          exact List.mem_map_of_mem _ he
        rcases savePagesUpdate_names_super _ _ _ _ _ hx with hold | hnew
        · obtain ⟨e0, he0, he0n⟩ := List.mem_map.mp hold
          have hplanned : p2.plannedPages = q.plannedPages := by rw [← hfq]
          rw [hplanned]
          exact hinv q hq e0 he0 n (by rw [he0n, hen])
        · have hn : n = req.pageName := by
            rw [hen] at hnew
            exact Option.some.inj hnew
          have hplanned : p2.plannedPages = q.plannedPages := by rw [← hfq]
          rw [hplanned, hn]
          exact h2 q hq hpid
      · rw [if_neg hqi] at hfq
        rw [← hfq]
        exact hinv q hq
  · constructor
    · intro p1 h1
      have hne : ¬ (p1.id = st.nextId) := Nat.ne_of_lt (hfresh p1 h1)
      refine ⟨p1, ?_, rfl, rfl, fun x hx => hx⟩
      rw [hchar]
      have : p1 = (fun q => if q.id = st.nextId then
          { q with pages := (savePagesUpdate req.pageName
              (req.pageType = strToL "main") sid (newProjectOf req st).pages) }
        else q) p1 := by simp [hne]
      rw [this]
      exact List.mem_map_of_mem _ (List.mem_append_left _ h1)
    · intro hinv _ h3 p2 hp2
      rw [hchar] at hp2
      obtain ⟨q, hq, hfq⟩ := List.mem_map.mp hp2
      rcases List.mem_append.mp hq with hqold | hqnew
      · have hne : ¬ (q.id = st.nextId) := Nat.ne_of_lt (hfresh q hqold)
        rw [if_neg hne] at hfq
        rw [← hfq]
        exact hinv q hqold
      · have hqn : q = newProjectOf req st := List.mem_singleton.mp hqnew
        subst hqn
        rw [if_pos (newProjectOf_id req st)] at hfq
        intro e he n hen
        have hx : e.pageName ∈ (savePagesUpdate req.pageName
            (req.pageType = strToL "main") sid
            (newProjectOf req st).pages).map PageEntry.pageName := by
          rw [← hfq] at he
          exact List.mem_map_of_mem _ he
        rcases savePagesUpdate_names_super _ _ _ _ _ hx with hold | hnew
        · simp [newProjectOf] at hold
        · have hn : n = req.pageName := by
            rw [hen] at hnew
            exact Option.some.inj hnew
          have hplanned : p2.plannedPages = req.plannedPages := by
            rw [← hfq]
            rfl
          rw [hplanned, hn]
          exact h3 hpidn

/-- C8, witness: the amended guarantees at a concrete planned save into an
existing project. -/
theorem c8_save_monotone_guarded_witness :
    List.Forall projInvariant (saveHandler
        { html := strToL "this markup is long enough to avoid the default template path ok"
        , prompt := strToL "p"
        , projectId := some 5
        , pageName := strToL "index"
        , pageType := strToL "main" }
        { projects := [{ id := 5
                       , name := strToL "P"
                       , pages := []
                       , plannedPages := [strToL "index"] }]
        , pages := []
        , nextId := 20 }).1.projects := by
  refine List.forall_iff_forall_mem.mpr
    ((c8_save_monotone_guarded _ _ ?_ ?_).2 ?_ ?_ ?_)
  · intro p hp
    simp only [List.mem_singleton] at hp
    subst hp
    decide
  · decide
  · intro p hp
    simp only [List.mem_singleton] at hp
    subst hp
    intro e he
    simp at he
  · intro p hp hid
    simp only [List.mem_singleton] at hp
    subst hp
    decide
  · intro h
    exact Option.noConfusion h

/-- C6, witness: a concrete well-formed multi plan comes out pinned. -/
theorem c6_multi_first_page_pinned_witness :
    firstPageNameOf (createGenerationPlanCore
        (strToL "\x7b\"type\":\"multi\",\"plan\":\x7b\"pages\":[\x7b\"pageName\":\"home\",\"isMainPage\":false\x7d,\x7b\"pageName\":\"about\"\x7d]\x7d\x7d")
        (strToL "p")) = some (Json.str (strToL "index")) ∧
      firstPageMainOf (createGenerationPlanCore
        (strToL "\x7b\"type\":\"multi\",\"plan\":\x7b\"pages\":[\x7b\"pageName\":\"home\",\"isMainPage\":false\x7d,\x7b\"pageName\":\"about\"\x7d]\x7d\x7d")
        (strToL "p")) = some (Json.bool true) := by
  refine c6_multi_first_page_pinned _ _
      (strToL "\x7b\"type\":\"multi\",\"plan\":\x7b\"pages\":[\x7b\"pageName\":\"home\",\"isMainPage\":false\x7d,\x7b\"pageName\":\"about\"\x7d]\x7d\x7d")
      _ _ [(strToL "pageName", Json.str (strToL "home")),
           (strToL "isMainPage", Json.bool false)]
      [Json.obj [(strToL "pageName", Json.str (strToL "about"))]]
      rfl rfl rfl rfl ?_
  intro p hp
  simp only [List.mem_singleton] at hp
  subst hp
  rfl

/-! ## Character-level lemmas for the compositional rewriter theorems -/

/-- `ciEqChar` is reflexive. -/
theorem ciEqChar_refl (c : Char) : ciEqChar c c = true := by
  simp [ciEqChar]

/-- Lower-casing only moves characters into `a`–`z`: a character whose
lower case is outside that range is already that character. -/
theorem lowerChar_eq_nonletter {d c : Char} (hd : d < 'a' ∨ 'z' < d)
    (h : lowerChar c = d) : c = d := by
  unfold lowerChar at h
  split at h
  all_goals try (subst h; rcases hd with h1 | h1 <;> exact absurd h1 (by decide))
  exact h

/-- Case-insensitive equality against a non-letter is plain equality. -/
theorem ciEqChar_rigid {d c : Char} (hd1 : lowerChar d = d)
    (hd : d < 'a' ∨ 'z' < d) (h : ciEqChar d c = true) : c = d := by
  have h2 : lowerChar d = lowerChar c := by simpa [ciEqChar] using h
  rw [hd1] at h2
  exact lowerChar_eq_nonletter hd h2.symm

/-- The two characters of the quote class. -/
theorem isQuote_cases {q : Char} (hq : isQuote q = true) : q = '"' ∨ q = '\'' := by
  simp only [isQuote, Bool.or_eq_true, beq_iff_eq] at hq
  exact hq

/-- `ciEqChar` is symmetric. -/
theorem ciEqChar_comm (a b : Char) : ciEqChar a b = ciEqChar b a := by
  unfold ciEqChar
  by_cases h : lowerChar a = lowerChar b
  · rw [h]
  · have h2 : lowerChar b ≠ lowerChar a := fun hh => h hh.symm
    simp [h, h2]

/-- A non-quote character never case-insensitively equals a quote. -/
theorem quote_ci_kill {c q : Char} (hq : isQuote q = true)
    (hc : isQuote c = false) : ciEqChar c q = false := by
  cases hcc : ciEqChar c q
  · rfl
  · exfalso
    rcases isQuote_cases hq with h | h <;> subst h
    · have hc2 : c = '"' :=
        ciEqChar_rigid (by decide) (by decide) (by rw [ciEqChar_comm]; exact hcc)
      subst hc2; exact absurd hc (by decide)
    · have hc2 : c = '\'' :=
        ciEqChar_rigid (by decide) (by decide) (by rw [ciEqChar_comm]; exact hcc)
      subst hc2; exact absurd hc (by decide)

/-- Pointwise reading of a `Forall₂` of character comparisons. -/
theorem forall2_ci_getElem {p m : Str}
    (h : List.Forall₂ (fun a b => ciEqChar a b = true) p m) {i : Nat}
    (hi : i < p.length) :
    ∃ a c, p[i]? = some a ∧ m[i]? = some c ∧ ciEqChar a c = true := by
  induction h generalizing i with
  | nil => simp at hi
  | cons hr hf ih =>
    cases i with
    | zero => exact ⟨_, _, by simp, by simp, hr⟩
    | succ n =>
      obtain ⟨a, c, h1, h2, h3⟩ := ih (by simpa using hi)
      exact ⟨a, c, by simpa using h1, by simpa using h2, h3⟩

/-- Case-insensitively equal strings have equal lower casings. -/
theorem lower_eq_of_forall2 {p t : Str}
    (h : List.Forall₂ (fun a b => ciEqChar a b = true) p t) :
    lowerStr p = lowerStr t := by
  induction h with
  | @cons a b p2 t2 hr hf ih =>
    unfold lowerStr at ih ⊢
    simp only [List.map_cons]
    have h2 : lowerChar a = lowerChar b := by simpa [ciEqChar] using hr
    rw [h2, ih]
  | nil => rfl

/-- Equal lower casings give pointwise case-insensitive equality. -/
theorem forall2_ci_of_lower {p t : Str} (h : lowerStr p = lowerStr t) :
    List.Forall₂ (fun a b => ciEqChar a b = true) p t := by
  induction p generalizing t with
  | nil =>
    cases t with
    | nil => exact List.Forall₂.nil
    | cons b bs => simp [lowerStr] at h
  | cons a as ih =>
    cases t with
    | nil => simp [lowerStr] at h
    | cons b bs =>
      simp only [lowerStr, List.map_cons, List.cons.injEq] at h
      exact List.Forall₂.cons (by simp [ciEqChar, h.1]) (ih h.2)

/-! ## Structure of `ciPrefixRest` and the greedy runs -/

/-- A successful case-insensitive prefix strip decomposes the input. -/
theorem ciPrefixRest_decomp {pat s r : Str} (h : ciPrefixRest pat s = some r) :
    ∃ m, s = m ++ r ∧ List.Forall₂ (fun a b => ciEqChar a b = true) pat m := by
  induction pat generalizing s with
  | nil =>
    have hs : s = r := by simpa [ciPrefixRest] using h
    exact ⟨[], by simp [hs], List.Forall₂.nil⟩
  | cons p ps ih =>
    cases s with
    | nil => simp [ciPrefixRest] at h
    | cons c cs =>
      unfold ciPrefixRest at h
      by_cases hc : ciEqChar p c = true
      · rw [if_pos hc] at h
        obtain ⟨m, hm, hf⟩ := ih h
        exact ⟨c :: m, by rw [List.cons_append, ← hm], List.Forall₂.cons hc hf⟩
      · rw [if_neg hc] at h
        simp at h

/-- The rest returned by `ciPrefixRest` is a drop of the input. -/
theorem ciPrefixRest_drop {pat s r : Str} (h : ciPrefixRest pat s = some r) :
    r = s.drop pat.length := by
  obtain ⟨m, hm, hf⟩ := ciPrefixRest_decomp h
  rw [hm, hf.length_eq, List.drop_left]

/-- Pointwise facts from a successful case-insensitive prefix strip. -/
theorem ciPrefix_pointwise {pat s r : Str} (h : ciPrefixRest pat s = some r)
    {j : Nat} (hj : j < pat.length) :
    ∃ a c, pat[j]? = some a ∧ s[j]? = some c ∧ ciEqChar a c = true := by
  obtain ⟨m, hm, hf⟩ := ciPrefixRest_decomp h
  obtain ⟨a, c, h1, h2, h3⟩ := forall2_ci_getElem hf hj
  refine ⟨a, c, h1, ?_, h3⟩
  rw [hm, List.getElem?_append_left (by rw [← hf.length_eq]; exact hj)]
  exact h2

/-- Evaluation of `ciPrefixRest` on a pointwise-matching prefix. -/
theorem ciPrefixRest_of_forall2 {pat m : Str}
    (h : List.Forall₂ (fun a b => ciEqChar a b = true) pat m) (r : Str) :
    ciPrefixRest pat (m ++ r) = some r := by
  induction h with
  | nil => rfl
  | cons hr hf ih =>
    simp only [List.cons_append]
    unfold ciPrefixRest
    rw [if_pos hr]
    exact ih

/-- The diagonal of the character comparison. -/
theorem forall2_ci_refl (s : Str) :
    List.Forall₂ (fun a b => ciEqChar a b = true) s s := by
  induction s with
  | nil => exact List.Forall₂.nil
  | cons c cs ih => exact List.Forall₂.cons (ciEqChar_refl c) ih

/-- `ciPrefixRest` strips its own pattern. -/
theorem ciPrefixRest_refl_append (pat r : Str) :
    ciPrefixRest pat (pat ++ r) = some r :=
  ciPrefixRest_of_forall2 (forall2_ci_refl pat) r

/-- The two components of `takeRunNot` reassemble the input. -/
theorem takeRunNot_append (bad : List Char) (s : Str) :
    (takeRunNot bad s).1 ++ (takeRunNot bad s).2 = s := by
  induction s with
  | nil => rfl
  | cons c cs ih =>
    unfold takeRunNot
    by_cases h : c ∈ bad
    · rw [if_pos h]
      rfl
    · rw [if_neg h]
      simpa using ih

/-- Evaluation of `takeRunNot` at an exactly delimited run. -/
theorem takeRunNot_exact {bad : List Char} {t : Str} (ht : ∀ c ∈ t, c ∉ bad)
    {d : Char} (hd : d ∈ bad) (rest : Str) :
    takeRunNot bad (t ++ d :: rest) = (t, d :: rest) := by
  induction t with
  | nil =>
    simp only [List.nil_append]
    unfold takeRunNot
    rw [if_pos hd]
  | cons c cs ih =>
    have hc : c ∉ bad := ht c (by simp)
    simp only [List.cons_append]
    unfold takeRunNot
    rw [if_neg hc]
    simp only [ih (fun x hx => ht x (by simp [hx]))]

/-- Characters of a `takeRunNot` run avoid the class. -/
theorem takeRunNot_run_notin {bad : List Char} (s : Str) :
    ∀ c ∈ (takeRunNot bad s).1, c ∉ bad := by
  induction s with
  | nil => simp [takeRunNot]
  | cons c cs ih =>
    unfold takeRunNot
    by_cases h : c ∈ bad
    · rw [if_pos h]; simp
    · rw [if_neg h]
      show ∀ x ∈ c :: (takeRunNot bad cs).1, x ∉ bad
      intro x hx
      rcases List.mem_cons.mp hx with hx | hx
      · subst hx; exact h
      · exact ih x hx

/-- The head of a `takeRunNot` rest is in the class. -/
theorem takeRunNot_rest_head {bad : List Char} {s : Str} {d : Char} {rest : Str}
    (h : (takeRunNot bad s).2 = d :: rest) : d ∈ bad := by
  induction s with
  | nil => simp [takeRunNot] at h
  | cons c cs ih =>
    unfold takeRunNot at h
    by_cases hc : c ∈ bad
    · rw [if_pos hc] at h
      simp only [List.cons.injEq] at h
      rw [← h.1]; exact hc
    · rw [if_neg hc] at h
      exact ih (by simpa using h)

/-- The two components of `takeRunIn` reassemble the input. -/
theorem takeRunIn_append (good : List Char) (s : Str) :
    (takeRunIn good s).1 ++ (takeRunIn good s).2 = s := by
  induction s with
  | nil => rfl
  | cons c cs ih =>
    unfold takeRunIn
    by_cases h : c ∈ good
    · rw [if_pos h]
      simpa using ih
    · rw [if_neg h]
      rfl

/-- Characters of a `takeRunIn` run lie in the class. -/
theorem takeRunIn_run_mem {good : List Char} (s : Str) :
    ∀ c ∈ (takeRunIn good s).1, c ∈ good := by
  induction s with
  | nil => simp [takeRunIn]
  | cons c cs ih =>
    unfold takeRunIn
    by_cases h : c ∈ good
    · rw [if_pos h]
      show ∀ x ∈ c :: (takeRunIn good cs).1, x ∈ good
      intro x hx
      rcases List.mem_cons.mp hx with hx | hx
      · subst hx; exact h
      · exact ih x hx
    · rw [if_neg h]; simp

/-! ## Quote-free fragments and index bookkeeping -/

/-- Quote-freedom is inherited by drops. -/
theorem NoQ_drop {s : Str} (h : NoQ s) (n : Nat) : NoQ (s.drop n) :=
  fun c hc => h c (List.drop_subset n s hc)

/-- Quote-freedom of a concatenation. -/
theorem NoQ_append {a b : Str} (ha : NoQ a) (hb : NoQ b) : NoQ (a ++ b) := by
  intro c hc
  rcases List.mem_append.mp hc with h | h
  · exact ha c h
  · exact hb c h

/-- Quote-freedom of a cons. -/
theorem NoQ_cons {c : Char} {s : Str} (hc : isQuote c = false) (hs : NoQ s) :
    NoQ (c :: s) := by
  intro x hx
  rcases List.mem_cons.mp hx with h | h
  · subst h; exact hc
  · exact hs x h

/-- A hygienic name carries no quote characters. -/
theorem NoQ_of_clean {t : Str} (h : CleanName t) : NoQ t := by
  intro c hc
  rcases isQuote_cases (q := c) with _
  cases hq : isQuote c
  · rfl
  · rcases isQuote_cases hq with h2 | h2
    · exact absurd h2 (h.2 c hc).1
    · exact absurd h2 (h.2 c hc).2.1

/-- A hygienic project id carries no quote characters. -/
theorem NoQ_of_cleanPid {p : Str} (h : CleanPid p) : NoQ p := by
  intro c hc
  cases hq : isQuote c
  · rfl
  · rcases isQuote_cases hq with h2 | h2
    · exact absurd h2 (h.2 c hc).1
    · exact absurd h2 (h.2 c hc).2

/-- Head of a drop, as an index read. -/
theorem head_drop {s : Str} {d : Nat} {c : Char} {rest : Str}
    (h : s.drop d = c :: rest) : s[d]? = some c := by
  have h2 := List.getElem?_drop s d 0
  rw [h] at h2
  simpa using h2.symm

/-- Reading an append past the left part. -/
theorem getElem?_append_len {a b : List Char} {k : Nat} :
    (a ++ b)[a.length + k]? = b[k]? := by
  rw [List.getElem?_append_right (Nat.le_add_right _ _)]
  simp

/-- Dropping an append past the left part. -/
theorem drop_len_plus (a b : List Char) (k : Nat) :
    (a ++ b).drop (a.length + k) = b.drop k := by
  induction a with
  | nil => simp
  | cons c cs ih =>
    simp only [List.length_cons, List.cons_append]
    have h : cs.length + 1 + k = (cs.length + k) + 1 := by omega
    rw [h, List.drop_succ_cons, ih]

/-! ## The global-replace scan, compositionally -/

/-- One scan step when the matcher declines. -/
theorem replaceScanF_cons_none {m : Str → Option (Nat × Str)} {f : Nat} {c : Char}
    {rest : Str} (hm : m (c :: rest) = none) :
    replaceScanF m (f + 1) (c :: rest) = c :: replaceScanF m f rest := by
  conv_lhs => unfold replaceScanF
  rw [hm]

/-- One scan step when the matcher fires within bounds. -/
theorem replaceScanF_cons_some {m : Str → Option (Nat × Str)} {f : Nat} {c : Char}
    {rest : Str} {n : Nat} {r : Str} (hm : m (c :: rest) = some (n, r))
    (h1 : 0 < n) (h2 : n ≤ rest.length + 1) :
    replaceScanF m (f + 1) (c :: rest) =
      r ++ replaceScanF m f ((c :: rest).drop n) := by
  conv_lhs => unfold replaceScanF
  simp only [hm]
  rw [if_pos ⟨h1, h2⟩]

/-- Any fuel at least the input length gives the same scan. -/
theorem replaceScanF_fuel_irrel (m : Str → Option (Nat × Str)) :
    ∀ f1 f2 s, s.length ≤ f1 → s.length ≤ f2 →
      replaceScanF m f1 s = replaceScanF m f2 s := by
  intro f1
  induction f1 with
  | zero =>
    intro f2 s h1 _
    have hs : s = [] := List.eq_nil_of_length_eq_zero (Nat.le_zero.mp h1)
    subst hs
    cases f2 <;> rfl
  | succ f ih =>
    intro f2 s h1 h2
    cases s with
    | nil => cases f2 <;> rfl
    | cons c rest =>
      cases f2 with
      | zero => simp at h2
      | succ f2b =>
        cases hm : m (c :: rest) with
        | none =>
          rw [replaceScanF_cons_none hm, replaceScanF_cons_none hm]
          have hr : rest.length ≤ f := by simp at h1; omega
          have hr2 : rest.length ≤ f2b := by simp at h2; omega
          rw [ih f2b rest hr hr2]
        | some nr =>
          obtain ⟨n, r⟩ := nr
          by_cases hb : 0 < n ∧ n ≤ rest.length + 1
          · rw [replaceScanF_cons_some hm hb.1 hb.2,
              replaceScanF_cons_some hm hb.1 hb.2]
            have hl : ((c :: rest).drop n).length ≤ f := by
              simp only [List.length_drop, List.length_cons]
              simp at h1
              omega
            have hl2 : ((c :: rest).drop n).length ≤ f2b := by
              simp only [List.length_drop, List.length_cons]
              simp at h2
              omega
            rw [ih f2b _ hl hl2]
          · have e1 : replaceScanF m (f + 1) (c :: rest) =
                c :: replaceScanF m f rest := by
              conv_lhs => unfold replaceScanF
              simp only [hm]
              rw [if_neg hb]
            have e2 : replaceScanF m (f2b + 1) (c :: rest) =
                c :: replaceScanF m f2b rest := by
              conv_lhs => unfold replaceScanF
              simp only [hm]
              rw [if_neg hb]
            rw [e1, e2]
            have hr : rest.length ≤ f := by simp at h1; omega
            have hr2 : rest.length ≤ f2b := by simp at h2; omega
            rw [ih f2b rest hr hr2]

/-- Scan step, declined matcher. -/
theorem replaceScan_cons_none {m : Str → Option (Nat × Str)} {c : Char} {rest : Str}
    (hm : m (c :: rest) = none) :
    replaceScan m (c :: rest) = c :: replaceScan m rest := by
  unfold replaceScan
  simp only [List.length_cons]
  exact replaceScanF_cons_none hm

/-- Scan step, firing matcher. -/
theorem replaceScan_cons_some {m : Str → Option (Nat × Str)} {c : Char} {rest : Str}
    {n : Nat} {r : Str} (hm : m (c :: rest) = some (n, r)) (h1 : 0 < n)
    (h2 : n ≤ rest.length + 1) :
    replaceScan m (c :: rest) = r ++ replaceScan m ((c :: rest).drop n) := by
  unfold replaceScan
  simp only [List.length_cons]
  rw [replaceScanF_cons_some hm h1 h2]
  congr 1
  apply replaceScanF_fuel_irrel
  · simp only [List.length_drop, List.length_cons]
    omega
  · exact le_refl _

/-- A scan whose matcher declines everywhere is the identity. -/
theorem replaceScan_all_none {m : Str → Option (Nat × Str)} {s : Str}
    (h : ∀ i, m (s.drop i) = none) : replaceScan m s = s := by
  induction s with
  | nil => rfl
  | cons c cs ih =>
    rw [replaceScan_cons_none (by simpa using h 0)]
    rw [ih (fun i => by simpa using h (i + 1))]

/-- A scan passes over a prefix on which the matcher declines. -/
theorem replaceScan_prefix_none {m : Str → Option (Nat × Str)} (u x : Str)
    (h : ∀ i, i < u.length → m ((u ++ x).drop i) = none) :
    replaceScan m (u ++ x) = u ++ replaceScan m x := by
  induction u with
  | nil => simp
  | cons c cs ih =>
    have h0 : m (c :: (cs ++ x)) = none := by simpa using h 0 (by simp)
    rw [List.cons_append, replaceScan_cons_none h0]
    rw [ih (fun i hi => by simpa using h (i + 1) (by simpa using Nat.succ_lt_succ hi))]
    rfl

/-! ## Character positions in an embedded attribute -/

/-- The attribute literal, spelled out. -/
theorem strToL_href : strToL "href=" = ['h', 'r', 'e', 'f', '='] := by decide

/-- An embedded attribute is never the empty document. -/
theorem attrW_ne_nil (u : Str) (q1 : Char) (t : Str) (q2 : Char) (v : Str) :
    attrW u q1 t q2 v ≠ [] := by
  unfold attrW
  cases u <;> simp

/-- Dropping the context prefix exposes the attribute. -/
theorem attrW_drop_u (u : Str) (q1 : Char) (t : Str) (q2 : Char) (v : Str) :
    (attrW u q1 t q2 v).drop u.length = strToL "href=" ++ (q1 :: (t ++ (q2 :: v))) := by
  unfold attrW
  exact List.drop_left u _

/-- Reading inside the `href=` literal of an embedded attribute. -/
theorem attrW_char_href {u : Str} {q1 : Char} {t : Str} {q2 : Char} {v : Str}
    {k : Nat} (hk : k < 5) :
    (attrW u q1 t q2 v)[u.length + k]? = (strToL "href=")[k]? := by
  unfold attrW
  rw [getElem?_append_len]
  rw [List.getElem?_append_left (by rw [strToL_href]; simpa using hk)]

/-- Reading the opening quote of an embedded attribute. -/
theorem attrW_char_q1 (u : Str) (q1 : Char) (t : Str) (q2 : Char) (v : Str) :
    (attrW u q1 t q2 v)[u.length + 5]? = some q1 := by
  unfold attrW
  rw [getElem?_append_len]
  rw [show (5 : Nat) = (strToL "href=").length + 0 from by decide]
  rw [getElem?_append_len]
  simp

/-- Reading inside the target of an embedded attribute. -/
theorem attrW_char_t {u : Str} {q1 : Char} {t : Str} {q2 : Char} {v : Str}
    {k : Nat} (hk : k < t.length) :
    (attrW u q1 t q2 v)[u.length + 6 + k]? = t[k]? := by
  unfold attrW
  rw [Nat.add_assoc, getElem?_append_len]
  rw [show 6 + k = (strToL "href=").length + (k + 1) from by
    rw [strToL_href]; simp [Nat.add_comm]]
  rw [getElem?_append_len, List.getElem?_cons_succ]
  rw [List.getElem?_append_left hk]

/-- Reading the closing quote of an embedded attribute. -/
theorem attrW_char_q2 (u : Str) (q1 : Char) (t : Str) (q2 : Char) (v : Str) :
    (attrW u q1 t q2 v)[u.length + 6 + t.length]? = some q2 := by
  unfold attrW
  rw [Nat.add_assoc, getElem?_append_len]
  rw [show 6 + t.length = (strToL "href=").length + (t.length + 1) from by
    rw [strToL_href]; simp [Nat.add_comm]]
  rw [getElem?_append_len, List.getElem?_cons_succ]
  rw [show t.length = t.length + 0 from rfl, getElem?_append_len]
  simp

/-- In quote-free context, the only quote characters of an embedded
attribute are its two delimiters. -/
theorem attrW_quote_pos {u t v : Str} {q1 q2 : Char} (hu : NoQ u) (ht : NoQ t)
    (hv : NoQ v) {m : Nat} {c : Char}
    (hc : (attrW u q1 t q2 v)[m]? = some c) (hq : isQuote c = true) :
    m = u.length + 5 ∨ m = u.length + 6 + t.length := by
  unfold attrW at hc
  by_cases h1 : m < u.length
  · rw [List.getElem?_append_left h1] at hc
    have hmem : c ∈ u := List.mem_iff_getElem?.mpr ⟨m, hc⟩
    rw [hu c hmem] at hq
    exact absurd hq (by decide)
  · push_neg at h1
    obtain ⟨k, hk⟩ : ∃ k, m = u.length + k := ⟨m - u.length, by omega⟩
    subst hk
    rw [getElem?_append_len] at hc
    by_cases h2 : k < 5
    · rw [List.getElem?_append_left (by rw [strToL_href]; simpa using h2)] at hc
      have hmem : c ∈ strToL "href=" := List.mem_iff_getElem?.mpr ⟨k, hc⟩
      have hnq : isQuote c = false := by
        have h3 : c = 'h' ∨ c = 'r' ∨ c = 'e' ∨ c = 'f' ∨ c = '=' := by
          simpa [strToL_href] using hmem
        rcases h3 with h3 | h3 | h3 | h3 | h3 <;> subst h3 <;> decide
      rw [hnq] at hq
      exact absurd hq (by decide)
    · push_neg at h2
      obtain ⟨k2, hk2⟩ : ∃ k2, k = 5 + k2 := ⟨k - 5, by omega⟩
      subst hk2
      rw [show (5 + k2 : Nat) = (strToL "href=").length + k2 from by
        rw [strToL_href]; simp] at hc
      rw [getElem?_append_len] at hc
      cases k2 with
      | zero => left; omega
      | succ k3 =>
        rw [List.getElem?_cons_succ] at hc
        by_cases h3 : k3 < t.length
        · rw [List.getElem?_append_left h3] at hc
          have hmem : c ∈ t := List.mem_iff_getElem?.mpr ⟨k3, hc⟩
          rw [ht c hmem] at hq
          exact absurd hq (by decide)
        · push_neg at h3
          obtain ⟨k4, hk4⟩ : ∃ k4, k3 = t.length + k4 := ⟨k3 - t.length, by omega⟩
          subst hk4
          rw [getElem?_append_len] at hc
          cases k4 with
          | zero => right; omega
          | succ k5 =>
            rw [List.getElem?_cons_succ] at hc
            have hmem : c ∈ v := List.mem_iff_getElem?.mpr ⟨k5, hc⟩
            rw [hv c hmem] at hq
            exact absurd hq (by decide)

/-- The shared kill: a matcher that needs a quote at offset `k` and a later
quote at offset `j` cannot fire anywhere but with its first quote on the
attribute's opening delimiter. -/
theorem ctx_kill_two_quotes {u t v : Str} {q1 q2 : Char} (hu : NoQ u) (ht : NoQ t)
    (hv : NoQ v) {i k j : Nat} (hkj : k < j)
    (hfq : ∃ c, ((attrW u q1 t q2 v).drop i)[k]? = some c ∧ isQuote c = true)
    (hsq : ∃ c, ((attrW u q1 t q2 v).drop i)[j]? = some c ∧ isQuote c = true)
    (hQ1 : i + k ≠ u.length + 5) : False := by
  obtain ⟨c, hc, hcq⟩ := hfq
  obtain ⟨c2, hc2, hcq2⟩ := hsq
  rw [List.getElem?_drop] at hc hc2
  rcases attrW_quote_pos hu ht hv hc hcq with h1 | h1
  · exact hQ1 h1
  · rcases attrW_quote_pos hu ht hv hc2 hcq2 with h2 | h2 <;> omega

/-! ## Structure of the compiled rule-1 pattern match -/

/-- A single alternative behaves as its item match. -/
theorem tryAlts_single {a : List PatItem} {s : Str} :
    tryAlts [a] s = matchItems a s := by
  unfold tryAlts
  cases h : matchItems a s <;> simp [h, tryAlts]

/-- Splitting on an absent separator is the identity. -/
theorem splitOnChar_no_sep {sep : Char} {s : Str} (h : sep ∉ s) :
    splitOnChar sep s = [s] := by
  induction s with
  | nil => rfl
  | cons c cs ih =>
    have hc : c ≠ sep := fun hh => h (by simp [hh])
    have hcs : sep ∉ cs := fun hh => h (by simp [hh])
    unfold splitOnChar
    simp only [ih hcs]
    rw [if_neg hc]

/-- Without a `|` in the project id, rule 1 has a single alternative. -/
theorem r1Alts_noPipe {pid : Str} (hp : '|' ∉ pid) :
    r1Alts pid = [r1Pre ++ litItems pid ++ r1Suf] := by
  unfold r1Alts
  rw [splitOnChar_no_sep hp]

/-- An item-sequence match decomposes over append. -/
theorem matchItems_append_some {xs ys : List PatItem} {s : Str} {n : Nat}
    (h : matchItems (xs ++ ys) s = some n) :
    ∃ n1 n2, matchItems xs s = some n1 ∧ matchItems ys (s.drop n1) = some n2 ∧
      n = n1 + n2 := by
  induction xs generalizing s n with
  | nil =>
    refine ⟨0, n, rfl, ?_, by omega⟩
    simpa using h
  | cons i is ih =>
    cases s with
    | nil =>
      exfalso
      cases i <;> simp [matchItems] at h
    | cons c cs =>
      cases i with
      | lit p =>
        rw [List.cons_append] at h
        unfold matchItems at h
        by_cases hc : ciEqChar p c = true
        · rw [if_pos hc] at h
          cases hm : matchItems (is ++ ys) cs with
          | none => rw [hm] at h; simp at h
          | some n2 =>
            rw [hm] at h
            simp only [Option.map_some'] at h
            obtain ⟨n1, n2b, ha, hb, hc2⟩ := ih hm
            refine ⟨n1 + 1, n2b, ?_, ?_, ?_⟩
            · unfold matchItems
              rw [if_pos hc, ha]
              rfl
            · simpa using hb
            · injection h with h2
              omega
        · rw [if_neg hc] at h
          simp at h
      | quoteCls =>
        rw [List.cons_append] at h
        unfold matchItems at h
        by_cases hc : isQuote c = true
        · rw [if_pos hc] at h
          cases hm : matchItems (is ++ ys) cs with
          | none => rw [hm] at h; simp at h
          | some n2 =>
            rw [hm] at h
            simp only [Option.map_some'] at h
            obtain ⟨n1, n2b, ha, hb, hc2⟩ := ih hm
            refine ⟨n1 + 1, n2b, ?_, ?_, ?_⟩
            · unfold matchItems
              rw [if_pos hc, ha]
              rfl
            · simpa using hb
            · injection h with h2
              omega
        · rw [if_neg hc] at h
          simp at h

/-- Literal items match exactly as a case-insensitive prefix strip. -/
theorem matchItems_lit_eval (a : Str) : ∀ s : Str,
    matchItems (litItems a) s = (ciPrefixRest a s).map (fun _ => a.length) := by
  induction a with
  | nil => intro s; rfl
  | cons p ps ih =>
    intro s
    cases s with
    | nil => rfl
    | cons c cs =>
      show matchItems (PatItem.lit p :: litItems ps) (c :: cs) = _
      unfold matchItems ciPrefixRest
      by_cases hc : ciEqChar p c = true
      · rw [if_pos hc, if_pos hc, ih]
        cases ciPrefixRest ps cs <;> simp [litItems]
      · rw [if_neg hc, if_neg hc]
        rfl

/-- A lone quote-class item consumes one quote character. -/
theorem matchItems_quote_some {s : Str} {n : Nat}
    (h : matchItems [PatItem.quoteCls] s = some n) :
    n = 1 ∧ ∃ c rest, s = c :: rest ∧ isQuote c = true := by
  cases s with
  | nil => simp [matchItems] at h
  | cons c cs =>
    unfold matchItems at h
    by_cases hc : isQuote c = true
    · rw [if_pos hc] at h
      simp [matchItems] at h
      exact ⟨by omega, c, cs, rfl, hc⟩
    · rw [if_neg hc] at h
      simp at h

/-! ## Facts forced by a firing matcher -/

/-- A drop one past a known cons. -/
theorem drop_succ_of_drop {s : Str} {d : Nat} {c : Char} {rest : Str}
    (h : s.drop d = c :: rest) : s.drop (d + 1) = rest := by
  rw [← List.drop_drop 1 d s, h]
  rfl

/-- Reading an append at the junction. -/
theorem getElem?_append_cons (a : Str) (c : Char) (b : Str) :
    (a ++ c :: b)[a.length]? = some c := by
  induction a with
  | nil => simp
  | cons x xs ih => simpa using ih

/-- The closing character after a greedy run, as an index read. -/
theorem takeRunNot_qc_pos {bad : List Char} {s2 : Str} {qc : Char} {s3 : Str}
    (h : (takeRunNot bad s2).2 = qc :: s3) :
    s2[(takeRunNot bad s2).1.length]? = some qc := by
  have happ := takeRunNot_append bad s2
  rw [h] at happ
  have h2 : ((takeRunNot bad s2).1 ++ qc :: s3)[(takeRunNot bad s2).1.length]? =
      some qc := getElem?_append_cons _ _ _
  rw [happ] at h2
  exact h2

/-- What a successful rule-2 match says about the input: a quote after
`href=`, a failed `/preview/` look-ahead, a long `.html`-suffixed run, and a
closing quote right after the run. -/
theorem matchR2_facts {ctx : RewCtx} {s : Str} {x : Nat × Str}
    (h : matchR2 ctx s = some x) :
    (∃ c, s[5]? = some c ∧ isQuote c = true) ∧
    ciStarts (strToL "/preview/") (s.drop 6) = false ∧
    6 ≤ (takeRunNot ['"', '\'', '#', '/'] (s.drop 6)).1.length ∧
    lowerStr ((takeRunNot ['"', '\'', '#', '/'] (s.drop 6)).1.drop
      ((takeRunNot ['"', '\'', '#', '/'] (s.drop 6)).1.length - 5)) = strToL ".html" ∧
    (∃ c, s[6 + (takeRunNot ['"', '\'', '#', '/'] (s.drop 6)).1.length]? = some c ∧
      isQuote c = true) := by
  unfold matchR2 at h
  split at h
  · simp at h
  · rename_i s1 hpre
    split at h
    · simp at h
    · rename_i q s2
      have hd : (q :: s2 : Str) = s.drop 5 := by
        have h2 := ciPrefixRest_drop hpre
        simpa [strToL_href] using h2
      have hs2 : s.drop 6 = s2 := by
        have h2 := drop_succ_of_drop hd.symm
        norm_num at h2
        exact h2
      subst hs2
      split at h
      · rename_i hq
        split at h
        · simp at h
        · rename_i hla
          dsimp only [] at h
          split at h
          · simp at h
          · rename_i qc s3 hrt2
            split at h
            · rename_i hguard
              refine ⟨⟨q, head_drop hd.symm, hq⟩, ?_, hguard.2.1, hguard.2.2, ?_⟩
              · cases hb : ciStarts (strToL "/preview/") (s.drop 6)
                · rfl
                · exact absurd hb hla
              · refine ⟨qc, ?_, hguard.1⟩
                rw [← List.getElem?_drop]
                exact takeRunNot_qc_pos hrt2
            · simp at h
      · simp at h

/-- The quote closing the `index` arm of rule 3, as an index read. -/
theorem matchR3_idx_quote_pos {s : Str} {qc : Char} {rest : Str}
    (hidx : ciPrefixRest (strToL "index") (s.drop 6) = some (qc :: rest)) :
    s[11]? = some qc := by
  have h2 := ciPrefixRest_drop hidx
  have h4 : (strToL "index").length = 5 := by decide
  rw [h4] at h2
  have h3 : (s.drop 6).drop 5 = s.drop 11 := by
    rw [List.drop_drop]
  rw [h3] at h2
  exact head_drop h2.symm

/-- What a successful rule-3 match says about the input: a quote after
`href=`, one of the two home-link arms, and a second quote past offset 5. -/
theorem matchR3_facts {ctx : RewCtx} {s : Str} {x : Nat × Str}
    (h : matchR3 ctx s = some x) :
    (∃ c, s[5]? = some c ∧ isQuote c = true) ∧
    ((∃ c, s[6]? = some c ∧ c = '.') ∨
      (∃ qc rest, ciPrefixRest (strToL "index") (s.drop 6) = some (qc :: rest) ∧
        isQuote qc = true)) ∧
    (∃ j c, 5 < j ∧ s[j]? = some c ∧ isQuote c = true) := by
  unfold matchR3 at h
  split at h
  · simp at h
  · rename_i s1 hpre
    split at h
    · simp at h
    · rename_i q s2
      have hd : (q :: s2 : Str) = s.drop 5 := by
        have h2 := ciPrefixRest_drop hpre
        simpa [strToL_href] using h2
      have hs2 : s.drop 6 = s2 := by
        have h2 := drop_succ_of_drop hd.symm
        norm_num at h2
        exact h2
      subst hs2
      split at h
      · rename_i hq
        split at h
        · simp at h
        · rename_i hla
          split at h
          · rename_i a b qc tail hs6
            split at h
            · rename_i hab
              split at h
              · rename_i hqc
                refine ⟨⟨q, head_drop hd.symm, hq⟩,
                  Or.inl ⟨a, head_drop hs6, hab.1⟩,
                  8, qc, by omega, ?_, hqc⟩
                have h7 : s.drop 7 = b :: qc :: tail := by
                  have h2 := drop_succ_of_drop hs6
                  norm_num at h2
                  exact h2
                have h8 : s.drop 8 = qc :: tail := by
                  have h2 := drop_succ_of_drop h7
                  norm_num at h2
                  exact h2
                exact head_drop h8
              · simp at h
            · split at h
              · rename_i qc2 rest2 hidx
                split at h
                · rename_i hqc2
                  exact ⟨⟨q, head_drop hd.symm, hq⟩,
                    Or.inr ⟨qc2, rest2, hidx, hqc2⟩,
                    11, qc2, by omega, matchR3_idx_quote_pos hidx, hqc2⟩
                · simp at h
              · simp at h
          · split at h
            · rename_i qc2 rest2 hidx
              split at h
              · rename_i hqc2
                exact ⟨⟨q, head_drop hd.symm, hq⟩,
                  Or.inr ⟨qc2, rest2, hidx, hqc2⟩,
                  11, qc2, by omega, matchR3_idx_quote_pos hidx, hqc2⟩
              · simp at h
            · simp at h
      · simp at h

/-- What a successful rule-4 match says about the input: a quote after
`href=`, all five look-aheads failed, a non-empty run, and a closing
quote right after the run. -/
theorem matchR4_facts {ctx : RewCtx} {s : Str} {x : Nat × Str}
    (h : matchR4 ctx s = some x) :
    (∃ c, s[5]? = some c ∧ isQuote c = true) ∧
    ciStarts (strToL "/preview/") (s.drop 6) = false ∧
    ciStarts (strToL "http://") (s.drop 6) = false ∧
    ciStarts (strToL "https://") (s.drop 6) = false ∧
    csStarts (strToL "/") (s.drop 6) = false ∧
    csStarts (strToL "#") (s.drop 6) = false ∧
    (takeRunNot ['"', '\'', '#', '/'] (s.drop 6)).1 ≠ [] ∧
    (∃ c, s[6 + (takeRunNot ['"', '\'', '#', '/'] (s.drop 6)).1.length]? = some c ∧
      isQuote c = true) := by
  unfold matchR4 at h
  split at h
  · simp at h
  · rename_i s1 hpre
    split at h
    · simp at h
    · rename_i q s2
      have hd : (q :: s2 : Str) = s.drop 5 := by
        have h2 := ciPrefixRest_drop hpre
        simpa [strToL_href] using h2
      have hs2 : s.drop 6 = s2 := by
        have h2 := drop_succ_of_drop hd.symm
        norm_num at h2
        exact h2
      subst hs2
      split at h
      · rename_i hq
        split at h
        · simp at h
        · rename_i hla
          push_neg at hla
          simp only [Bool.not_eq_true] at hla
          dsimp only [] at h
          split at h
          · simp at h
          · rename_i qc s3 hrt2
            split at h
            · rename_i hguard
              exact ⟨⟨q, head_drop hd.symm, hq⟩, hla.1, hla.2.1, hla.2.2.1,
                hla.2.2.2.1, hla.2.2.2.2, hguard.2,
                qc, by rw [← List.getElem?_drop]; exact takeRunNot_qc_pos hrt2,
                hguard.1⟩
            · simp at h
      · simp at h

/-- The character following a whitespace run, as an index read. -/
theorem takeRunIn_next_pos {good : List Char} {s2 : Str} {e : Char} {s3 : Str}
    (h : (takeRunIn good s2).2 = e :: s3) :
    s2[(takeRunIn good s2).1.length]? = some e := by
  have happ := takeRunIn_append good s2
  rw [h] at happ
  have h2 := getElem?_append_cons (takeRunIn good s2).1 e s3
  rw [happ] at h2
  exact h2

/-- Reading a known drop-decomposition at an inner offset. -/
theorem getElem?_of_drop_append {s : Str} {d : Nat} {p rest : Str}
    (h : s.drop d = p ++ rest) {j : Nat} (hj : j < p.length) :
    s[d + j]? = p[j]? := by
  rw [← List.getElem?_drop, h, List.getElem?_append_left hj]

/-- What a successful onclick match says about the input: an `l` at offset 3
(case-insensitively), a quote at offset 8 and another at offset 23. -/
theorem matchOnclick_facts {ctx : RewCtx} {s : Str} {x : Nat × Str}
    (h : matchOnclick ctx s = some x) :
    (∃ c, s[3]? = some c ∧ ciEqChar 'l' c = true) ∧
    (∃ c, s[8]? = some c ∧ isQuote c = true) ∧
    (∃ c, s[23]? = some c ∧ isQuote c = true) := by
  unfold matchOnclick at h
  split at h
  · simp at h
  · rename_i s1 hpre
    split at h
    · simp at h
    · rename_i q1 s2
      have hd : (q1 :: s2 : Str) = s.drop 8 := by
        have h2 := ciPrefixRest_drop hpre
        rw [show (strToL "onclick=").length = 8 from by decide] at h2
        exact h2
      have hs2 : s.drop 9 = s2 := by
        have h2 := drop_succ_of_drop hd.symm
        norm_num at h2
        exact h2
      subst hs2
      split at h
      · rename_i hq1
        split at h
        · simp at h
        · rename_i s3 hloc
          split at h
          · simp at h
          · rename_i q2 s4
            have hd2 : (q2 :: s4 : Str) = s.drop 23 := by
              have h2 := ciPrefixRest_drop hloc
              rw [show (strToL "location.href=").length = 14 from by decide] at h2
              rw [List.drop_drop] at h2
              exact h2
            split at h
            · rename_i hq2
              have hl : ∃ c, s[3]? = some c ∧ ciEqChar 'l' c = true := by
                obtain ⟨a, c, ha, hc, hci⟩ := ciPrefix_pointwise hpre (j := 3) (by decide)
                have h3 : (strToL "onclick=")[3]? = some 'l' := by decide
                rw [h3] at ha
                injection ha with ha2
                subst ha2
                exact ⟨c, hc, hci⟩
              exact ⟨hl, ⟨q1, head_drop hd.symm, hq1⟩, ⟨q2, head_drop hd2.symm, hq2⟩⟩
            · simp at h
      · simp at h

/-- What a successful image-rule-A match says about the input: an `s` at
offset 0, a quote at offset 4 and another strictly later. -/
theorem matchSrcA_facts {s : Str} {x : Nat × Str} (h : matchSrcA s = some x) :
    (∃ c, s[0]? = some c ∧ ciEqChar 's' c = true) ∧
    (∃ c, s[4]? = some c ∧ isQuote c = true) ∧
    (∃ j c, 4 < j ∧ s[j]? = some c ∧ isQuote c = true) := by
  unfold matchSrcA at h
  split at h
  · simp at h
  · rename_i s1 hpre
    split at h
    · simp at h
    · rename_i q s2
      have hd : (q :: s2 : Str) = s.drop 4 := by
        have h2 := ciPrefixRest_drop hpre
        rw [show (strToL "src=").length = 4 from by decide] at h2
        exact h2
      have hs2 : s.drop 5 = s2 := by
        have h2 := drop_succ_of_drop hd.symm
        norm_num at h2
        exact h2
      subst hs2
      split at h
      · rename_i hq
        split at h
        · simp at h
        · rename_i s3 himg
          have hd3 : s3 = s.drop 13 := by
            have h2 := ciPrefixRest_drop himg
            rw [show (strToL "/images/").length = 8 from by decide] at h2
            rw [List.drop_drop] at h2
            exact h2
          subst hd3
          dsimp only [] at h
          split at h
          · simp at h
          · rename_i hne
            split at h
            · simp at h
            · rename_i qc s5 hrt2
              split at h
              · rename_i hqc
                have hfq : ∃ c, s[0]? = some c ∧ ciEqChar 's' c = true := by
                  obtain ⟨a, c, ha, hc, hci⟩ :=
                    ciPrefix_pointwise hpre (j := 0) (by decide)
                  have h3 : (strToL "src=")[0]? = some 's' := by decide
                  rw [h3] at ha
                  injection ha with ha2
                  subst ha2
                  exact ⟨c, hc, hci⟩
                refine ⟨hfq, ⟨q, head_drop hd.symm, hq⟩,
                  13 + (takeRunNot ['"', '\''] (s.drop 13)).1.length, qc, ?_, ?_, hqc⟩
                · omega
                · rw [← List.getElem?_drop]
                  exact takeRunNot_qc_pos hrt2
              · simp at h
      · simp at h

/-- What a successful image-rule-B match says about the input: an `s` at
offset 0, a quote at offset 4 and another strictly later. -/
theorem matchSrcB_facts {s : Str} {x : Nat × Str} (h : matchSrcB s = some x) :
    (∃ c, s[0]? = some c ∧ ciEqChar 's' c = true) ∧
    (∃ c, s[4]? = some c ∧ isQuote c = true) ∧
    (∃ j c, 4 < j ∧ s[j]? = some c ∧ isQuote c = true) := by
  unfold matchSrcB at h
  split at h
  · simp at h
  · rename_i s1 hpre
    split at h
    · simp at h
    · rename_i q s2
      have hd : (q :: s2 : Str) = s.drop 4 := by
        have h2 := ciPrefixRest_drop hpre
        rw [show (strToL "src=").length = 4 from by decide] at h2
        exact h2
      have hs2 : s.drop 5 = s2 := by
        have h2 := drop_succ_of_drop hd.symm
        norm_num at h2
        exact h2
      subst hs2
      split at h
      · rename_i hq
        split at h
        · simp at h
        · rename_i hla
          split at h
          · simp at h
          · rename_i s3 himg
            have hd3 : s3 = s.drop 12 := by
              have h2 := ciPrefixRest_drop himg
              rw [show (strToL "images/").length = 7 from by decide] at h2
              rw [List.drop_drop] at h2
              exact h2
            subst hd3
            dsimp only [] at h
            split at h
            · simp at h
            · rename_i hne
              split at h
              · simp at h
              · rename_i qc s5 hrt2
                split at h
                · rename_i hqc
                  have hfq : ∃ c, s[0]? = some c ∧ ciEqChar 's' c = true := by
                    obtain ⟨a, c, ha, hc, hci⟩ :=
                      ciPrefix_pointwise hpre (j := 0) (by decide)
                    have h3 : (strToL "src=")[0]? = some 's' := by decide
                    rw [h3] at ha
                    injection ha with ha2
                    subst ha2
                    exact ⟨c, hc, hci⟩
                  refine ⟨hfq, ⟨q, head_drop hd.symm, hq⟩,
                    12 + (takeRunNot ['"', '\''] (s.drop 12)).1.length, qc, ?_, ?_, hqc⟩
                  · omega
                  · rw [← List.getElem?_drop]
                    exact takeRunNot_qc_pos hrt2
                · simp at h
      · simp at h

/-- What a successful navigation-script match says about the input: twenty
case-insensitive literal characters, a whitespace run, `=`, a second
whitespace run, an opening quote and a closing quote. -/
theorem matchWindow_facts {ctx : RewCtx} {s : Str} {x : Nat × Str}
    (h : matchWindow ctx s = some x) :
    ∃ a b L,
      (∀ j, j < 20 → ∃ p c, (strToL "window.location.href")[j]? = some p ∧
        s[j]? = some c ∧ ciEqChar p c = true) ∧
      (∀ j, 20 ≤ j → j < 20 + a → ∃ c, s[j]? = some c ∧ c ∈ jsWS) ∧
      s[20 + a]? = some '=' ∧
      (∀ j, 21 + a ≤ j → j < 21 + a + b → ∃ c, s[j]? = some c ∧ c ∈ jsWS) ∧
      (∃ c, s[21 + a + b]? = some c ∧ isQuote c = true) ∧
      (∃ c, s[22 + a + b + L]? = some c ∧ isQuote c = true) := by
  unfold matchWindow at h
  split at h
  · simp at h
  · rename_i s1 hpre
    have hs1 : s1 = s.drop 20 := by
      have h2 := ciPrefixRest_drop hpre
      rw [show (strToL "window.location.href").length = 20 from by decide] at h2
      exact h2
    subst hs1
    dsimp only [] at h
    split at h
    · simp at h
    · rename_i e s2 hw1
      split at h
      · rename_i he
        subst he
        have happ1 := takeRunIn_append jsWS (s.drop 20)
        rw [hw1] at happ1
        have hD2 : s.drop (21 + (takeRunIn jsWS (s.drop 20)).1.length) = s2 := by
          have h21 : (s.drop 20).drop ((takeRunIn jsWS (s.drop 20)).1.length + 1) =
              s2 := by
            have h3 := drop_len_plus (takeRunIn jsWS (s.drop 20)).1 ('=' :: s2) 1
            rw [happ1] at h3
            simpa using h3
          rw [List.drop_drop] at h21
          rw [show 21 + (takeRunIn jsWS (s.drop 20)).1.length =
            20 + ((takeRunIn jsWS (s.drop 20)).1.length + 1) from by omega]
          exact h21
        try dsimp only [] at h
        split at h
        · simp at h
        · rename_i q s3 hw2
          split at h
          · rename_i hq
            try dsimp only [] at h
            split at h
            · simp at h
            · rename_i hcap
              split at h
              · simp at h
              · rename_i qc s5 hct
                split at h
                · rename_i hqc
                  have happ2 := takeRunIn_append jsWS s2
                  rw [hw2] at happ2
                  have hD3 : s.drop (22 + (takeRunIn jsWS (s.drop 20)).1.length +
                      (takeRunIn jsWS s2).1.length) = s3 := by
                    have h31 : s2.drop ((takeRunIn jsWS s2).1.length + 1) = s3 := by
                      have h3 := drop_len_plus (takeRunIn jsWS s2).1 (q :: s3) 1
                      rw [happ2] at h3
                      simpa using h3
                    have hcomp := List.drop_drop ((takeRunIn jsWS s2).1.length + 1)
                      (21 + (takeRunIn jsWS (s.drop 20)).1.length) s
                    rw [hD2, h31] at hcomp
                    rw [show 22 + (takeRunIn jsWS (s.drop 20)).1.length +
                      (takeRunIn jsWS s2).1.length =
                      21 + (takeRunIn jsWS (s.drop 20)).1.length +
                      ((takeRunIn jsWS s2).1.length + 1) from by omega]
                    exact hcomp.symm
                  refine ⟨(takeRunIn jsWS (s.drop 20)).1.length,
                    (takeRunIn jsWS s2).1.length,
                    (takeRunNot ['"', '\''] s3).1.length, ?_, ?_, ?_, ?_, ?_, ?_⟩
                  · intro j hj
                    exact ciPrefix_pointwise hpre (by
                      rw [show (strToL "window.location.href").length = 20 from by
                        decide]
                      exact hj)
                  · intro j hj1 hj2
                    obtain ⟨j2, rfl⟩ : ∃ j2, j = 20 + j2 := ⟨j - 20, by omega⟩
                    have hj2b : j2 < (takeRunIn jsWS (s.drop 20)).1.length := by omega
                    have hx := getElem?_of_drop_append happ1.symm hj2b
                    have hsome := List.getElem?_eq_getElem hj2b
                    refine ⟨(takeRunIn jsWS (s.drop 20)).1[j2], by rw [hx, hsome], ?_⟩
                    exact takeRunIn_run_mem (s.drop 20) _ (List.getElem_mem _)
                  · rw [← List.getElem?_drop]
                    exact takeRunIn_next_pos hw1
                  · intro j hj1 hj2
                    obtain ⟨j2, rfl⟩ : ∃ j2,
                        j = 21 + (takeRunIn jsWS (s.drop 20)).1.length + j2 :=
                      ⟨j - (21 + (takeRunIn jsWS (s.drop 20)).1.length), by omega⟩
                    have hj2b : j2 < (takeRunIn jsWS s2).1.length := by omega
                    have hD2b : s.drop (21 + (takeRunIn jsWS (s.drop 20)).1.length) =
                        (takeRunIn jsWS s2).1 ++ (q :: s3) := by
                      rw [hD2]
                      exact happ2.symm
                    have hx := getElem?_of_drop_append hD2b hj2b
                    have hsome := List.getElem?_eq_getElem hj2b
                    refine ⟨(takeRunIn jsWS s2).1[j2], by rw [hx, hsome], ?_⟩
                    exact takeRunIn_run_mem s2 _ (List.getElem_mem _)
                  · refine ⟨q, ?_, hq⟩
                    rw [← List.getElem?_drop, hD2]
                    exact takeRunIn_next_pos hw2
                  · refine ⟨qc, ?_, hqc⟩
                    rw [← List.getElem?_drop, hD3]
                    exact takeRunNot_qc_pos hct
                · simp at h
          · simp at h
      · simp at h

/-- Head of a known drop, generalized. -/
theorem getElem?_drop_zero {s : Str} {d : Nat} {X : Str} (h : s.drop d = X) :
    s[d]? = X[0]? := by
  have h2 := List.getElem?_drop s d 0
  rw [h] at h2
  exact h2.symm

/-- What a successful rule-1 match says about the input, for a pipe-free
project id: quotes at offset 5 and later, a slash at offset 6, and the
pattern tail matching from offset 15. -/
theorem matchR1_facts {pid : Str} {s : Str} {x : Nat × Str} (hp : '|' ∉ pid)
    (h : matchR1 pid s = some x) :
    (∃ c, s[5]? = some c ∧ isQuote c = true) ∧
    (∃ c, s[6]? = some c ∧ ciEqChar '/' c = true) ∧
    (∃ n3, matchItems (litItems pid ++ (litItems (strToL "/index") ++
      [PatItem.quoteCls])) (s.drop 15) = some n3) ∧
    (∃ j c, 5 < j ∧ s[j]? = some c ∧ isQuote c = true) := by
  unfold matchR1 at h
  rw [r1Alts_noPipe hp, tryAlts_single] at h
  cases hm : matchItems (r1Pre ++ litItems pid ++ r1Suf) s with
  | none => rw [hm] at h; simp at h
  | some n =>
    have hm2 : matchItems (litItems (strToL "href=") ++ ([PatItem.quoteCls] ++
        (litItems (strToL "/preview/") ++ (litItems pid ++ (litItems (strToL "/index") ++
        [PatItem.quoteCls]))))) s = some n := by
      have e : r1Pre ++ litItems pid ++ r1Suf =
          litItems (strToL "href=") ++ ([PatItem.quoteCls] ++
          (litItems (strToL "/preview/") ++ (litItems pid ++
          (litItems (strToL "/index") ++ [PatItem.quoteCls])))) := by
        unfold r1Pre r1Suf
        simp [List.append_assoc]
      rw [← e]
      exact hm
    obtain ⟨n1, m1, ha1, hb1, -⟩ := matchItems_append_some hm2
    rw [matchItems_lit_eval] at ha1
    cases hpre : ciPrefixRest (strToL "href=") s with
    | none => rw [hpre] at ha1; simp at ha1
    | some r1 =>
      rw [hpre] at ha1
      simp only [Option.map_some'] at ha1
      injection ha1 with ha1b
      rw [show (strToL "href=").length = 5 from by decide] at ha1b
      subst ha1b
      obtain ⟨n2, m2, ha2, hb2, -⟩ := matchItems_append_some hb1
      obtain ⟨hn2, qch, qrest, hqd, hqq⟩ := matchItems_quote_some ha2
      subst hn2
      have hfq : s[5]? = some qch := head_drop hqd
      have hd6 : (s.drop 5).drop 1 = s.drop 6 := List.drop_drop 1 5 s
      rw [hd6] at hb2
      obtain ⟨n3a, m3, ha3, hb3, -⟩ := matchItems_append_some hb2
      rw [matchItems_lit_eval] at ha3
      cases hprev : ciPrefixRest (strToL "/preview/") (s.drop 6) with
      | none => rw [hprev] at ha3; simp at ha3
      | some r3 =>
        rw [hprev] at ha3
        simp only [Option.map_some'] at ha3
        injection ha3 with ha3b
        rw [show (strToL "/preview/").length = 9 from by decide] at ha3b
        subst ha3b
        have hd15 : (s.drop 6).drop 9 = s.drop 15 := List.drop_drop 9 6 s
        rw [hd15] at hb3
        have hslash : ∃ c, s[6]? = some c ∧ ciEqChar '/' c = true := by
          obtain ⟨a, c, ha, hc, hci⟩ := ciPrefix_pointwise hprev (j := 0) (by decide)
          have h3 : (strToL "/preview/")[0]? = some '/' := by decide
          rw [h3] at ha
          injection ha with ha2b
          subst ha2b
          refine ⟨c, ?_, hci⟩
          simpa using hc
        refine ⟨⟨qch, hfq, hqq⟩, hslash, ⟨m3, hb3⟩, ?_⟩
        obtain ⟨n4, m4, ha4, hb4, -⟩ := matchItems_append_some hb3
        rw [matchItems_lit_eval] at ha4
        cases hpid4 : ciPrefixRest pid (s.drop 15) with
        | none => rw [hpid4] at ha4; simp at ha4
        | some r4 =>
          rw [hpid4] at ha4
          simp only [Option.map_some'] at ha4
          injection ha4 with ha4b
          subst ha4b
          have hdP : (s.drop 15).drop pid.length = s.drop (15 + pid.length) :=
            List.drop_drop pid.length 15 s
          rw [hdP] at hb4
          obtain ⟨n5, m5, ha5, hb5, -⟩ := matchItems_append_some hb4
          rw [matchItems_lit_eval] at ha5
          cases hidx5 : ciPrefixRest (strToL "/index") (s.drop (15 + pid.length)) with
          | none => rw [hidx5] at ha5; simp at ha5
          | some r5 =>
            rw [hidx5] at ha5
            simp only [Option.map_some'] at ha5
            injection ha5 with ha5b
            rw [show (strToL "/index").length = 6 from by decide] at ha5b
            subst ha5b
            have hdQ : (s.drop (15 + pid.length)).drop 6 =
                s.drop (15 + pid.length + 6) :=
              List.drop_drop 6 (15 + pid.length) s
            rw [hdQ] at hb5
            obtain ⟨-, qc2, rest2, hq2d, hq2⟩ := matchItems_quote_some hb5
            exact ⟨15 + pid.length + 6, qc2, by omega, head_drop hq2d, hq2⟩

/-! ## The matchers decline away from the attribute -/

/-- Rule 2 declines at every position other than the attribute start. -/
theorem matchR2_side_none {ctx : RewCtx} {u t v : Str} {q1 q2 : Char}
    (hu : NoQ u) (ht : NoQ t) (hv : NoQ v) {i : Nat} (hi : i ≠ u.length) :
    matchR2 ctx ((attrW u q1 t q2 v).drop i) = none := by
  cases hm : matchR2 ctx ((attrW u q1 t q2 v).drop i) with
  | none => rfl
  | some x =>
    exfalso
    obtain ⟨hfq, -, hlen, -, hsq⟩ := matchR2_facts hm
    exact ctx_kill_two_quotes hu ht hv (by omega) hfq hsq (by omega)

/-- Rule 3 declines at every position other than the attribute start. -/
theorem matchR3_side_none {ctx : RewCtx} {u t v : Str} {q1 q2 : Char}
    (hu : NoQ u) (ht : NoQ t) (hv : NoQ v) {i : Nat} (hi : i ≠ u.length) :
    matchR3 ctx ((attrW u q1 t q2 v).drop i) = none := by
  cases hm : matchR3 ctx ((attrW u q1 t q2 v).drop i) with
  | none => rfl
  | some x =>
    exfalso
    obtain ⟨hfq, -, j, c2, hj, hc2, hq2⟩ := matchR3_facts hm
    exact ctx_kill_two_quotes hu ht hv hj hfq ⟨c2, hc2, hq2⟩ (by omega)

/-- Rule 4 declines at every position other than the attribute start. -/
theorem matchR4_side_none {ctx : RewCtx} {u t v : Str} {q1 q2 : Char}
    (hu : NoQ u) (ht : NoQ t) (hv : NoQ v) {i : Nat} (hi : i ≠ u.length) :
    matchR4 ctx ((attrW u q1 t q2 v).drop i) = none := by
  cases hm : matchR4 ctx ((attrW u q1 t q2 v).drop i) with
  | none => rfl
  | some x =>
    exfalso
    obtain ⟨hfq, -, -, -, -, -, hne, hsq⟩ := matchR4_facts hm
    exact ctx_kill_two_quotes hu ht hv (by omega) hfq hsq (by omega)

/-- Rule 1 declines at every position other than the attribute start. -/
theorem matchR1_side_none {pid u t v : Str} {q1 q2 : Char} (hp : '|' ∉ pid)
    (hu : NoQ u) (ht : NoQ t) (hv : NoQ v) {i : Nat} (hi : i ≠ u.length) :
    matchR1 pid ((attrW u q1 t q2 v).drop i) = none := by
  cases hm : matchR1 pid ((attrW u q1 t q2 v).drop i) with
  | none => rfl
  | some x =>
    exfalso
    obtain ⟨hfq, -, -, j, c2, hj, hc2, hq2⟩ := matchR1_facts hp hm
    exact ctx_kill_two_quotes hu ht hv hj hfq ⟨c2, hc2, hq2⟩ (by omega)

/-- The onclick rule declines at every position of an embedded attribute. -/
theorem matchOnclick_ctx_none {ctx : RewCtx} {u t v : Str} {q1 q2 : Char}
    (hu : NoQ u) (ht : NoQ t) (hv : NoQ v) (i : Nat) :
    matchOnclick ctx ((attrW u q1 t q2 v).drop i) = none := by
  cases hm : matchOnclick ctx ((attrW u q1 t q2 v).drop i) with
  | none => rfl
  | some x =>
    exfalso
    obtain ⟨hl3, hq8, hq23⟩ := matchOnclick_facts hm
    by_cases hQ1 : i + 8 = u.length + 5
    · obtain ⟨c, hc, hci⟩ := hl3
      rw [List.getElem?_drop] at hc
      have hch : (attrW u q1 t q2 v)[i + 3]? = some 'h' := by
        have h0 := @attrW_char_href u q1 t q2 v 0 (by omega)
        rw [show i + 3 = u.length + 0 from by omega, h0]
        decide
      rw [hch] at hc
      injection hc with hc2
      subst hc2
      exact absurd hci (by decide)
    · exact ctx_kill_two_quotes hu ht hv (by omega) hq8 hq23 hQ1

/-- Image rule A declines at every position of an embedded attribute. -/
theorem matchSrcA_ctx_none {u t v : Str} {q1 q2 : Char}
    (hu : NoQ u) (ht : NoQ t) (hv : NoQ v) (i : Nat) :
    matchSrcA ((attrW u q1 t q2 v).drop i) = none := by
  cases hm : matchSrcA ((attrW u q1 t q2 v).drop i) with
  | none => rfl
  | some x =>
    exfalso
    obtain ⟨hs0, hq4, j, c2, hj, hc2, hjq⟩ := matchSrcA_facts hm
    by_cases hQ1 : i + 4 = u.length + 5
    · obtain ⟨c, hc, hci⟩ := hs0
      rw [List.getElem?_drop] at hc
      have hch : (attrW u q1 t q2 v)[i + 0]? = some 'r' := by
        have h0 := @attrW_char_href u q1 t q2 v 1 (by omega)
        rw [show i + 0 = u.length + 1 from by omega, h0]
        decide
      rw [hch] at hc
      injection hc with hc2b
      subst hc2b
      exact absurd hci (by decide)
    · exact ctx_kill_two_quotes hu ht hv hj hq4 ⟨c2, hc2, hjq⟩ hQ1

/-- Image rule B declines at every position of an embedded attribute. -/
theorem matchSrcB_ctx_none {u t v : Str} {q1 q2 : Char}
    (hu : NoQ u) (ht : NoQ t) (hv : NoQ v) (i : Nat) :
    matchSrcB ((attrW u q1 t q2 v).drop i) = none := by
  cases hm : matchSrcB ((attrW u q1 t q2 v).drop i) with
  | none => rfl
  | some x =>
    exfalso
    obtain ⟨hs0, hq4, j, c2, hj, hc2, hjq⟩ := matchSrcB_facts hm
    by_cases hQ1 : i + 4 = u.length + 5
    · obtain ⟨c, hc, hci⟩ := hs0
      rw [List.getElem?_drop] at hc
      have hch : (attrW u q1 t q2 v)[i + 0]? = some 'r' := by
        have h0 := @attrW_char_href u q1 t q2 v 1 (by omega)
        rw [show i + 0 = u.length + 1 from by omega, h0]
        decide
      rw [hch] at hc
      injection hc with hc2b
      subst hc2b
      exact absurd hci (by decide)
    · exact ctx_kill_two_quotes hu ht hv hj hq4 ⟨c2, hc2, hjq⟩ hQ1

/-- The navigation-script rule declines at every position of an embedded
attribute, provided the prefix does not end in a case variant of
`window.location.`. -/
theorem matchWindow_ctx_none {ctx : RewCtx} {u t v : Str} {q1 q2 : Char}
    (hu : NoQ u) (ht : NoQ t) (hv : NoQ v)
    (hwin : csEnds (strToL "window.location.") (lowerStr u) = false) (i : Nat) :
    matchWindow ctx ((attrW u q1 t q2 v).drop i) = none := by
  cases hm : matchWindow ctx ((attrW u q1 t q2 v).drop i) with
  | none => rfl
  | some x =>
    exfalso
    obtain ⟨a, b, L, hlit, hws1, heq, hws2, hoq, hcq⟩ := matchWindow_facts hm
    obtain ⟨c, hoc, hocq⟩ := hoq
    rw [List.getElem?_drop] at hoc
    rcases attrW_quote_pos hu ht hv hoc hocq with hQ1 | hQ2
    · by_cases hk0 : a + b = 0
      · -- the twenty literal characters sit at the end of the context prefix
        have hdeq : (lowerStr u).drop i = strToL "window.location." := by
          have hdec : ∀ m, m < 16 →
              ((strToL "window.location.href")[m]?).map lowerChar =
              (strToL "window.location.")[m]? := by decide
          apply List.ext_getElem?
          intro n
          by_cases hn : n < 16
          · obtain ⟨p, c3, hp, hc3, hci⟩ := hlit n (by omega)
            rw [List.getElem?_drop] at hc3
            have hcu : u[i + n]? = some c3 := by
              have h4 : (attrW u q1 t q2 v)[i + n]? = u[i + n]? := by
                unfold attrW
                exact List.getElem?_append_left (by omega)
              rw [h4] at hc3
              exact hc3
            rw [List.getElem?_drop]
            unfold lowerStr
            rw [List.getElem?_map, hcu]
            have hlp : lowerChar p = lowerChar c3 := by simpa [ciEqChar] using hci
            rw [← hdec n hn, hp]
            simp [hlp]
          · push_neg at hn
            rw [List.getElem?_drop]
            rw [List.getElem?_eq_none (by
              simp only [lowerStr, List.length_map]
              omega)]
            rw [List.getElem?_eq_none (by
              rw [show (strToL "window.location.").length = 16 from by decide]
              omega)]
        have hsufx : (strToL "window.location.") <:+ lowerStr u := by
          refine ⟨(lowerStr u).take i, ?_⟩
          rw [← hdeq]
          exact List.take_append_drop i (lowerStr u)
        have htrue := List.isSuffixOf_iff_suffix.mpr hsufx
        unfold csEnds at hwin
        rw [htrue] at hwin
        exact absurd hwin (by decide)
      · by_cases hk3 : a + b ≤ 3
        · obtain ⟨p, c3, hp, hc3, hci⟩ := hlit (16 + (a + b)) (by omega)
          rw [List.getElem?_drop] at hc3
          have hch : (attrW u q1 t q2 v)[i + (16 + (a + b))]? = some 'h' := by
            have h0 := @attrW_char_href u q1 t q2 v 0 (by omega)
            rw [show i + (16 + (a + b)) = u.length + 0 from by omega, h0]
            decide
          rw [hch] at hc3
          injection hc3 with hc3b
          subst hc3b
          have hcase : a + b = 1 ∨ a + b = 2 ∨ a + b = 3 := by omega
          rcases hcase with h1 | h1 | h1 <;> rw [h1] at hp
          · have h2 : (strToL "window.location.href")[16 + 1]? = some 'r' := by decide
            rw [h2] at hp
            injection hp with hp2
            subst hp2
            exact absurd hci (by decide)
          · have h2 : (strToL "window.location.href")[16 + 2]? = some 'e' := by decide
            rw [h2] at hp
            injection hp with hp2
            subst hp2
            exact absurd hci (by decide)
          · have h2 : (strToL "window.location.href")[16 + 3]? = some 'f' := by decide
            rw [h2] at hp
            injection hp with hp2
            subst hp2
            exact absurd hci (by decide)
        · by_cases hb0 : b = 0
          · obtain ⟨c3, hc3, hmem⟩ := hws1 (16 + a) (by omega) (by omega)
            rw [List.getElem?_drop] at hc3
            have hch : (attrW u q1 t q2 v)[i + (16 + a)]? = some 'h' := by
              have h0 := @attrW_char_href u q1 t q2 v 0 (by omega)
              rw [show i + (16 + a) = u.length + 0 from by omega, h0]
              decide
            rw [hch] at hc3
            injection hc3 with hc3b
            subst hc3b
            exact absurd hmem (by decide)
          · by_cases hb4 : b ≤ 4
            · rw [List.getElem?_drop] at heq
              rw [show i + (20 + a) = u.length + (4 - b) from by omega] at heq
              have h0 := @attrW_char_href u q1 t q2 v (4 - b) (by omega)
              rw [h0] at heq
              have hcase : b = 1 ∨ b = 2 ∨ b = 3 ∨ b = 4 := by omega
              rcases hcase with h1 | h1 | h1 | h1 <;> rw [h1] at heq <;>
                exact absurd heq (by decide)
            · obtain ⟨c3, hc3, hmem⟩ := hws2 (16 + a + b) (by omega) (by omega)
              rw [List.getElem?_drop] at hc3
              have hch : (attrW u q1 t q2 v)[i + (16 + a + b)]? = some 'h' := by
                have h0 := @attrW_char_href u q1 t q2 v 0 (by omega)
                rw [show i + (16 + a + b) = u.length + 0 from by omega, h0]
                decide
              rw [hch] at hc3
              injection hc3 with hc3b
              subst hc3b
              exact absurd hmem (by decide)
    · obtain ⟨c2, hcc, hccq⟩ := hcq
      rw [List.getElem?_drop] at hcc
      rcases attrW_quote_pos hu ht hv hcc hccq with h2 | h2 <;> omega

/-! ## Behaviour of the matchers at the attribute itself -/

/-- Dropping `href=` and the opening quote. -/
theorem href_attr_drop6 (q1 : Char) (Y : Str) :
    (strToL "href=" ++ (q1 :: Y)).drop 6 = Y := by
  rw [strToL_href]
  rfl

/-- A lower-cased `.html` suffix forces a dot into the run. -/
theorem dot_mem_of_lower_html {r : Str}
    (h : lowerStr (r.drop (r.length - 5)) = strToL ".html") : '.' ∈ r := by
  cases hd : r.drop (r.length - 5) with
  | nil =>
    rw [hd] at h
    rw [show (strToL ".html" : Str) = '.' :: strToL "html" from by decide] at h
    simp [lowerStr] at h
  | cons c cs =>
    rw [hd] at h
    unfold lowerStr at h
    rw [show strToL ".html" = '.' :: strToL "html" from by decide] at h
    simp only [List.map_cons, List.cons.injEq] at h
    have hc : c = '.' := lowerChar_eq_nonletter (by decide) h.1
    subst hc
    exact List.drop_subset _ r (by rw [hd]; simp)

/-- A run headed by a class character is empty. -/
theorem takeRunNot_head_bad {bad : List Char} {c : Char} (h : c ∈ bad) (X : Str) :
    takeRunNot bad (c :: X) = ([], c :: X) := by
  unfold takeRunNot
  rw [if_pos h]

/-- A list of length five is five explicit characters. -/
theorem list_len5 {t : Str} (h : t.length = 5) :
    ∃ a1 a2 a3 a4 a5, t = [a1, a2, a3, a4, a5] := by
  rcases t with _ | ⟨a1, _ | ⟨a2, _ | ⟨a3, _ | ⟨a4, _ | ⟨a5, _ | ⟨a6, t6⟩⟩⟩⟩⟩⟩
  · simp at h
  · simp at h
  · simp at h
  · simp at h
  · simp at h
  · exact ⟨a1, a2, a3, a4, a5, rfl⟩
  · simp at h

/-- A single-character case-sensitive look-ahead fails on a different head. -/
theorem csStarts_single_false {d c0 : Char} {t2 Z : Str} (h : c0 ≠ d) :
    csStarts [d] ((c0 :: t2) ++ Z) = false := by
  simp only [csStarts, List.cons_append, List.isPrefixOf, Bool.and_eq_false_iff]
  left
  exact beq_false_of_ne (fun hh => h hh.symm)

/-- A single-character case-sensitive look-ahead succeeds on that head. -/
theorem csStarts_single_true {d : Char} {t2 Z : Str} :
    csStarts [d] ((d :: t2) ++ Z) = true := by
  simp [csStarts, List.cons_append, List.isPrefixOf]

/-- A case-insensitive look-ahead fails when a distinguished non-letter of
the pattern is missing from the target and the preceding pattern characters
cannot match the closing quote. -/
theorem ciStarts_false_of_clean {pat t v2 : Str} {q : Char} (hq : isQuote q = true)
    {d : Char} {k : Nat} (hd1 : lowerChar d = d) (hd2 : d < 'a' ∨ 'z' < d)
    (hk : pat[k]? = some d) (ht : ∀ c ∈ t, c ≠ d)
    (hnq : ∀ j, j ≤ k → ∀ pc, pat[j]? = some pc → isQuote pc = false) :
    ciStarts pat (t ++ (q :: v2)) = false := by
  cases hcs : ciStarts pat (t ++ (q :: v2))
  · rfl
  · exfalso
    unfold ciStarts at hcs
    obtain ⟨r, hr⟩ := Option.isSome_iff_exists.mp hcs
    obtain ⟨m, hm, hf⟩ := ciPrefixRest_decomp hr
    have hklen : k < pat.length := by
      by_contra hknot
      push_neg at hknot
      rw [List.getElem?_eq_none hknot] at hk
      exact Option.noConfusion hk
    by_cases hcase : t.length ≤ k
    · have htlen : t.length < pat.length := by omega
      obtain ⟨p, c, hp, hc, hci⟩ := forall2_ci_getElem hf htlen
      have hcs2 : (t ++ (q :: v2))[t.length]? = some c := by
        rw [hm, List.getElem?_append_left (by rw [← hf.length_eq]; omega)]
        exact hc
      rw [getElem?_append_cons] at hcs2
      injection hcs2 with hceq
      subst hceq
      have hnq2 := hnq t.length hcase p hp
      rw [quote_ci_kill hq hnq2] at hci
      simp at hci
    · push_neg at hcase
      obtain ⟨p, c, hp, hc, hci⟩ := forall2_ci_getElem hf hklen
      have hcs2 : (t ++ (q :: v2))[k]? = some c := by
        rw [hm, List.getElem?_append_left (by rw [← hf.length_eq]; exact hklen)]
        exact hc
      rw [List.getElem?_append_left hcase] at hcs2
      rw [hk] at hp
      injection hp with hpd
      subst hpd
      have hcd := ciEqChar_rigid hd1 hd2 hci
      subst hcd
      exact ht c (List.mem_iff_getElem?.mpr ⟨k, hcs2⟩) rfl

/-- A case-insensitive look-ahead succeeds when the lower-cased target
starts with the (lower-case) pattern. -/
theorem ciStarts_true_of_lower_pref {pat t : Str} (Z : Str)
    (hfix : lowerStr pat = pat) (h : ∃ r, lowerStr t = pat ++ r) :
    ciStarts pat (t ++ Z) = true := by
  obtain ⟨r, hr⟩ := h
  have hlen : pat.length ≤ t.length := by
    have h2 : (lowerStr t).length = pat.length + r.length := by
      rw [hr]; simp
    simp only [lowerStr, List.length_map] at h2
    omega
  have htake : lowerStr (t.take pat.length) = pat := by
    unfold lowerStr
    rw [List.map_take]
    show (lowerStr t).take pat.length = pat
    rw [hr]
    exact List.take_left pat r
  have hf2 : List.Forall₂ (fun a b => ciEqChar a b = true) pat (t.take pat.length) :=
    forall2_ci_of_lower (by rw [hfix, htake])
  have hpre : ciPrefixRest pat (t.take pat.length ++ (t.drop pat.length ++ Z)) =
      some (t.drop pat.length ++ Z) := ciPrefixRest_of_forall2 hf2 _
  have heq2 : t.take pat.length ++ (t.drop pat.length ++ Z) = t ++ Z := by
    rw [← List.append_assoc, List.take_append_drop]
  rw [heq2] at hpre
  unfold ciStarts
  rw [hpre]
  rfl

/-- Exposing the attribute value after `href=` and the opening quote. -/
theorem attr_drop6 (u : Str) (q1 : Char) (t : Str) (q2 : Char) (v : Str) :
    ((attrW u q1 t q2 v).drop u.length).drop 6 = t ++ (q2 :: v) := by
  rw [attrW_drop_u]
  exact href_attr_drop6 q1 (t ++ (q2 :: v))

/-- Rule 1 declines at the attribute when the target does not begin with a
slash (case-insensitively). -/
theorem matchR1_attr_none {pid u t v : Str} {q1 q2 : Char} (hp : '|' ∉ pid)
    (htne : t ≠ []) (hhead : ∀ c, t[0]? = some c → ciEqChar '/' c = false) :
    matchR1 pid ((attrW u q1 t q2 v).drop u.length) = none := by
  cases hm : matchR1 pid ((attrW u q1 t q2 v).drop u.length) with
  | none => rfl
  | some x =>
    exfalso
    obtain ⟨-, ⟨c, hc, hci⟩, -, -⟩ := matchR1_facts hp hm
    have h0 : ((attrW u q1 t q2 v).drop u.length)[6]? = (t ++ (q2 :: v))[0]? :=
      getElem?_drop_zero (attr_drop6 u q1 t q2 v)
    rw [h0] at hc
    cases t with
    | nil => exact htne rfl
    | cons c0 t2 =>
      simp only [List.cons_append, List.getElem?_cons_zero] at hc
      injection hc with hc2
      subst hc2
      rw [hhead c0 (by simp)] at hci
      simp at hci

/-- Rule 2 declines at the attribute for a hygienic page-name target. -/
theorem matchR2_attr_none_clean {ctx : RewCtx} {u t v : Str} {q1 q2 : Char}
    (hq2 : isQuote q2 = true) (ht : CleanName t) :
    matchR2 ctx ((attrW u q1 t q2 v).drop u.length) = none := by
  cases hm : matchR2 ctx ((attrW u q1 t q2 v).drop u.length) with
  | none => rfl
  | some x =>
    exfalso
    obtain ⟨-, -, hlen, hhtml, -⟩ := matchR2_facts hm
    rw [attr_drop6] at hlen hhtml
    have hclean : ∀ c ∈ t, c ∉ (['"', '\'', '#', '/'] : List Char) := by
      intro c hc hmem
      rcases ht.2 c hc with ⟨h1, h2, h3, h4, -, -⟩
      fin_cases hmem
      · exact h1 rfl
      · exact h2 rfl
      · exact h3 rfl
      · exact h4 rfl
    have hbad : q2 ∈ (['"', '\'', '#', '/'] : List Char) := by
      rcases isQuote_cases hq2 with h | h <;> subst h <;> decide
    rw [takeRunNot_exact hclean hbad] at hhtml
    dsimp only [] at hhtml
    exact absurd (dot_mem_of_lower_html hhtml)
      (fun hmem => (ht.2 '.' hmem).2.2.2.2.1 rfl)

/-- Rule 2 declines at the attribute when the target starts with a
character of the value character class. -/
theorem matchR2_attr_none_headbad {ctx : RewCtx} {u t v : Str} {q1 q2 : Char}
    {c0 : Char} {t2 : Str} (hT : t = c0 :: t2)
    (hbad : c0 ∈ (['"', '\'', '#', '/'] : List Char)) :
    matchR2 ctx ((attrW u q1 t q2 v).drop u.length) = none := by
  subst hT
  cases hm : matchR2 ctx ((attrW u q1 (c0 :: t2) q2 v).drop u.length) with
  | none => rfl
  | some x =>
    exfalso
    obtain ⟨-, -, hlen, -, -⟩ := matchR2_facts hm
    rw [attr_drop6] at hlen
    rw [show ((c0 :: t2 : Str) ++ (q2 :: v)) = c0 :: (t2 ++ (q2 :: v)) from rfl] at hlen
    rw [takeRunNot_head_bad hbad] at hlen
    simp at hlen

/-- Rule 2 declines at the attribute for a scheme-led target: the greedy
run stops at the scheme's slash, not at a quote. -/
theorem matchR2_attr_none_abs {ctx : RewCtx} {u v : Str} {t1 t2 : Str}
    {q1 q2 : Char}
    (ht1 : ∀ c ∈ t1, c ∉ (['"', '\'', '#', '/'] : List Char)) :
    matchR2 ctx ((attrW u q1 (t1 ++ '/' :: t2) q2 v).drop u.length) = none := by
  cases hm : matchR2 ctx ((attrW u q1 (t1 ++ '/' :: t2) q2 v).drop u.length) with
  | none => rfl
  | some x =>
    exfalso
    obtain ⟨-, -, -, -, ⟨c, hc, hcq⟩⟩ := matchR2_facts hm
    have h6 := attr_drop6 u q1 (t1 ++ '/' :: t2) q2 v
    have h6b : ((attrW u q1 (t1 ++ '/' :: t2) q2 v).drop u.length).drop 6 =
        t1 ++ '/' :: (t2 ++ (q2 :: v)) := by
      rw [h6]
      simp
    rw [h6b] at hc
    rw [takeRunNot_exact ht1 (by decide) (t2 ++ (q2 :: v))] at hc
    dsimp only [] at hc
    have h2 : ((attrW u q1 (t1 ++ '/' :: t2) q2 v).drop u.length)[6 + t1.length]? =
        some '/' := by
      rw [← List.getElem?_drop, h6b]
      exact getElem?_append_cons t1 '/' (t2 ++ (q2 :: v))
    rw [h2] at hc
    injection hc with hc2
    subst hc2
    simp [isQuote] at hcq

/-- Rule 3 declines at the attribute when the target starts with neither a
dot nor an `i`. -/
theorem matchR3_attr_none_head {ctx : RewCtx} {u t v : Str} {q1 q2 : Char}
    (htne : t ≠ []) (hdot : t[0]? ≠ some '.')
    (hidx0 : ∀ c, t[0]? = some c → ciEqChar 'i' c = false) :
    matchR3 ctx ((attrW u q1 t q2 v).drop u.length) = none := by
  cases hm : matchR3 ctx ((attrW u q1 t q2 v).drop u.length) with
  | none => rfl
  | some x =>
    exfalso
    obtain ⟨-, harm, -⟩ := matchR3_facts hm
    have h0 : ((attrW u q1 t q2 v).drop u.length)[6]? = (t ++ (q2 :: v))[0]? :=
      getElem?_drop_zero (attr_drop6 u q1 t q2 v)
    cases t with
    | nil => exact htne rfl
    | cons c0 t2 =>
      simp only [List.cons_append, List.getElem?_cons_zero] at h0
      rcases harm with ⟨c, hc, hcd⟩ | ⟨qc, rest, hidx, -⟩
      · subst hcd
        rw [h0] at hc
        injection hc with hc2
        exact hdot (by simp [hc2])
      · rw [attr_drop6] at hidx
        obtain ⟨a, c, ha, hcp, hci⟩ := ciPrefix_pointwise hidx (j := 0) (by decide)
        have h3 : (strToL "index")[0]? = some 'i' := by decide
        rw [h3] at ha
        injection ha with ha2
        subst ha2
        simp only [List.cons_append, List.getElem?_cons_zero] at hcp
        injection hcp with hcp2
        subst hcp2
        rw [hidx0 c0 (by simp)] at hci
        simp at hci

/-- Rule 3 declines at the attribute for a hygienic target that is not a
case variant of `index`. -/
theorem matchR3_attr_none_noindex {ctx : RewCtx} {u t v : Str} {q1 q2 : Char}
    (ht : CleanName t) (hv : NoQ v) (hni : lowerStr t ≠ strToL "index") :
    matchR3 ctx ((attrW u q1 t q2 v).drop u.length) = none := by
  cases hm : matchR3 ctx ((attrW u q1 t q2 v).drop u.length) with
  | none => rfl
  | some x =>
    exfalso
    obtain ⟨-, harm, -⟩ := matchR3_facts hm
    rcases harm with ⟨c, hc, hcd⟩ | ⟨qc, rest, hidx, hqc⟩
    · subst hcd
      have h0 : ((attrW u q1 t q2 v).drop u.length)[6]? = (t ++ (q2 :: v))[0]? :=
        getElem?_drop_zero (attr_drop6 u q1 t q2 v)
      rw [h0] at hc
      cases t with
      | nil => exact ht.1 rfl
      | cons c0 t2 =>
        simp only [List.cons_append, List.getElem?_cons_zero] at hc
        injection hc with hc2
        exact (ht.2 c0 (by simp)).2.2.2.2.1 hc2
    · rw [attr_drop6] at hidx
      obtain ⟨m, hmsp, hf⟩ := ciPrefixRest_decomp hidx
      have hmlen : m.length = 5 := by
        have h2 := hf.length_eq
        simpa using h2.symm
      by_cases hlt : 5 < t.length
      · have h5 : (t ++ (q2 :: v))[5]? = t[5]? := List.getElem?_append_left (by omega)
        have h5b : (t ++ (q2 :: v))[5]? = some qc := by
          rw [hmsp, ← hmlen]
          exact getElem?_append_cons m qc rest
        rw [h5b] at h5
        have hqmem : qc ∈ t := List.mem_iff_getElem?.mpr ⟨5, h5.symm⟩
        rcases isQuote_cases hqc with h1 | h1 <;> subst h1
        · exact (ht.2 _ hqmem).1 rfl
        · exact (ht.2 _ hqmem).2.1 rfl
      · by_cases heq5 : t.length = 5
        · have hmt : m = t := by
            have h1 : (t ++ (q2 :: v)).take 5 = t := by
              rw [← heq5]
              exact List.take_left t (q2 :: v)
            have h2 : (t ++ (q2 :: v)).take 5 = m := by
              rw [hmsp, ← hmlen]
              exact List.take_left m (qc :: rest)
            rw [h1] at h2
            exact h2.symm
          subst hmt
          have hlow := lower_eq_of_forall2 hf
          rw [show lowerStr (strToL "index") = strToL "index" from by decide] at hlow
          exact hni hlow.symm
        · have hlen5 : t.length < 5 := by omega
          have h5b : (t ++ (q2 :: v))[5]? = some qc := by
            rw [hmsp, ← hmlen]
            exact getElem?_append_cons m qc rest
          rw [List.getElem?_append_right (by omega)] at h5b
          obtain ⟨k2, hk2⟩ : ∃ k2, 5 - t.length = k2 + 1 :=
            ⟨5 - t.length - 1, by omega⟩
          rw [hk2, List.getElem?_cons_succ] at h5b
          have hqmem : qc ∈ v := List.mem_iff_getElem?.mpr ⟨k2, h5b⟩
          rw [hv qc hqmem] at hqc
          simp at hqc

/-- Rule 4 declines at the attribute when the target starts with a slash
or a hash. -/
theorem matchR4_attr_none_head {ctx : RewCtx} {u t v : Str} {q1 q2 : Char}
    {c0 : Char} {t2 : Str} (hT : t = c0 :: t2) (hc0 : c0 = '/' ∨ c0 = '#') :
    matchR4 ctx ((attrW u q1 t q2 v).drop u.length) = none := by
  subst hT
  cases hm : matchR4 ctx ((attrW u q1 (c0 :: t2) q2 v).drop u.length) with
  | none => rfl
  | some x =>
    exfalso
    obtain ⟨-, -, -, -, hsl, hhash, -, -⟩ := matchR4_facts hm
    rw [attr_drop6] at hsl hhash
    rcases hc0 with h | h <;> subst h
    · rw [show (strToL "/") = ['/'] from by decide] at hsl
      rw [csStarts_single_true] at hsl
      simp at hsl
    · rw [show (strToL "#") = ['#'] from by decide] at hhash
      rw [csStarts_single_true] at hhash
      simp at hhash

/-- Rule 4 declines at the attribute for an absolute `http(s)` target. -/
theorem matchR4_attr_none_abs {ctx : RewCtx} {u t v : Str} {q1 q2 : Char}
    (habs : (∃ r, lowerStr t = strToL "http://" ++ r) ∨
      (∃ r, lowerStr t = strToL "https://" ++ r)) :
    matchR4 ctx ((attrW u q1 t q2 v).drop u.length) = none := by
  cases hm : matchR4 ctx ((attrW u q1 t q2 v).drop u.length) with
  | none => rfl
  | some x =>
    exfalso
    obtain ⟨-, -, hhttp, hhttps, -, -, -, -⟩ := matchR4_facts hm
    rw [attr_drop6] at hhttp hhttps
    rcases habs with h | h
    · rw [ciStarts_true_of_lower_pref (q2 :: v) (by decide) h] at hhttp
      simp at hhttp
    · rw [ciStarts_true_of_lower_pref (q2 :: v) (by decide) h] at hhttps
      simp at hhttps

/-- Rule 4 declines at the attribute for an already-canonical target. -/
theorem matchR4_attr_none_preview {ctx : RewCtx} {u p2 v : Str} {q1 q2 : Char} :
    matchR4 ctx ((attrW u q1 (strToL "/preview/" ++ p2) q2 v).drop u.length) =
      none := by
  cases hm : matchR4 ctx ((attrW u q1 (strToL "/preview/" ++ p2) q2 v).drop
      u.length) with
  | none => rfl
  | some x =>
    exfalso
    obtain ⟨-, hprev, -, -, -, -, -, -⟩ := matchR4_facts hm
    rw [attr_drop6] at hprev
    rw [List.append_assoc] at hprev
    unfold ciStarts at hprev
    rw [ciPrefixRest_refl_append] at hprev
    simp at hprev

/-- Rule 1 declines at the attribute for a canonical page link whose page
name is hygienic and not a case variant of `index`. -/
theorem matchR1_attr_none_canon {pid u name v : Str} {q1 q2 : Char} (hp : '|' ∉ pid)
    (hv : NoQ v) (hname : CleanName name) (hni : lowerStr name ≠ strToL "index") :
    matchR1 pid ((attrW u q1 ((strToL "/preview/" ++ pid) ++ '/' :: name) q2 v).drop
      u.length) = none := by
  cases hm : matchR1 pid ((attrW u q1 ((strToL "/preview/" ++ pid) ++ '/' :: name)
      q2 v).drop u.length) with
  | none => rfl
  | some x =>
    exfalso
    obtain ⟨-, -, ⟨n3, hmi⟩, -⟩ := matchR1_facts hp hm
    have h15 : ((attrW u q1 ((strToL "/preview/" ++ pid) ++ '/' :: name) q2 v).drop
        u.length).drop 15 = pid ++ ('/' :: (name ++ (q2 :: v))) := by
      have h6 := attr_drop6 u q1 ((strToL "/preview/" ++ pid) ++ '/' :: name) q2 v
      have hdd : (((attrW u q1 ((strToL "/preview/" ++ pid) ++ '/' :: name) q2
            v).drop u.length).drop 6).drop 9 =
          ((attrW u q1 ((strToL "/preview/" ++ pid) ++ '/' :: name) q2 v).drop
            u.length).drop 15 := by
        rw [List.drop_drop]
      rw [← hdd, h6]
      rw [show (((strToL "/preview/" ++ pid) ++ '/' :: name) ++ (q2 :: v)) =
        strToL "/preview/" ++ (pid ++ ('/' :: (name ++ (q2 :: v)))) from by simp]
      rw [show (9 : Nat) = (strToL "/preview/").length from by decide]
      exact List.drop_left _ _
    rw [h15] at hmi
    obtain ⟨n4, m4, ha4, hb4, -⟩ := matchItems_append_some hmi
    rw [matchItems_lit_eval, ciPrefixRest_refl_append] at ha4
    simp only [Option.map_some'] at ha4
    injection ha4 with ha4b
    subst ha4b
    have hdp : (pid ++ ('/' :: (name ++ (q2 :: v)))).drop pid.length =
        '/' :: (name ++ (q2 :: v)) := List.drop_left _ _
    rw [hdp] at hb4
    obtain ⟨n5, m5, ha5, hb5, -⟩ := matchItems_append_some hb4
    rw [matchItems_lit_eval] at ha5
    cases hidx : ciPrefixRest (strToL "/index") ('/' :: (name ++ (q2 :: v))) with
    | none => rw [hidx] at ha5; simp at ha5
    | some r5 =>
      rw [hidx] at ha5
      simp only [Option.map_some'] at ha5
      injection ha5 with ha5b
      rw [show (strToL "/index").length = 6 from by decide] at ha5b
      subst ha5b
      have hd6 : (('/' : Char) :: (name ++ (q2 :: v))).drop 6 =
          (name ++ (q2 :: v)).drop 5 := rfl
      rw [hd6] at hb5
      obtain ⟨-, qc3, rest3, hq3d, hq3⟩ := matchItems_quote_some hb5
      have hq3p : (name ++ (q2 :: v))[5]? = some qc3 := head_drop hq3d
      by_cases hlt : 5 < name.length
      · rw [List.getElem?_append_left (by omega)] at hq3p
        have hqmem : qc3 ∈ name := List.mem_iff_getElem?.mpr ⟨5, hq3p⟩
        rcases isQuote_cases hq3 with h1 | h1 <;> subst h1
        · exact (hname.2 _ hqmem).1 rfl
        · exact (hname.2 _ hqmem).2.1 rfl
      · by_cases heq5 : name.length = 5
        · obtain ⟨m, hmsp, hf⟩ := ciPrefixRest_decomp hidx
          have hmlen : m.length = 6 := by
            have h2 := hf.length_eq
            simpa using h2.symm
          have hm6 : m = '/' :: name := by
            have h1 : (('/' : Char) :: (name ++ (q2 :: v))).take 6 = '/' :: name := by
              rw [show (('/' : Char) :: (name ++ (q2 :: v))).take 6 =
                '/' :: (name ++ (q2 :: v)).take 5 from rfl]
              congr 1
              rw [← heq5]
              exact List.take_left name (q2 :: v)
            have h2 : (('/' : Char) :: (name ++ (q2 :: v))).take 6 = m := by
              rw [hmsp, ← hmlen]
              exact List.take_left m r5
            rw [h1] at h2
            exact h2.symm
          rw [hm6] at hf
          rw [show (strToL "/index") = '/' :: strToL "index" from by decide] at hf
          rw [List.forall₂_cons] at hf
          have hlow := lower_eq_of_forall2 hf.2
          rw [show lowerStr (strToL "index") = strToL "index" from by decide] at hlow
          exact hni hlow.symm
        · have hlen5 : name.length < 5 := by omega
          rw [List.getElem?_append_right (by omega)] at hq3p
          obtain ⟨k2, hk2⟩ : ∃ k2, 5 - name.length = k2 + 1 :=
            ⟨5 - name.length - 1, by omega⟩
          rw [hk2, List.getElem?_cons_succ] at hq3p
          have hqmem : qc3 ∈ v := List.mem_iff_getElem?.mpr ⟨k2, hq3p⟩
          rw [hv qc3 hqmem] at hq3
          simp at hq3

/-! ## Assembling the passes -/

/-- Rule 3 declines on quote-free text. -/
theorem matchR3_none_of_NoQ {ctx : RewCtx} {s : Str} (hs : NoQ s) :
    matchR3 ctx s = none := by
  cases hm : matchR3 ctx s with
  | none => rfl
  | some x =>
    exfalso
    obtain ⟨⟨c, hc, hq⟩, -⟩ := matchR3_facts hm
    rw [hs c (List.mem_iff_getElem?.mpr ⟨5, hc⟩)] at hq
    simp at hq

/-- Rule 4 declines on quote-free text. -/
theorem matchR4_none_of_NoQ {ctx : RewCtx} {s : Str} (hs : NoQ s) :
    matchR4 ctx s = none := by
  cases hm : matchR4 ctx s with
  | none => rfl
  | some x =>
    exfalso
    obtain ⟨⟨c, hc, hq⟩, -⟩ := matchR4_facts hm
    rw [hs c (List.mem_iff_getElem?.mpr ⟨5, hc⟩)] at hq
    simp at hq

/-- Everywhere-decline from away-decline plus attribute-decline. -/
theorem forall_none_of_side_attr {m : Str → Option (Nat × Str)} {w : Str} {d : Nat}
    (hside : ∀ i, i ≠ d → m (w.drop i) = none) (hattr : m (w.drop d) = none) :
    ∀ i, m (w.drop i) = none := by
  intro i
  by_cases h : i = d
  · subst h; exact hattr
  · exact hside i h

/-- A firing scan step on any non-empty input. -/
theorem replaceScan_ne_nil_some {m : Str → Option (Nat × Str)} {s : Str}
    (hs : s ≠ []) {n : Nat} {r : Str} (hm : m s = some (n, r)) (h1 : 0 < n)
    (h2 : n ≤ s.length) :
    replaceScan m s = r ++ replaceScan m (s.drop n) := by
  cases s with
  | nil => exact absurd rfl hs
  | cons c rest => exact replaceScan_cons_some hm h1 (by simpa using h2)

/-- Consuming the whole attribute leaves the suffix context. -/
theorem attr_x_drop (q1 q2 : Char) (t v : Str) :
    (strToL "href=" ++ (q1 :: (t ++ (q2 :: v)))).drop (7 + t.length) = v := by
  rw [show 7 + t.length = (strToL "href=").length + (2 + t.length) from by
    rw [strToL_href]; simp; omega]
  rw [drop_len_plus]
  rw [show 2 + t.length = (1 + t.length) + 1 from by omega, List.drop_succ_cons]
  rw [show 1 + t.length = t.length + 1 from by omega]
  have h2 := drop_len_plus t (q2 :: v) 1
  simpa using h2

/-- A pass that declines left of the attribute, fires on it, and declines on
the suffix rewrites exactly the attribute. -/
theorem scan_attr_fire {m : Str → Option (Nat × Str)} {u t v r : Str}
    {q1 q2 : Char}
    (hside : ∀ i, i < u.length → m ((attrW u q1 t q2 v).drop i) = none)
    (hfire : m ((attrW u q1 t q2 v).drop u.length) = some (7 + t.length, r))
    (hvnone : ∀ j, m (v.drop j) = none) :
    replaceScan m (attrW u q1 t q2 v) = u ++ (r ++ v) := by
  have hx : attrW u q1 t q2 v =
      u ++ (strToL "href=" ++ (q1 :: (t ++ (q2 :: v)))) := rfl
  rw [hx, replaceScan_prefix_none _ _ (fun i hi => hside i hi)]
  congr 1
  have hfire2 : m (strToL "href=" ++ (q1 :: (t ++ (q2 :: v)))) =
      some (7 + t.length, r) := by
    have h0 := hfire
    rw [attrW_drop_u] at h0
    exact h0
  rw [replaceScan_ne_nil_some (by rw [strToL_href]; simp) hfire2 (by omega)
    (by rw [strToL_href]; simp; omega)]
  rw [attr_x_drop]
  rw [replaceScan_all_none hvnone]

/-- The rewritten root link is itself an embedded attribute. -/
theorem rootHref_attrW (u pid v : Str) :
    u ++ (rootHref pid ++ v) = attrW u '"' (strToL "/preview/" ++ pid) '"' v := by
  unfold attrW rootHref
  rw [show strToL "href=\"/preview/" =
    strToL "href=" ++ ('"' :: strToL "/preview/") from by decide]
  simp [List.append_assoc]

/-- The rewritten page link is itself an embedded attribute. -/
theorem pageHref_attrW (u pid name v : Str) :
    u ++ (pageHref pid name ++ v) =
      attrW u '"' ((strToL "/preview/" ++ pid) ++ '/' :: name) '"' v := by
  unfold attrW pageHref
  rw [show strToL "href=\"/preview/" =
    strToL "href=" ++ ('"' :: strToL "/preview/") from by decide]
  simp [List.append_assoc]

/-- The declared-case name is quote-free when the raw names and the capture
are. -/
theorem declaredName_NoQ {ctx : RewCtx} {t : Str}
    (hnames : ∀ n ∈ ctx.rawNames, NoQ n) (ht : NoQ t) :
    NoQ (declaredName ctx t) := by
  unfold declaredName
  cases hg : pageNameMapGet ctx (lowerStr t) with
  | none => exact ht
  | some n0 =>
    have hmem : n0 ∈ ctx.rawNames := by
      unfold pageNameMapGet at hg
      exact List.mem_of_mem_filter (List.mem_of_mem_getLast? hg)
    exact hnames n0 hmem

/-- The canonical prefix is quote-free. -/
theorem NoQ_preview : NoQ (strToL "/preview/") := by
  intro c hc
  rw [show strToL "/preview/" = ['/', 'p', 'r', 'e', 'v', 'i', 'e', 'w', '/']
    from by decide] at hc
  simp only [List.mem_cons, List.not_mem_nil, or_false] at hc
  rcases hc with h | h | h | h | h | h | h | h | h <;> subst h <;> decide

/-- Splitting a scheme-led target at the scheme's slash: the characters
before it avoid the rule-2 value class. -/
theorem abs_split {t pat r : Str} {k : Nat} (h : lowerStr t = pat ++ r)
    (hk : pat[k]? = some '/')
    (hnb : ∀ x ∈ pat.take k, x ∉ (['"', '\'', '#', '/'] : List Char)) :
    ∃ t2, t = t.take k ++ '/' :: t2 ∧
      ∀ c ∈ t.take k, c ∉ (['"', '\'', '#', '/'] : List Char) := by
  have hkb : k < pat.length := by
    by_contra hno
    push_neg at hno
    rw [List.getElem?_eq_none hno] at hk
    exact Option.noConfusion hk
  have hlen : pat.length ≤ t.length := by
    have h2 := congrArg List.length h
    simp only [lowerStr, List.length_map, List.length_append] at h2
    omega
  have hpt : ∀ j, j < pat.length →
      ∃ c p, t[j]? = some c ∧ pat[j]? = some p ∧ lowerChar c = p := by
    intro j hj
    have hx : (lowerStr t)[j]? = pat[j]? := by
      rw [h, List.getElem?_append_left hj]
    rw [lowerStr, List.getElem?_map] at hx
    cases hc : t[j]? with
    | none =>
      exfalso
      have h5 := List.getElem?_eq_getElem (show j < t.length from by omega)
      rw [hc] at h5
      exact Option.noConfusion h5
    | some c =>
      rw [hc] at hx
      simp only [Option.map_some'] at hx
      cases hp : pat[j]? with
      | none =>
        exfalso
        have h5 := List.getElem?_eq_getElem (show j < pat.length from hj)
        rw [hp] at h5
        exact Option.noConfusion h5
      | some p =>
        rw [hp] at hx
        injection hx with hx2
        exact ⟨c, p, rfl, rfl, hx2⟩
  obtain ⟨c5, p5, hc5, hp5, hl5⟩ := hpt k hkb
  rw [hk] at hp5
  injection hp5 with hp5b
  subst hp5b
  have hc5v : c5 = '/' := lowerChar_eq_nonletter (by decide) hl5
  subst hc5v
  have hkt : k < t.length := by omega
  refine ⟨t.drop (k + 1), ?_, ?_⟩
  · have h1 := List.take_append_drop k t
    have h2 : t.drop k = t[k] :: t.drop (k + 1) := List.drop_eq_getElem_cons hkt
    have h3 : t[k] = '/' := by
      have h4 := List.getElem?_eq_getElem hkt
      rw [hc5] at h4
      injection h4 with h5
      exact h5.symm
    rw [h3] at h2
    conv_lhs => rw [← h1, h2]
  · intro c hc hmem
    obtain ⟨j, hj⟩ := List.mem_iff_getElem?.mp hc
    have hjb : j < k := by
      by_contra hno
      push_neg at hno
      rw [List.getElem?_eq_none (by simp [List.length_take]; omega)] at hj
      exact Option.noConfusion hj
    have hjt : t[j]? = some c := by
      rw [List.getElem?_take] at hj
      rw [if_pos hjb] at hj
      exact hj
    obtain ⟨c2, p, hc2, hp, hl⟩ := hpt j (by omega)
    rw [hjt] at hc2
    injection hc2 with hcc
    subst hcc
    have hfix : lowerChar c = c := by
      fin_cases hmem <;> decide
    have hpm : p ∈ pat.take k := by
      apply List.mem_iff_getElem?.mpr
      refine ⟨j, ?_⟩
      rw [List.getElem?_take]
      rw [if_pos hjb]
      exact hp
    have hpc : p = c := by rw [← hl, hfix]
    exact hnb p hpm (by rw [hpc]; exact hmem)

/-- A hygienic name avoids the rule-2/rule-4 value character class. -/
theorem clean_notin_bad {t : Str} (ht : CleanName t) :
    ∀ c ∈ t, c ∉ (['"', '\'', '#', '/'] : List Char) := by
  intro c hc hmem
  rcases ht.2 c hc with ⟨h1, h2, h3, h4, -, -⟩
  fin_cases hmem
  · exact h1 rfl
  · exact h2 rfl
  · exact h3 rfl
  · exact h4 rfl

/-- A quote is in the rule-2/rule-4 value character class. -/
theorem quote_mem_bad {q : Char} (hq : isQuote q = true) :
    q ∈ (['"', '\'', '#', '/'] : List Char) := by
  rcases isQuote_cases hq with h | h <;> subst h <;> decide

/-- Rule 3 fires on the attribute when the target is a case variant of
`index`, collapsing it to the project root. -/
theorem matchR3_attr_fire {ctx : RewCtx} {u t v : Str} {q1 q2 : Char}
    (hq1 : isQuote q1 = true) (hq2 : isQuote q2 = true) (ht : CleanName t)
    (hidx : lowerStr t = strToL "index") :
    matchR3 ctx ((attrW u q1 t q2 v).drop u.length) =
      some (12, rootHref ctx.pid) := by
  have hlen : t.length = 5 := by
    have h2 := congrArg List.length hidx
    simpa [lowerStr] using h2
  have hf : List.Forall₂ (fun a b => ciEqChar a b = true) (strToL "index") t :=
    forall2_ci_of_lower (by
      rw [show lowerStr (strToL "index") = strToL "index" from by decide, hidx])
  have hcl : ∀ c, t[0]? = some c → lowerChar c = 'i' := by
    intro c hc
    obtain ⟨a, c2, ha, hc2, hci⟩ := forall2_ci_getElem hf (i := 0) (by decide)
    rw [hc] at hc2
    injection hc2 with hc2b
    subst hc2b
    have h3 : (strToL "index")[0]? = some 'i' := by decide
    rw [h3] at ha
    injection ha with ha2
    subst ha2
    have h4 : lowerChar 'i' = lowerChar c := by simpa [ciEqChar] using hci
    rw [show lowerChar 'i' = 'i' from by decide] at h4
    exact h4.symm
  obtain ⟨a1, a2, a3, a4, a5, ht5⟩ := list_len5 hlen
  subst ht5
  rw [attrW_drop_u]
  unfold matchR3
  rw [ciPrefixRest_refl_append]
  dsimp only []
  rw [if_pos hq1]
  have hl1 := @ciStarts_false_of_clean (strToL "/preview/") [a1, a2, a3, a4, a5] v
    q2 hq2 '/' 0 (by decide) (by decide) (by decide)
    (fun c hc => (ht.2 c hc).2.2.2.1) (by decide)
  have hl1b : ciStarts (strToL "/preview/") (a1 :: a2 :: a3 :: a4 :: a5 :: q2 :: v) =
      false := by simpa using hl1
  rw [if_neg (by simp [hl1b])]
  rw [show ([a1, a2, a3, a4, a5] : Str) ++ (q2 :: v) =
    a1 :: a2 :: a3 :: a4 :: a5 :: q2 :: v from by simp]
  dsimp only []
  rw [if_neg ?hne]
  case hne =>
    rintro ⟨h1, -⟩
    have h2 := hcl a1 (by simp)
    rw [h1] at h2
    exact absurd h2 (by decide)
  have hpre2 : ciPrefixRest (strToL "index")
      (a1 :: a2 :: a3 :: a4 :: a5 :: q2 :: v) = some (q2 :: v) := by
    have h2 := ciPrefixRest_of_forall2 hf (q2 :: v)
    simpa using h2
  rw [hpre2]
  dsimp only []
  rw [if_pos hq2]

/-- Rule 4 fires on the attribute when the hygienic target is a known
non-`index` page name, producing the canonical page link. -/
theorem matchR4_attr_fire {ctx : RewCtx} {u t v : Str} {q1 q2 : Char}
    (hq1 : isQuote q1 = true) (hq2 : isQuote q2 = true) (ht : CleanName t)
    (hmem : lowerStr t ∈ ctx.allPageNames) (hni : lowerStr t ≠ strToL "index") :
    matchR4 ctx ((attrW u q1 t q2 v).drop u.length) =
      some (5 + 1 + t.length + 1, pageHref ctx.pid (declaredName ctx t)) := by
  rw [attrW_drop_u]
  unfold matchR4
  rw [ciPrefixRest_refl_append]
  dsimp only []
  rw [if_pos hq1]
  obtain ⟨c0, t2, hT⟩ : ∃ c0 t2, t = c0 :: t2 := by
    cases t with
    | nil => exact absurd rfl ht.1
    | cons a b => exact ⟨a, b, rfl⟩
  have hc0 := ht.2 c0 (by rw [hT]; simp)
  have hl1 := @ciStarts_false_of_clean (strToL "/preview/") t v q2 hq2 '/' 0
    (by decide) (by decide) (by decide) (fun c hc => (ht.2 c hc).2.2.2.1) (by decide)
  have hl2 := @ciStarts_false_of_clean (strToL "http://") t v q2 hq2 ':' 4
    (by decide) (by decide) (by decide) (fun c hc => (ht.2 c hc).2.2.2.2.2)
    (by decide)
  have hl3 := @ciStarts_false_of_clean (strToL "https://") t v q2 hq2 ':' 5
    (by decide) (by decide) (by decide) (fun c hc => (ht.2 c hc).2.2.2.2.2)
    (by decide)
  have hl4 : csStarts (strToL "/") (t ++ (q2 :: v)) = false := by
    rw [hT, show (strToL "/") = ['/'] from by decide]
    exact csStarts_single_false hc0.2.2.2.1
  have hl5 : csStarts (strToL "#") (t ++ (q2 :: v)) = false := by
    rw [hT, show (strToL "#") = ['#'] from by decide]
    exact csStarts_single_false hc0.2.2.1
  rw [if_neg (by simp [hl1, hl2, hl3, hl4, hl5])]
  rw [takeRunNot_exact (clean_notin_bad ht) (quote_mem_bad hq2)]
  dsimp only []
  rw [if_pos ⟨hq2, ht.1⟩]
  have hdot : '.' ∉ t := fun hm => (ht.2 '.' hm).2.2.2.2.1 rfl
  have hsl : '/' ∉ t := fun hm => (ht.2 '/' hm).2.2.2.1 rfl
  have hco : ':' ∉ t := fun hm => (ht.2 ':' hm).2.2.2.2.2 rfl
  rw [if_pos ⟨hdot, hsl, hco, hmem⟩]
  rw [if_neg hni]

/-- C2, amended: an `href` attribute embedded in quote-free context whose
hygienic target (no quote, hash, slash, dot or colon) matches a known page
name case-insensitively is rewritten by `updateHtmlResources` to the
canonical preview link — the project root for `index`, else
`/preview/PID/NAME` with the declared-case name — and the seven other
passes leave the document alone.  The projectId is required regex-safe
(`regexSafePid`): for an id with a regex metacharacter the source's
`new RegExp` throws and the catch returns the html unchanged, so no rewrite
happens there. -/
theorem c2_href_target_rewritten
    (u t v pid cur : Str) (q1 q2 : Char) (pages : List PageEntry)
    (planned : Option (List Str))
    (hu : NoQ u) (hv : NoQ v) (hq1 : isQuote q1 = true) (hq2 : isQuote q2 = true)
    (ht : CleanName t) (hpid : CleanPid pid)
    (hsafe : regexSafePid pid = true)
    (hnames : ∀ n ∈ (buildCtx pid pages planned).rawNames, NoQ n)
    (hwin : csEnds (strToL "window.location.") (lowerStr u) = false)
    (hknown : lowerStr t ∈ (buildCtx pid pages planned).allPageNames) :
    updateHtmlResourcesL (attrW u q1 t q2 v) pid cur pages planned =
      u ++ ((if lowerStr t = strToL "index" then rootHref pid
        else pageHref pid
          (declaredName (buildCtx pid pages planned) t)) ++ v) := by
  have hNt : NoQ t := NoQ_of_clean ht
  have hNpid : NoQ pid := NoQ_of_cleanPid hpid
  have hp : '|' ∉ pid := hpid.1
  have hheadslash : ∀ c, t[0]? = some c → ciEqChar '/' c = false := by
    intro c hc
    cases hcc : ciEqChar '/' c
    · rfl
    · exfalso
      have h2 := ciEqChar_rigid (by decide) (by decide) hcc
      subst h2
      exact (ht.2 '/' (List.mem_iff_getElem?.mpr ⟨0, hc⟩)).2.2.2.1 rfl
  unfold updateHtmlResourcesL
  rw [if_neg (attrW_ne_nil u q1 t q2 v)]
  dsimp only []
  rw [replaceScan_all_none (forall_none_of_side_attr
    (fun i hi => matchR1_side_none hp hu hNt hv hi)
    (matchR1_attr_none hp ht.1 hheadslash))]
  rw [replaceScan_all_none (forall_none_of_side_attr
    (fun i hi => matchR2_side_none hu hNt hv hi)
    (matchR2_attr_none_clean hq2 ht))]
  by_cases hidx : lowerStr t = strToL "index"
  · have hfire : matchR3 (buildCtx pid pages planned)
        ((attrW u q1 t q2 v).drop u.length) = some (7 + t.length, rootHref pid) := by
      have hlen5 : t.length = 5 := by
        have h2 := congrArg List.length hidx
        simpa [lowerStr] using h2
      rw [show 7 + t.length = 12 from by omega]
      exact matchR3_attr_fire hq1 hq2 ht hidx
    rw [scan_attr_fire (fun i hi => matchR3_side_none hu hNt hv (by omega)) hfire
      (fun j => matchR3_none_of_NoQ (NoQ_drop hv j))]
    rw [rootHref_attrW u pid v]
    have hNt0 : NoQ (strToL "/preview/" ++ pid) := NoQ_append NoQ_preview hNpid
    rw [replaceScan_all_none (forall_none_of_side_attr
      (fun i hi => matchR4_side_none hu hNt0 hv hi)
      matchR4_attr_none_preview)]
    rw [replaceScan_all_none (fun i => matchOnclick_ctx_none hu hNt0 hv i)]
    rw [replaceScan_all_none (fun i => matchWindow_ctx_none hu hNt0 hv hwin i)]
    rw [replaceScan_all_none (fun i => matchSrcA_ctx_none hu hNt0 hv i)]
    rw [replaceScan_all_none (fun i => matchSrcB_ctx_none hu hNt0 hv i)]
    rw [if_pos hidx]
    exact (rootHref_attrW u pid v).symm
  · rw [replaceScan_all_none (forall_none_of_side_attr
      (fun i hi => matchR3_side_none hu hNt hv hi)
      (matchR3_attr_none_noindex ht hv hidx))]
    have hfire : matchR4 (buildCtx pid pages planned)
        ((attrW u q1 t q2 v).drop u.length) = some (7 + t.length,
          pageHref pid (declaredName (buildCtx pid pages planned) t)) := by
      rw [show 7 + t.length = 5 + 1 + t.length + 1 from by omega]
      exact matchR4_attr_fire hq1 hq2 ht hknown hidx
    rw [scan_attr_fire (fun i hi => matchR4_side_none hu hNt hv (by omega)) hfire
      (fun j => matchR4_none_of_NoQ (NoQ_drop hv j))]
    rw [pageHref_attrW u pid (declaredName (buildCtx pid pages planned) t) v]
    have hNt1 : NoQ ((strToL "/preview/" ++ pid) ++
        '/' :: declaredName (buildCtx pid pages planned) t) :=
      NoQ_append (NoQ_append NoQ_preview hNpid)
        (NoQ_cons (by decide) (declaredName_NoQ hnames hNt))
    rw [replaceScan_all_none (fun i => matchOnclick_ctx_none hu hNt1 hv i)]
    rw [replaceScan_all_none (fun i => matchWindow_ctx_none hu hNt1 hv hwin i)]
    rw [replaceScan_all_none (fun i => matchSrcA_ctx_none hu hNt1 hv i)]
    rw [replaceScan_all_none (fun i => matchSrcB_ctx_none hu hNt1 hv i)]
    rw [if_neg hidx]
    exact (pageHref_attrW u pid (declaredName (buildCtx pid pages planned) t) v).symm

/-- C2, witness: a concrete anchor with a known page-name target is
rewritten to the canonical preview link. -/
theorem c2_href_target_rewritten_witness :
    updateHtmlResourcesL (attrW (strToL "<a ") '"' (strToL "about") '"'
        (strToL "></a>")) (strToL "p1") [] []
        (some [strToL "index", strToL "about"]) =
      strToL "<a " ++ ((if lowerStr (strToL "about") = strToL "index" then
        rootHref (strToL "p1")
        else pageHref (strToL "p1") (declaredName (buildCtx (strToL "p1") []
          (some [strToL "index", strToL "about"])) (strToL "about"))) ++
        strToL "></a>") :=
  c2_href_target_rewritten (strToL "<a ") (strToL "about") (strToL "></a>")
    (strToL "p1") [] '"' '"' [] (some [strToL "index", strToL "about"])
    (by unfold NoQ; decide) (by unfold NoQ; decide) (by decide) (by decide)
    (by unfold CleanName; decide) (by unfold CleanPid; decide) (by decide)
    (by unfold NoQ; decide) (by decide) (by decide)

/-- C3, amended: inside an `href` attribute embedded in quote-free context,
absolute `http(s)` URLs, fragment links, and already-canonical non-`index`
preview links are byte-identical before and after `updateHtmlResources`. -/
theorem c3_noninterference
    (u t v pid cur : Str) (q1 q2 : Char) (pages : List PageEntry)
    (planned : Option (List Str))
    (hu : NoQ u) (hv : NoQ v) (htq : NoQ t)
    (hq1 : isQuote q1 = true) (hq2 : isQuote q2 = true) (hpid : CleanPid pid)
    (hwin : csEnds (strToL "window.location.") (lowerStr u) = false)
    (hcls : (∃ r, lowerStr t = strToL "http://" ++ r) ∨
      (∃ r, lowerStr t = strToL "https://" ++ r) ∨
      (∃ r, t = '#' :: r) ∨
      (∃ name, t = (strToL "/preview/" ++ pid) ++ '/' :: name ∧ CleanName name ∧
        lowerStr name ≠ strToL "index")) :
    updateHtmlResourcesL (attrW u q1 t q2 v) pid cur pages planned =
      attrW u q1 t q2 v := by
  have hp : '|' ∉ pid := hpid.1
  have hattr : matchR1 pid ((attrW u q1 t q2 v).drop u.length) = none ∧
      matchR2 (buildCtx pid pages planned)
        ((attrW u q1 t q2 v).drop u.length) = none ∧
      matchR3 (buildCtx pid pages planned)
        ((attrW u q1 t q2 v).drop u.length) = none ∧
      matchR4 (buildCtx pid pages planned)
        ((attrW u q1 t q2 v).drop u.length) = none := by
    rcases hcls with ⟨r, habs⟩ | ⟨r, habs⟩ | ⟨r, hfr⟩ | ⟨name, hcan, hnm, hni⟩
    · have hne : t ≠ [] := by
        intro he
        rw [he] at habs
        have h2 : (lowerStr ([] : Str))[0]? = some 'h' := by
          rw [habs, List.getElem?_append_left (by decide)]
          decide
        simp [lowerStr] at h2
      have hhd : ∀ c, t[0]? = some c → lowerChar c = 'h' := by
        intro c hc
        have hx : (lowerStr t)[0]? = some 'h' := by
          rw [habs, List.getElem?_append_left (by decide)]
          decide
        unfold lowerStr at hx
        rw [List.getElem?_map, hc] at hx
        simp only [Option.map_some'] at hx
        exact Option.some.inj hx
      refine ⟨matchR1_attr_none hp hne ?_, ?_, matchR3_attr_none_head hne ?_ ?_,
        matchR4_attr_none_abs (Or.inl ⟨r, habs⟩)⟩
      · intro c hc
        unfold ciEqChar
        rw [hhd c hc]
        decide
      · obtain ⟨t2, hsp, ht1⟩ := abs_split habs
          (show (strToL "http://")[5]? = some '/' from by decide) (by decide)
        rw [hsp]
        exact matchR2_attr_none_abs ht1
      · intro hc
        have h2 := hhd '.' hc
        exact absurd h2 (by decide)
      · intro c hc
        unfold ciEqChar
        rw [hhd c hc]
        decide
    · have hne : t ≠ [] := by
        intro he
        rw [he] at habs
        have h2 : (lowerStr ([] : Str))[0]? = some 'h' := by
          rw [habs, List.getElem?_append_left (by decide)]
          decide
        simp [lowerStr] at h2
      have hhd : ∀ c, t[0]? = some c → lowerChar c = 'h' := by
        intro c hc
        have hx : (lowerStr t)[0]? = some 'h' := by
          rw [habs, List.getElem?_append_left (by decide)]
          decide
        unfold lowerStr at hx
        rw [List.getElem?_map, hc] at hx
        simp only [Option.map_some'] at hx
        exact Option.some.inj hx
      refine ⟨matchR1_attr_none hp hne ?_, ?_, matchR3_attr_none_head hne ?_ ?_,
        matchR4_attr_none_abs (Or.inr ⟨r, habs⟩)⟩
      · intro c hc
        unfold ciEqChar
        rw [hhd c hc]
        decide
      · obtain ⟨t2, hsp, ht1⟩ := abs_split habs
          (show (strToL "https://")[6]? = some '/' from by decide) (by decide)
        rw [hsp]
        exact matchR2_attr_none_abs ht1
      · intro hc
        have h2 := hhd '.' hc
        exact absurd h2 (by decide)
      · intro c hc
        unfold ciEqChar
        rw [hhd c hc]
        decide
    · subst hfr
      refine ⟨matchR1_attr_none hp (by simp) ?_,
        matchR2_attr_none_headbad rfl (by decide),
        matchR3_attr_none_head (by simp) (by simp) ?_,
        matchR4_attr_none_head rfl (Or.inr rfl)⟩
      · intro c hc
        simp only [List.getElem?_cons_zero] at hc
        injection hc with hc2
        subst hc2
        decide
      · intro c hc
        simp only [List.getElem?_cons_zero] at hc
        injection hc with hc2
        subst hc2
        decide
    · subst hcan
      have hT : (strToL "/preview/" ++ pid) ++ '/' :: name =
          '/' :: (strToL "preview/" ++ (pid ++ '/' :: name)) := by
        rw [show strToL "/preview/" = '/' :: strToL "preview/" from by decide]
        simp
      refine ⟨matchR1_attr_none_canon hp hv hnm hni,
        matchR2_attr_none_headbad hT (by decide),
        matchR3_attr_none_head ?_ ?_ ?_, ?_⟩
      · intro he
        rw [hT] at he
        exact List.noConfusion he
      · rw [hT]
        simp
      · intro c hc
        rw [hT] at hc
        simp only [List.getElem?_cons_zero] at hc
        injection hc with hc2
        subst hc2
        decide
      · rw [List.append_assoc]
        exact matchR4_attr_none_preview
  obtain ⟨hA1, hA2, hA3, hA4⟩ := hattr
  unfold updateHtmlResourcesL
  rw [if_neg (attrW_ne_nil u q1 t q2 v)]
  dsimp only []
  rw [replaceScan_all_none (forall_none_of_side_attr
    (fun i hi => matchR1_side_none hp hu htq hv hi) hA1)]
  rw [replaceScan_all_none (forall_none_of_side_attr
    (fun i hi => matchR2_side_none hu htq hv hi) hA2)]
  rw [replaceScan_all_none (forall_none_of_side_attr
    (fun i hi => matchR3_side_none hu htq hv hi) hA3)]
  rw [replaceScan_all_none (forall_none_of_side_attr
    (fun i hi => matchR4_side_none hu htq hv hi) hA4)]
  rw [replaceScan_all_none (fun i => matchOnclick_ctx_none hu htq hv i)]
  rw [replaceScan_all_none (fun i => matchWindow_ctx_none hu htq hv hwin i)]
  rw [replaceScan_all_none (fun i => matchSrcA_ctx_none hu htq hv i)]
  rw [replaceScan_all_none (fun i => matchSrcB_ctx_none hu htq hv i)]

/-- C3, witness: a concrete fragment link passes through all eight
rewrite passes unchanged. -/
theorem c3_noninterference_witness :
    updateHtmlResourcesL (attrW (strToL "<a ") '"' (strToL "#top") '"'
        (strToL "></a>")) (strToL "p1") [] [] none =
      attrW (strToL "<a ") '"' (strToL "#top") '"' (strToL "></a>") :=
  c3_noninterference (strToL "<a ") (strToL "#top") (strToL "></a>")
    (strToL "p1") [] '"' '"' [] none
    (by unfold NoQ; decide) (by unfold NoQ; decide) (by unfold NoQ; decide)
    (by decide) (by decide) (by unfold CleanPid; decide) (by decide)
    (Or.inr (Or.inr (Or.inl ⟨strToL "top", by decide⟩)))

end AiBuilder
